import Mathlib

/-!
Verification development for the function-execution dispatch core in
`dbms/src/Functions/IFunction.cpp`: the encoding strippers, the null
composer (`wrapInNullable`), the dispatch engine
(`PreparedFunctionImpl::execute` and its default implementations) and the
return-type mirror (`FunctionBuilderImpl::getReturnType`).

Column and data-type primitives (ColumnConst, ColumnNullable,
ColumnWithDictionary, Block, FunctionHelpers) are collaborators that are
not part of the translated file; they are modelled from the
specification's data model (spec sections 3 and 6) and marked as such.
-/

set_option linter.unreachableTactic false
set_option linter.unusedTactic false
set_option linter.unusedVariables false

namespace DB

/-- Data types as seen by the dispatch layer (spec section 3): ground
scalar types (identified by a numeric tag), the Nothing type, Nullable,
Array, Tuple (with a flag recording whether element names are explicit)
and LowCardinality (dictionary-encoded) types. -/
inductive DataType where
  | ground : Nat → DataType
  | nothing : DataType
  | nullable : DataType → DataType
  | array : DataType → DataType
  | tuple : List DataType → Bool → DataType
  | lowCardinality : DataType → DataType

/-- Modelled from the spec: the `is_nullable` predicate on types (section 6). -/
def DataType.isNullable : DataType → Bool
  | .nullable _ => true
  | _ => false

/-- Modelled from the spec: the `only_null` predicate on types (section 6);
the type of a NULL literal is Nullable(Nothing). -/
def DataType.onlyNull : DataType → Bool
  | .nullable .nothing => true
  | _ => false

/-- Modelled from the spec: `removeNullable` unwraps one Nullable layer. -/
def removeNullableType : DataType → DataType
  | .nullable t => t
  | t => t

/-- Modelled from the spec: `makeNullable` on types wraps a type in
Nullable unless it already is Nullable (types that cannot be inside
Nullable are rejected by the program; such types are excluded by the
well-formedness hypotheses of the theorems below). -/
def makeNullableType (t : DataType) : DataType :=
  if t.isNullable then t else .nullable t

mutual

/-- The type-level encoding stripper `recursiveRemoveLowCardinality`
(IFunction.cpp lines 106-130): Array recurses into the element type,
Tuple recurses into each element (preserving explicit names),
LowCardinality is replaced by its dictionary type, and every other type
(including Nullable) is returned unchanged. -/
def recursiveRemoveLowCardinalityType : DataType → DataType
  | .array t => .array (recursiveRemoveLowCardinalityType t)
  | .tuple ts named => .tuple (recursiveRemoveLowCardinalityTypeList ts) named
  | .lowCardinality t => t
  | t => t

/-- Elementwise type stripping of a Tuple's element list. -/
def recursiveRemoveLowCardinalityTypeList : List DataType → List DataType
  | [] => []
  | t :: ts => recursiveRemoveLowCardinalityType t :: recursiveRemoveLowCardinalityTypeList ts

end

/-- Columns (spec section 3): Plain dense vectors of ground values
(tagged with their ground type), the Nothing column (a bare row count),
Constant(inner, length), Nullable(values, null_map), dictionary-encoded
columns (nested dictionary column, per-row indexes, shared-dictionary
flag), Array(offsets, data) with cumulative end offsets, and Tuple. -/
inductive Col where
  | plain : Nat → List Int → Col
  | nothing : Nat → Col
  | const : Col → Nat → Col
  | nullable : Col → List Bool → Col
  | dict : Col → List Nat → Bool → Col
  | array : List Nat → Col → Col
  | tuple : List Col → Col

/-- Modelled from the spec: a column's reported number of rows (section 3). -/
def Col.size : Col → Nat
  | .plain _ vs => vs.length
  | .nothing n => n
  | .const _ n => n
  | .nullable v _ => v.size
  | .dict _ idx _ => idx.length
  | .array offs _ => offs.length
  | .tuple [] => 0
  | .tuple (c :: _) => c.size

/-- Modelled from the spec: the `is_constant` predicate (section 6). -/
def Col.isColumnConst : Col → Bool
  | .const _ _ => true
  | _ => false

/-- Modelled from the spec: the `is_nullable` predicate on columns (section 6). -/
def Col.isColumnNullable : Col → Bool
  | .nullable _ _ => true
  | _ => false

/-- Modelled from the spec: a Constant column's inner data column
(`ColumnConst::getDataColumnPtr`); identity on other columns. -/
def Col.getDataColumn : Col → Col
  | .const d _ => d
  | c => c

/-- Modelled from the spec: a Nullable column's values
(`ColumnNullable::getNestedColumnPtr`); identity on other columns. -/
def Col.nullableNested : Col → Col
  | .nullable v _ => v
  | c => c

/-- Modelled from the spec: a Nullable column's null map
(`ColumnNullable::getNullMapColumnPtr`), one byte per row, 1 = null. -/
def Col.nullableMap : Col → List Bool
  | .nullable _ m => m
  | _ => []

/-- Modelled from the spec: whether the value at a row is NULL.  A
Constant reports its single projected row, a dictionary column defers to
the dictionary at the row's index. -/
def Col.isNullAt : Col → Nat → Bool
  | .nullable _ m, i => m.getD i false
  | .const d _, _ => d.isNullAt 0
  | .dict d idx _, i => d.isNullAt (idx.getD i 0)
  | _, _ => false

/-- Modelled from the spec: the `only_null` predicate on columns
(section 6): a Constant whose single projected row is NULL. -/
def Col.onlyNull : Col → Bool
  | .const d _ => d.isNullAt 0
  | _ => false

/-- Truncate or pad a list to the requested length. -/
def resizeList (xs : List α) (d : α) (n : Nat) : List α :=
  xs.take n ++ List.replicate (n - xs.length) d

/-- Cumulative end offsets from a list of lengths. -/
def cumSum : List Nat → List Nat
  | [] => []
  | x :: xs => x :: (cumSum xs).map (· + x)

/-- Start offset of row `i` of an Array column with cumulative end offsets. -/
def arrLo (offs : List Nat) (i : Nat) : Nat :=
  if i == 0 then 0 else offs.getD (i - 1) 0

mutual

/-- Modelled from the spec: row selection `a.index(b)` (section 6),
with `(a.index(b))[i] = a[b[i]]`; on an Array column the selected rows'
element ranges are gathered. -/
def Col.indexBy : Col → List Nat → Col
  | .plain g vs, idx => .plain g (idx.map (fun i => vs.getD i 0))
  | .nothing _, idx => .nothing idx.length
  | .const d _, idx => .const d idx.length
  | .nullable v m, idx => .nullable (v.indexBy idx) (idx.map (fun i => m.getD i false))
  | .dict d di sh, idx => .dict d (idx.map (fun i => di.getD i 0)) sh
  | .tuple cs, idx => .tuple (Col.indexByList cs idx)
  | .array offs data, idx =>
    .array (cumSum (idx.map (fun i => offs.getD i 0 - arrLo offs i)))
      (data.indexBy
        ((idx.map (fun i => (List.range (offs.getD i 0 - arrLo offs i)).map (· + arrLo offs i))).flatten))

/-- Elementwise row selection of a Tuple's children. -/
def Col.indexByList : List Col → List Nat → List Col
  | [], _ => []
  | c :: cs, idx => c.indexBy idx :: Col.indexByList cs idx

end

mutual

/-- Modelled from the spec: materialization of a Constant's single row
into `n` full rows (`IColumn::replicate` on a one-row column). -/
def Col.replicateRow0 : Col → Nat → Col
  | .plain g vs, n => .plain g (List.replicate n (vs.getD 0 0))
  | .nothing _, n => .nothing n
  | .const d _, n => d.replicateRow0 n
  | .nullable v m, n => .nullable (v.replicateRow0 n) (List.replicate n (m.getD 0 false))
  | .dict d idx sh, n => .dict d (List.replicate n (idx.getD 0 0)) sh
  | .tuple cs, n => .tuple (Col.replicateRow0List cs n)
  | .array offs data, n =>
    .array (cumSum (List.replicate n (offs.getD 0 0)))
      (data.indexBy ((List.replicate n (List.range (offs.getD 0 0))).flatten))

/-- Elementwise replication of a Tuple's children. -/
def Col.replicateRow0List : List Col → Nat → List Col
  | [], _ => []
  | c :: cs, n => c.replicateRow0 n :: Col.replicateRow0List cs n

end

/-- Modelled from the spec: `convertToFullColumnIfConst` materializes a
Constant column to its full form and returns nothing otherwise. -/
def Col.convertToFullColumnIfConst : Col → Option Col
  | .const d n => some (d.replicateRow0 n)
  | _ => none

/-- Modelled from the spec: `convertToFullColumnIfWithDictionary`
materializes a dictionary-encoded column to its full form (dictionary
rows selected by the index vector); identity otherwise. -/
def Col.convertToFullColumnIfWithDictionary : Col → Col
  | .dict d idx _ => d.indexBy idx
  | c => c

/-- Modelled from the spec: `ColumnConst::removeLowCardinality`
materializes the dictionary encoding of the constant's inner data. -/
def Col.constRemoveLowCardinality : Col → Col
  | .const d n => .const d.convertToFullColumnIfWithDictionary n
  | c => c

mutual

/-- Modelled from the spec: `cloneResized` truncates or pads a column to
the requested length; for a Constant only the projected length changes. -/
def Col.cloneResized : Col → Nat → Col
  | .const d _, n => .const d n
  | .plain g vs, n => .plain g (resizeList vs 0 n)
  | .nothing _, n => .nothing n
  | .nullable v m, n => .nullable (v.cloneResized n) (resizeList m false n)
  | .dict d idx sh, n => .dict d (resizeList idx 0 n) sh
  | .array offs _, n => .array (resizeList offs (offs.getLastD 0) n) (Col.nothing 0)
  | .tuple cs, n => .tuple (Col.cloneResizedList cs n)

/-- Elementwise resizing of a Tuple's children. -/
def Col.cloneResizedList : List Col → Nat → List Col
  | [], _ => []
  | c :: cs, n => c.cloneResized n :: Col.cloneResizedList cs n

end

/-- Modelled from the spec: the `Constant(inner, len)` constructor
(section 6); a Constant projects a single value, so a Constant inner is
unwrapped (Constant of Constant is squashed, as `ColumnConst` does). -/
def Col.constCreate : Col → Nat → Col
  | .const d _, n => Col.constCreate d n
  | d, n => .const d n

/-- Modelled from the spec: `makeNullable` on columns: a Nullable column
is returned unchanged, a Constant wraps its inner, any other column is
paired with an all-zero null map. -/
def makeNullableColumn : Col → Col
  | .nullable v m => .nullable v m
  | .const d n => .const (makeNullableColumn d) n
  | c => .nullable c (List.replicate c.size false)

mutual

/-- The column-level encoding stripper `recursiveRemoveLowCardinality`
(IFunction.cpp lines 132-155): Array rebuilds with stripped data and the
original offsets, Constant rebuilds with stripped inner and the original
length, Tuple recurses into each child, a dictionary-encoded column is
materialized to its full form, and every other column is returned
unchanged. -/
def recursiveRemoveLowCardinalityColumn : Col → Col
  | .array offs data => .array offs (recursiveRemoveLowCardinalityColumn data)
  | .const d n => .const (recursiveRemoveLowCardinalityColumn d) n
  | .tuple cs => .tuple (recursiveRemoveLowCardinalityColumnList cs)
  | .dict d idx _ => d.indexBy idx
  | c => c

/-- Elementwise column stripping of a Tuple's children. -/
def recursiveRemoveLowCardinalityColumnList : List Col → List Col
  | [] => []
  | c :: cs => recursiveRemoveLowCardinalityColumn c :: recursiveRemoveLowCardinalityColumnList cs

end

mutual

/-- Modelled from the spec: the stable content hash of a dictionary
(section 4.C); dictionaries with the same hash are assumed equal. -/
def Col.contentHash : Col → Nat
  | .plain g vs => vs.foldl (fun h v => h * 31 + (v.natAbs + 7 * g)) 3
  | .nothing n => n + 11
  | .const d n => d.contentHash * 13 + n
  | .nullable v m => v.contentHash * 17 + m.foldl (fun h b => h * 2 + (if b then 1 else 0)) 0
  | .dict d idx _ => d.contentHash * 19 + idx.foldl (fun h i => h * 31 + i) 5
  | .array offs data => data.contentHash * 23 + offs.foldl (fun h i => h * 31 + i) 7
  | .tuple cs => Col.contentHashList cs

/-- Content hash of a Tuple's children. -/
def Col.contentHashList : List Col → Nat
  | [] => 9
  | c :: cs => c.contentHash * 29 + Col.contentHashList cs

end

/-- Modelled from the spec: one block position holding a name, a type and
an optional column (a result position is pre-allocated with no column). -/
structure ColumnWithTypeAndName where
  column : Option Col
  type : DataType
  name : String

/-- Modelled from the spec: a block is an ordered sequence of positions
(section 3). -/
abbrev Block := List ColumnWithTypeAndName

/-- Default position returned for out-of-range access. -/
def emptyPosition : ColumnWithTypeAndName := ⟨none, .nothing, ""⟩

/-- Modelled from the spec: positional access into a block. -/
def Block.getByPosition (block : Block) (i : Nat) : ColumnWithTypeAndName :=
  block.getD i emptyPosition

/-- The column stored at a position, defaulting to an empty Nothing column. -/
def ColumnWithTypeAndName.col (x : ColumnWithTypeAndName) : Col :=
  x.column.getD (Col.nothing 0)

/-- Modelled from the spec: overwrite one position of a block. -/
def Block.setPosition (block : Block) (i : Nat) (p : ColumnWithTypeAndName) : Block :=
  block.set i p

/-- Modelled from the spec: write a column into a position of a block. -/
def Block.setColumn (block : Block) (i : Nat) (c : Col) : Block :=
  block.set i ⟨some c, (Block.getByPosition block i).type, (Block.getByPosition block i).name⟩

/-- Modelled from the spec: overwrite the type of a position of a block. -/
def Block.setType (block : Block) (i : Nat) (t : DataType) : Block :=
  block.set i ⟨(Block.getByPosition block i).column, t, (Block.getByPosition block i).name⟩

/-- Modelled from the spec: the number of rows of a block is the length
reported by its first position that holds a column (section 3). -/
def Block.rows : Block → Nat
  | [] => 0
  | p :: rest =>
    match p.column with
    | some c => c.size
    | none => Block.rows rest

/-- Modelled from the spec: `cloneWithoutColumns` keeps names and types
and drops every column. -/
def Block.cloneWithoutColumns (block : Block) : Block :=
  block.map (fun p => ⟨none, p.type, p.name⟩)

/-- The positions of a block selected by an argument index list. -/
def Block.argDescr (block : Block) (args : List Nat) : List ColumnWithTypeAndName :=
  args.map (Block.getByPosition block)

/-- Kernel invocation record: the block, the argument list, the result
position and the row count the row-kernel was invoked with. -/
structure KernelCall where
  block : Block
  args : List Nat
  result : Nat
  rows : Nat

/-- Error kinds surfaced by the dispatcher (spec section 7), together
with the collaborator error raised when NULL is inserted into a type
that cannot hold it, and a marker for exhausted recursion fuel (the
dispatch cascade recursion is bounded in the program; the explicit fuel
makes it structural here). -/
inductive Err where
  | numberOfArgumentsDoesntMatch
  | illegalColumn
  | logicalError
  | cannotInsertNull
  | outOfFuel
deriving DecidableEq

mutual

/-- Modelled from the spec: a column of default values of a type. -/
def DataType.defaultColumn : DataType → Nat → Col
  | .ground g, n => .plain g (List.replicate n 0)
  | .nothing, n => .nothing n
  | .nullable t, n => .nullable (t.defaultColumn n) (List.replicate n false)
  | .array t, n => .array (List.replicate n 0) (t.defaultColumn 0)
  | .tuple ts _, n => .tuple (DataType.defaultColumnList ts n)
  | .lowCardinality t, n => .dict (t.defaultColumn 1) (List.replicate n 0) false

/-- Default columns for a Tuple's element types. -/
def DataType.defaultColumnList : List DataType → Nat → List Col
  | [], _ => []
  | t :: ts, n => t.defaultColumn n :: DataType.defaultColumnList ts n

end

/-- Modelled from the spec: `type->createColumnConst(n, Null())` builds a
Constant of length `n` whose single projected row is NULL; the program
raises an error when the type cannot hold NULL. -/
def DataType.createColumnConstNull : DataType → Nat → Except Err Col
  | .nullable t, n => .ok (.const (.nullable (t.defaultColumn 1) [true]) n)
  | .nothing, n => .ok (.const (.nothing 1) n)
  | _, _ => .error .cannotInsertNull

/-- Cached values of the dictionary result cache (IFunction.cpp lines 73-80). -/
structure CachedValues where
  dictionary_holder : Col
  function_result : Col
  index_mapping : List Nat

/-- Key of the dictionary result cache: dictionary hash and size
(IFunction.cpp lines 53-59). -/
abbrev DictionaryKey := Nat × Nat

/-- A function as seen by the dispatcher: capability flags, arity
descriptor, the row-kernel (`executeImpl`), the return-type kernel
(`getReturnTypeImpl`) and the optional dictionary result cache
(spec sections 3 and 6). -/
structure Func where
  useDefaultImplementationForConstants : Bool
  useDefaultImplementationForNulls : Bool
  useDefaultImplementationForColumnsWithDictionary : Bool
  canBeExecutedOnDefaultArguments : Bool
  canBeExecutedOnLowCardinalityDictionary : Bool
  isVariadic : Bool
  numberOfArguments : Nat
  argumentsThatAreAlwaysConstant : List Nat
  kernel : Block → List Nat → Nat → Nat → Except Err Col
  returnTypeImpl : List ColumnWithTypeAndName → Except Err DataType
  lowCardinalityResultCache : Option (List (DictionaryKey × CachedValues))

/-- Cache lookup, `PreparedFunctionLowCardinalityResultCache::get`
(IFunction.cpp line 86); LRU bookkeeping is not observable within one
invocation and is not modelled. -/
def cacheGet (cache : Option (List (DictionaryKey × CachedValues))) (key : DictionaryKey) :
    Option CachedValues :=
  match cache with
  | none => none
  | some entries => entries.lookup key

/-- Atomic get-or-set, `PreparedFunctionLowCardinalityResultCache::getOrSet`
(IFunction.cpp lines 88-91): the existing entry for the key if present,
else the offered value. -/
def cacheGetOrSet (cache : Option (List (DictionaryKey × CachedValues))) (key : DictionaryKey)
    (v : CachedValues) : CachedValues :=
  match cacheGet cache key with
  | some cv => cv
  | none => v

/-- Null-presence flags (IFunction.cpp lines 222-226). -/
structure NullPresence where
  has_nullable : Bool
  has_null_constant : Bool

/-- `getNullPresense` over block positions (IFunction.cpp lines 228-243). -/
def getNullPresense (block : Block) (args : List Nat) : NullPresence :=
  args.foldl
    (fun res arg =>
      let elem := Block.getByPosition block arg
      ⟨res.has_nullable || elem.type.isNullable, res.has_null_constant || elem.type.onlyNull⟩)
    ⟨false, false⟩

/-- `getNullPresense` over a plain argument list (IFunction.cpp lines 245-258). -/
def getNullPresenseCols (args : List ColumnWithTypeAndName) : NullPresence :=
  args.foldl
    (fun res elem =>
      ⟨res.has_nullable || elem.type.isNullable, res.has_null_constant || elem.type.onlyNull⟩)
    ⟨false, false⟩

/-- `allArgumentsAreConstants` (IFunction.cpp lines 260-266). -/
def allArgumentsAreConstants (block : Block) (args : List Nat) : Bool :=
  args.all (fun arg => (Block.getByPosition block arg).col.isColumnConst)

/-- Modelled from the spec (section 4.D.2 step 3): rebuild a block in
which every selected Nullable-typed position is replaced by its inner
values and its type loses the Nullable wrapper.  A position with no
column keeps none, a Nullable column is unwrapped to its values, a
Constant column is rebuilt around its data's values.  The program
rejects any other column under a Nullable type; such ill-typed positions
are kept unchanged here and excluded by the theorems' hypotheses. -/
def createBlockWithNestedColumnsIn (block : Block) (inSet : Nat → Bool) : Block :=
  (List.range block.length).map (fun i =>
    let elem := Block.getByPosition block i
    if inSet i && elem.type.isNullable then
      let nestedType := removeNullableType elem.type
      match elem.column with
      | none => ⟨none, nestedType, elem.name⟩
      | some c =>
        if c.isColumnNullable then ⟨some c.nullableNested, nestedType, elem.name⟩
        else if c.isColumnConst then
          ⟨some (Col.constCreate c.getDataColumn.nullableNested c.size), nestedType, elem.name⟩
        else elem
    else elem)

/-- Modelled from the spec: `createBlockWithNestedColumns(block, args)`. -/
def createBlockWithNestedColumns (block : Block) (args : List Nat) : Block :=
  createBlockWithNestedColumnsIn block (fun i => args.contains i)

/-- Modelled from the spec: `createBlockWithNestedColumns(block, args, result)`,
which also strips the result position's type. -/
def createBlockWithNestedColumnsWithResult (block : Block) (args : List Nat) (result : Nat) :
    Block :=
  createBlockWithNestedColumnsIn block (fun i => args.contains i || i == result)

/-- Argument scan of `wrapInNullable` (IFunction.cpp lines 173-207):
either the accumulated null map (left) or the Constant-NULL
short-circuit column (right). -/
def wrapInNullableGo (block : Block) (result : Nat) (input_rows_count : Nat) :
    List Nat → Option (List Bool) → Except Err (Option (List Bool) ⊕ Col)
  | [], acc => .ok (.inl acc)
  | arg :: rest, acc =>
    let elem := Block.getByPosition block arg
    if !elem.type.isNullable then wrapInNullableGo block result input_rows_count rest acc
    else if elem.col.onlyNull then
      match (Block.getByPosition block result).type.createColumnConstNull input_rows_count with
      | .error e => .error e
      | .ok c => .ok (.inr c)
    else if elem.col.isColumnConst then wrapInNullableGo block result input_rows_count rest acc
    else if elem.col.isColumnNullable then
      let m := elem.col.nullableMap
      match acc with
      | none => wrapInNullableGo block result input_rows_count rest (some m)
      | some r =>
        wrapInNullableGo block result input_rows_count rest
          (some (r.mapIdx (fun i v => v || m.getD i false)))
    else wrapInNullableGo block result input_rows_count rest acc

/-- The null composer `wrapInNullable` (IFunction.cpp lines 158-216). -/
def wrapInNullable (src : Col) (block : Block) (args : List Nat) (result : Nat)
    (input_rows_count : Nat) : Except Err Col :=
  if src.onlyNull then .ok src
  else
    let src_not_nullable := if src.isColumnNullable then src.nullableNested else src
    let result_null_map_column := if src.isColumnNullable then some src.nullableMap else none
    match wrapInNullableGo block result input_rows_count args result_null_map_column with
    | .error e => .error e
    | .ok (.inr c) => .ok c
    | .ok (.inl none) => .ok (makeNullableColumn src)
    | .ok (.inl (some m)) =>
      if src_not_nullable.isColumnConst then
        .ok (.nullable (src_not_nullable.convertToFullColumnIfConst.getD src_not_nullable) m)
      else .ok (.nullable src_not_nullable m)

/-- The recursive re-entry point handed to the default implementations:
`executeWithoutColumnsWithDictionary` applied to the current function. -/
abbrev ExecCont := Block → List Nat → Nat → Nat → List KernelCall × Except Err Block

/-- `PreparedFunctionImpl::defaultImplementationForConstantArguments`
(IFunction.cpp lines 269-316); `ok none` means the default does not
apply (the source returns false). -/
def defaultImplementationForConstantArguments (recur : ExecCont) (f : Func) (block : Block)
    (args : List Nat) (result : Nat) (input_rows_count : Nat) :
    List KernelCall × Except Err (Option Block) :=
  let arguments_to_remain_constants := f.argumentsThatAreAlwaysConstant
  if arguments_to_remain_constants.any (fun arg_num =>
      decide (arg_num < args.length) &&
      !(Block.getByPosition block (args.getD arg_num 0)).col.isColumnConst) then
    ([], .error .illegalColumn)
  else if args.isEmpty || !f.useDefaultImplementationForConstants
      || !allArgumentsAreConstants block args then
    ([], .ok none)
  else
    let arguments_size := args.length
    let converted_args : Block :=
      (List.range arguments_size).map (fun arg_num =>
        let column := Block.getByPosition block (args.getD arg_num 0)
        if arguments_to_remain_constants.contains arg_num then column
        else ⟨column.column.map Col.getDataColumn, column.type, column.name⟩)
    let have_converted_columns :=
      (List.range arguments_size).any (fun arg_num => !arguments_to_remain_constants.contains arg_num)
    if !have_converted_columns then ([], .error .numberOfArgumentsDoesntMatch)
    else
      let temporary_block := converted_args ++ [Block.getByPosition block result]
      match recur temporary_block (List.range arguments_size) arguments_size
          (Block.rows temporary_block) with
      | (calls, .error e) => (calls, .error e)
      | (calls, .ok tb) =>
        (calls, .ok (some (Block.setColumn block result
          (Col.constCreate (Block.getByPosition tb arguments_size).col input_rows_count))))

/-- `PreparedFunctionImpl::defaultImplementationForNulls`
(IFunction.cpp lines 319-343); `ok none` means the default does not
apply (the source returns false). -/
def defaultImplementationForNulls (recur : ExecCont) (f : Func) (block : Block)
    (args : List Nat) (result : Nat) (input_rows_count : Nat) :
    List KernelCall × Except Err (Option Block) :=
  if args.isEmpty || !f.useDefaultImplementationForNulls then ([], .ok none)
  else
    let null_presence := getNullPresense block args
    if null_presence.has_null_constant then
      match (Block.getByPosition block result).type.createColumnConstNull input_rows_count with
      | .error e => ([], .error e)
      | .ok c => ([], .ok (some (Block.setColumn block result c)))
    else if null_presence.has_nullable then
      let temporary_block := createBlockWithNestedColumnsWithResult block args result
      match recur temporary_block args result (Block.rows temporary_block) with
      | (calls, .error e) => (calls, .error e)
      | (calls, .ok tb) =>
        match wrapInNullable (Block.getByPosition tb result).col block args result
            input_rows_count with
        | .error e => (calls, .error e)
        | .ok c => (calls, .ok (some (Block.setColumn block result c)))
    else ([], .ok none)

/-- `PreparedFunctionImpl::executeWithoutColumnsWithDictionary`
(IFunction.cpp lines 345-354), with explicit recursion fuel: try the
constants default, then the nulls default, then invoke the row-kernel. -/
def executeWithoutLowCardinality : Nat → Func → Block → List Nat → Nat → Nat →
    List KernelCall × Except Err Block
  | 0, _, _, _, _, _ => ([], .error .outOfFuel)
  | fuel + 1, f, block, args, result, input_rows_count =>
    match defaultImplementationForConstantArguments (executeWithoutLowCardinality fuel f) f
        block args result input_rows_count with
    | (calls, .error e) => (calls, .error e)
    | (calls, .ok (some b)) => (calls, .ok b)
    | (_, .ok none) =>
      match defaultImplementationForNulls (executeWithoutLowCardinality fuel f) f
          block args result input_rows_count with
      | (calls, .error e) => (calls, .error e)
      | (calls, .ok (some b)) => (calls, .ok b)
      | (_, .ok none) =>
        match f.kernel block args result input_rows_count with
        | .error e => ([⟨block, args, result, input_rows_count⟩], .error e)
        | .ok c =>
          ([⟨block, args, result, input_rows_count⟩], .ok (Block.setColumn block result c))

/-- Scan step of `findLowCardinalityArgument`. -/
def findLowCardinalityArgumentGo (block : Block) : List Nat → Option Col → Except Err (Option Col)
  | [], acc => .ok acc
  | arg :: rest, acc =>
    match (Block.getByPosition block arg).col with
    | .dict d idx sh =>
      match acc with
      | some _ => .error .logicalError
      | none => findLowCardinalityArgumentGo block rest (some (.dict d idx sh))
    | _ => findLowCardinalityArgumentGo block rest acc

/-- `findLowCardinalityArgument` (IFunction.cpp lines 356-373): the at
most one dictionary-encoded argument column; a second one raises
LOGICAL_ERROR. -/
def findLowCardinalityArgument (block : Block) (args : List Nat) : Except Err (Option Col) :=
  findLowCardinalityArgumentGo block args none

/-- First scan of
`replaceColumnsWithDictionaryByNestedAndGetDictionaryIndexes`
(IFunction.cpp lines 378-392): the dictionary argument's index vector
and the dictionary's row count; a second dictionary argument raises
LOGICAL_ERROR. -/
def replaceLowCardinalityScan (block : Block) :
    List Nat → Option (List Nat) → Nat → Except Err (Option (List Nat) × Nat)
  | [], indexes, num_rows => .ok (indexes, num_rows)
  | arg :: rest, indexes, num_rows =>
    match (Block.getByPosition block arg).col with
    | .dict d idx _ =>
      match indexes with
      | some _ => .error .logicalError
      | none => replaceLowCardinalityScan block rest (some idx) d.size
    | _ => replaceLowCardinalityScan block rest indexes num_rows

/-- Second scan of
`replaceColumnsWithDictionaryByNestedAndGetDictionaryIndexes`
(IFunction.cpp lines 394-417): Constant arguments are stripped and
resized to the dictionary row count, the dictionary argument is replaced
by the dictionary's nested column (when the kernel can run on default
arguments) or by its minimal dictionary encoding (whose surviving
indexes replace the index vector), and the argument's type is replaced
by the dictionary type; a dictionary column with a non-dictionary
declared type raises LOGICAL_ERROR.  The minimal dictionary encoding is
modelled from the spec as the dictionary rows selected by the index
vector with the identity remap. -/
def replaceLowCardinalityRewrite (can_be_executed_on_default_arguments : Bool) (num_rows : Nat) :
    Block → List Nat → Option (List Nat) → Except Err (Block × Option (List Nat))
  | block, [], indexes => .ok (block, indexes)
  | block, arg :: rest, indexes =>
    let column := Block.getByPosition block arg
    match column.col with
    | .const d n =>
      replaceLowCardinalityRewrite can_be_executed_on_default_arguments num_rows
        (Block.setColumn block arg ((Col.const d n).constRemoveLowCardinality.cloneResized num_rows))
        rest indexes
    | .dict d idx _ =>
      match column.type with
      | .lowCardinality dictionary_type =>
        if can_be_executed_on_default_arguments then
          replaceLowCardinalityRewrite can_be_executed_on_default_arguments num_rows
            (Block.setPosition block arg ⟨some d, dictionary_type, column.name⟩) rest indexes
        else
          replaceLowCardinalityRewrite can_be_executed_on_default_arguments num_rows
            (Block.setPosition block arg ⟨some (d.indexBy idx), dictionary_type, column.name⟩)
            rest (some (List.range idx.length))
      | _ => .error .logicalError
    | _ =>
      replaceLowCardinalityRewrite can_be_executed_on_default_arguments num_rows block rest indexes

/-- `replaceColumnsWithDictionaryByNestedAndGetDictionaryIndexes`
(IFunction.cpp lines 375-420). -/
def replaceColumnsWithDictionaryByNestedAndGetDictionaryIndexes (block : Block)
    (args : List Nat) (can_be_executed_on_default_arguments : Bool) :
    Except Err (Block × Option (List Nat)) :=
  match replaceLowCardinalityScan block args none 0 with
  | .error e => .error e
  | .ok (indexes, num_rows) =>
    replaceLowCardinalityRewrite can_be_executed_on_default_arguments num_rows block args indexes

/-- `convertColumnsWithDictionaryToFull` (IFunction.cpp lines 422-431). -/
def convertColumnsWithDictionaryToFull (block : Block) (args : List Nat) : Block :=
  args.foldl
    (fun b arg =>
      let p := Block.getByPosition b arg
      Block.setPosition b arg
        ⟨p.column.map recursiveRemoveLowCardinalityColumn,
          recursiveRemoveLowCardinalityType p.type, p.name⟩)
    block

/-- Modelled from the spec: `unique_insert_range(values)` producing
`(unique_dict, indexes)` (section 6).  The dictionary is modelled as the
inserted key column itself with the identity index mapping; the identity
of deduplicated entries is not observed by any claim settled here. -/
def uniqueInsertRangeFrom (dictionary_type : DataType) (keys : Col) : Col × List Nat :=
  (keys, List.range keys.size)

/-- Modelled from the spec: dictionary remap composition
`(a.index(b))[i] = a[b[i]]` on index vectors (section 6). -/
def composeIndexes (mapping : List Nat) (idx : List Nat) : List Nat :=
  idx.map (fun i => mapping.getD i 0)

/-- `PreparedFunctionImpl::execute` (IFunction.cpp lines 433-509): the
outer dispatch entry handling dictionary-encoded columns, the dictionary
result cache, and delegation to the constants/nulls cascade. -/
def execute (fuel : Nat) (f : Func) (block : Block) (args : List Nat) (result : Nat)
    (input_rows_count : Nat) : List KernelCall × Except Err Block :=
  if f.useDefaultImplementationForColumnsWithDictionary then
    let res := Block.getByPosition block result
    let block_without_dicts : Block :=
      (List.range block.length).map (fun i =>
        let p := Block.getByPosition block i
        if args.contains i then p else ⟨none, p.type, p.name⟩)
    match res.type with
    | .lowCardinality dictionary_type =>
      match findLowCardinalityArgument block args with
      | .error e => ([], .error e)
      | .ok low_cardinality_column =>
        let can_be_executed_on_default_arguments := f.canBeExecutedOnDefaultArguments
        let use_cache := f.lowCardinalityResultCache.isSome
          && can_be_executed_on_default_arguments
          && (match low_cardinality_column with
              | some (.dict _ _ sh) => sh
              | _ => false)
        let key : DictionaryKey :=
          match low_cardinality_column with
          | some (.dict d _ _) => (d.contentHash, d.size)
          | _ => (0, 0)
        match (if use_cache then cacheGet f.lowCardinalityResultCache key else none) with
        | some cached_values =>
          let caller_indexes :=
            match low_cardinality_column with
            | some (.dict _ idx _) => idx
            | _ => []
          ([], .ok (Block.setColumn block result
            (.dict cached_values.function_result
              (composeIndexes cached_values.index_mapping caller_indexes) true)))
        | none =>
          let bwd := Block.setType block_without_dicts result dictionary_type
          match replaceColumnsWithDictionaryByNestedAndGetDictionaryIndexes bwd args
              can_be_executed_on_default_arguments with
          | .error e => ([], .error e)
          | .ok (bwd2, indexes) =>
            match executeWithoutLowCardinality fuel f bwd2 args result (Block.rows bwd2) with
            | (calls, .error e) => (calls, .error e)
            | (calls, .ok tb) =>
              let keys0 := (Block.getByPosition tb result).col
              let keys := keys0.convertToFullColumnIfConst.getD keys0
              let ur := uniqueInsertRangeFrom dictionary_type keys
              match indexes with
              | some idx =>
                let dict_holder :=
                  match low_cardinality_column with
                  | some (.dict d _ _) => d
                  | _ => Col.nothing 0
                let adopted :=
                  if use_cache then
                    cacheGetOrSet f.lowCardinalityResultCache key ⟨dict_holder, ur.1, ur.2⟩
                  else ⟨dict_holder, ur.1, ur.2⟩
                (calls, .ok (Block.setColumn block result
                  (.dict adopted.function_result
                    (composeIndexes adopted.index_mapping idx) use_cache)))
              | none =>
                (calls, .ok (Block.setColumn block result (.dict ur.1 ur.2 false)))
    | _ =>
      let bwd2 := convertColumnsWithDictionaryToFull block_without_dicts args
      match executeWithoutLowCardinality fuel f bwd2 args result input_rows_count with
      | (calls, .error e) => (calls, .error e)
      | (calls, .ok tb) =>
        (calls, .ok (Block.setColumn block result (Block.getByPosition tb result).col))
  else executeWithoutLowCardinality fuel f block args result input_rows_count

/-- `FunctionBuilderImpl::checkNumberOfArguments` (IFunction.cpp lines 511-522). -/
def checkNumberOfArguments (f : Func) (number_of_arguments : Nat) : Except Err Unit :=
  if f.isVariadic then .ok ()
  else if number_of_arguments ≠ f.numberOfArguments then .error .numberOfArgumentsDoesntMatch
  else .ok ()

/-- `FunctionBuilderImpl::getReturnTypeWithoutDictionary`
(IFunction.cpp lines 524-546): arity check, then the nulls default at
type level. -/
def getReturnTypeWithoutLowCardinality (f : Func) (arguments : List ColumnWithTypeAndName) :
    Except Err DataType :=
  match checkNumberOfArguments f arguments.length with
  | .error e => .error e
  | .ok _ =>
    if !arguments.isEmpty && f.useDefaultImplementationForNulls then
      let null_presence := getNullPresenseCols arguments
      if null_presence.has_null_constant then .ok (makeNullableType .nothing)
      else if null_presence.has_nullable then
        let nested_block := createBlockWithNestedColumns arguments (List.range arguments.length)
        match f.returnTypeImpl nested_block with
        | .error e => .error e
        | .ok return_type => .ok (makeNullableType return_type)
      else f.returnTypeImpl arguments
    else f.returnTypeImpl arguments

/-- `FunctionBuilderImpl::getReturnType` (IFunction.cpp lines 614-656):
the return-type mirror of the dictionary stripping performed by
`execute`. -/
def getReturnType (f : Func) (arguments : List ColumnWithTypeAndName) : Except Err DataType :=
  if f.useDefaultImplementationForColumnsWithDictionary then
    let infos := arguments.map (fun arg =>
      let is_const := match arg.column with
        | some c => c.isColumnConst
        | none => false
      let arg1 : ColumnWithTypeAndName :=
        if is_const then ⟨arg.column.map Col.constRemoveLowCardinality, arg.type, arg.name⟩
        else arg
      match arg1.type with
      | .lowCardinality t =>
        (ColumnWithTypeAndName.mk arg1.column t arg1.name, true,
          (if is_const then 0 else 1 : Nat), (0 : Nat))
      | _ => (arg1, false, (0 : Nat), (if is_const then 0 else 1 : Nat)))
    let has_low_cardinality := infos.any (fun x => x.2.1)
    let num_full_low_cardinality_columns := (infos.map (fun x => x.2.2.1)).sum
    let num_full_ordinary_columns := (infos.map (fun x => x.2.2.2)).sum
    let args_without_low_cardinality : List ColumnWithTypeAndName := infos.map (fun x =>
      ⟨x.1.column.map recursiveRemoveLowCardinalityColumn,
        recursiveRemoveLowCardinalityType x.1.type, x.1.name⟩)
    if f.canBeExecutedOnLowCardinalityDictionary && has_low_cardinality
        && decide (num_full_low_cardinality_columns ≤ 1)
        && decide (num_full_ordinary_columns = 0) then
      match getReturnTypeWithoutLowCardinality f args_without_low_cardinality with
      | .error e => .error e
      | .ok t => .ok (.lowCardinality t)
    else getReturnTypeWithoutLowCardinality f args_without_low_cardinality
  else getReturnTypeWithoutLowCardinality f arguments

/-! Stripping idempotence (spec section 4.A). -/

mutual

/-- Characterization of fixpoints of the type stripper: no dictionary
encoding at any position the stripper reaches (it does not descend into
Nullable). -/
def DataType.stripFixedT : DataType → Bool
  | .ground _ => true
  | .nothing => true
  | .nullable _ => true
  | .array t => t.stripFixedT
  | .tuple ts _ => DataType.stripFixedTList ts
  | .lowCardinality _ => false

/-- Fixpoint characterization for a Tuple's element types. -/
def DataType.stripFixedTList : List DataType → Bool
  | [] => true
  | t :: ts => t.stripFixedT && DataType.stripFixedTList ts

end

mutual

/-- Well-formedness for stripping idempotence on types: every
LowCardinality type's dictionary type is already a fixpoint of the
stripper, as the program guarantees for constructible dictionary types. -/
def DataType.stripWfT : DataType → Bool
  | .ground _ => true
  | .nothing => true
  | .nullable _ => true
  | .array t => t.stripWfT
  | .tuple ts _ => DataType.stripWfTList ts
  | .lowCardinality t => t.stripFixedT

/-- Idempotence well-formedness for a Tuple's element types. -/
def DataType.stripWfTList : List DataType → Bool
  | [] => true
  | t :: ts => t.stripWfT && DataType.stripWfTList ts

end

mutual

/-- Characterization of fixpoints of the column stripper: no dictionary
encoding at any position the stripper reaches (it does not descend into
Nullable). -/
def Col.stripFixedC : Col → Bool
  | .plain _ _ => true
  | .nothing _ => true
  | .nullable _ _ => true
  | .const d _ => d.stripFixedC
  | .array _ data => data.stripFixedC
  | .tuple cs => Col.stripFixedCList cs
  | .dict _ _ _ => false

/-- Fixpoint characterization for a Tuple's children. -/
def Col.stripFixedCList : List Col → Bool
  | [] => true
  | c :: cs => c.stripFixedC && Col.stripFixedCList cs

end

/-- The nested column of a dictionary is a simple non-container column
(a plain vector, possibly Nullable), as the program's unique dictionary
columns guarantee. -/
def Col.dictionaryNestedSimple : Col → Bool
  | .plain _ _ => true
  | .nothing _ => true
  | .nullable _ _ => true
  | _ => false

mutual

/-- Well-formedness for stripping idempotence on columns: every
dictionary's nested column is simple. -/
def Col.stripWfC : Col → Bool
  | .plain _ _ => true
  | .nothing _ => true
  | .nullable _ _ => true
  | .const d _ => d.stripWfC
  | .array _ data => data.stripWfC
  | .tuple cs => Col.stripWfCList cs
  | .dict d _ _ => d.dictionaryNestedSimple

/-- Idempotence well-formedness for a Tuple's children. -/
def Col.stripWfCList : List Col → Bool
  | [] => true
  | c :: cs => c.stripWfC && Col.stripWfCList cs

end

/-- A dictionary-encoded column, constructor-wise. -/
def Col.isColumnLowCardinality : Col → Bool
  | .dict _ _ _ => true
  | _ => false

/-! Type-value agreement (claim C1). -/

mutual

/-- Modelled from the spec: a column conforms to a type (section 3):
Plain columns to their ground type, Nothing columns to Nothing, Nullable
columns to Nullable of their values' type, dictionary-encoded columns to
LowCardinality of their dictionary's type, Array and Tuple structurally;
a Constant is transparent (`ColumnConst` keeps its data column's type). -/
def hasType : Col → DataType → Bool
  | .const d _, t => hasType d t
  | .plain g _, .ground g2 => g == g2
  | .nothing _, .nothing => true
  | .nullable v _, .nullable t => hasType v t
  | .dict d _ _, .lowCardinality t => hasType d t
  | .array _ data, .array t => hasType data t
  | .tuple cs, .tuple ts _ => hasTypeList cs ts
  | _, _ => false

/-- Elementwise conformance of a Tuple's children. -/
def hasTypeList : List Col → List DataType → Bool
  | [], [] => true
  | c :: cs, t :: ts => hasType c t && hasTypeList cs ts
  | _, _ => false

end

/-- A LowCardinality-headed type. -/
def DataType.headLC : DataType → Bool
  | .lowCardinality _ => true
  | _ => false

/-- Modelled from the spec: the types the program accepts inside
LowCardinality (`canBeInsideLowCardinality`, section 3): a ground type,
Nothing, or Nullable of one of these. -/
def lcInnerWf : DataType → Bool
  | .ground _ => true
  | .nothing => true
  | .nullable (.ground _) => true
  | .nullable .nothing => true
  | _ => false

mutual

/-- Modelled from the spec: well-formed types — Nullable holds neither
Nullable nor LowCardinality, LowCardinality holds only a type the
program accepts inside it (section 3). -/
def typeWf : DataType → Bool
  | .ground _ => true
  | .nothing => true
  | .nullable t => !t.isNullable && !t.headLC && typeWf t
  | .array t => typeWf t
  | .tuple ts _ => typeWfList ts
  | .lowCardinality t => lcInnerWf t

/-- Well-formedness of a Tuple's element types. -/
def typeWfList : List DataType → Bool
  | [] => true
  | t :: ts => typeWf t && typeWfList ts

end

mutual

/-- Modelled from the spec: well-formed columns — a Constant's data, a
Nullable's values and a dictionary are never Constant, a Nullable's
values are never Nullable (section 3). -/
def Col.colWf : Col → Bool
  | .plain _ _ => true
  | .nothing _ => true
  | .const d _ => !d.isColumnConst && d.colWf
  | .nullable v _ => !v.isColumnConst && !v.isColumnNullable && v.colWf
  | .dict d _ _ => !d.isColumnConst && d.colWf
  | .array _ data => data.colWf
  | .tuple cs => Col.colWfList cs

/-- Well-formedness of a Tuple's children. -/
def Col.colWfList : List Col → Bool
  | [] => true
  | c :: cs => c.colWf && Col.colWfList cs

end

/-- The per-position invariant the dispatch cascade needs of an argument
position: whenever the position's declared type is Nullable, its column
conforms to that (well-formed) type and is well-formed.  Positions of
non-Nullable type are unconstrained: the dictionary rewrite of `execute`
leaves a stripped Constant under an unchanged LowCardinality declared
type, and the cascade never inspects such a position's typing. -/
def argOk (p : ColumnWithTypeAndName) : Prop :=
  p.type.isNullable = true →
    (hasType p.col p.type = true ∧ Col.colWf p.col = true ∧ typeWf p.type = true)

/-- The one-level LowCardinality unwrap performed on each argument's type
by `getReturnType` (IFunction.cpp lines 626-640). -/
def lcPeel : DataType → DataType
  | .lowCardinality t => t
  | t => t

/-- The `args_without_low_cardinality` list computed by `getReturnType`
(IFunction.cpp lines 620-645): each argument is Constant-stripped if
Constant, unwrapped one LowCardinality level at type level, and then
recursively stripped. -/
def argsWLC (arguments : List ColumnWithTypeAndName) : List ColumnWithTypeAndName :=
  (arguments.map (fun arg =>
    let is_const := match arg.column with
      | some c => c.isColumnConst
      | none => false
    let arg1 : ColumnWithTypeAndName :=
      if is_const then ⟨arg.column.map Col.constRemoveLowCardinality, arg.type, arg.name⟩
      else arg
    match arg1.type with
    | .lowCardinality t =>
      (ColumnWithTypeAndName.mk arg1.column t arg1.name, true,
        (if is_const then 0 else 1 : Nat), (0 : Nat))
    | _ => (arg1, false, (0 : Nat), (if is_const then 0 else 1 : Nat)))).map (fun x =>
      (⟨x.1.column.map recursiveRemoveLowCardinalityColumn,
        recursiveRemoveLowCardinalityType x.1.type, x.1.name⟩ : ColumnWithTypeAndName))

/-- Invariant of `convertColumnsWithDictionaryToFull` relative to a
position's original declared type: the type is the original or its
recursive strip, and the column stays fully conformant. -/
def convInv (t0 : DataType) (p : ColumnWithTypeAndName) : Prop :=
  (p.type = t0 ∨ p.type = recursiveRemoveLowCardinalityType t0)
  ∧ hasType p.col p.type = true
  ∧ Col.colWf p.col = true
  ∧ typeWf p.type = true

/-- Invariant of the dictionary rewrite of
`replaceColumnsWithDictionaryByNestedAndGetDictionaryIndexes` relative
to a position's original declared type: the type is the original or the
original is LowCardinality of it, Nullable-typed positions stay fully
conformant, and dictionary-encoded columns stay fully conformant. -/
def rewInv (t0 : DataType) (p : ColumnWithTypeAndName) : Prop :=
  (p.type = t0 ∨ t0 = .lowCardinality p.type)
  ∧ (p.type.isNullable = true → hasType p.col p.type = true ∧ Col.colWf p.col = true)
  ∧ (p.col.isColumnLowCardinality = true → hasType p.col p.type = true ∧ Col.colWf p.col = true)

mutual

theorem stripFixedT_strip : ∀ t : DataType, t.stripFixedT = true →
    recursiveRemoveLowCardinalityType t = t
  | .ground _, _ => rfl
  | .nothing, _ => rfl
  | .nullable _, _ => rfl
  | .array t, h => by
    rw [recursiveRemoveLowCardinalityType,
      stripFixedT_strip t (by simpa [DataType.stripFixedT] using h)]
  | .tuple ts named, h => by
    rw [recursiveRemoveLowCardinalityType,
      stripFixedT_stripList ts (by simpa [DataType.stripFixedT] using h)]
  | .lowCardinality t, h => by simp [DataType.stripFixedT] at h

theorem stripFixedT_stripList : ∀ ts : List DataType, DataType.stripFixedTList ts = true →
    recursiveRemoveLowCardinalityTypeList ts = ts
  | [], _ => rfl
  | t :: ts, h => by
    rw [DataType.stripFixedTList, Bool.and_eq_true] at h
    rw [recursiveRemoveLowCardinalityTypeList, stripFixedT_strip t h.1,
      stripFixedT_stripList ts h.2]

end

mutual

theorem stripT_idempotent : ∀ t : DataType, t.stripWfT = true →
    recursiveRemoveLowCardinalityType (recursiveRemoveLowCardinalityType t)
      = recursiveRemoveLowCardinalityType t
  | .ground _, _ => rfl
  | .nothing, _ => rfl
  | .nullable _, _ => rfl
  | .array t, h => by
    rw [recursiveRemoveLowCardinalityType, recursiveRemoveLowCardinalityType,
      stripT_idempotent t (by simpa [DataType.stripWfT] using h)]
  | .tuple ts named, h => by
    rw [recursiveRemoveLowCardinalityType, recursiveRemoveLowCardinalityType,
      stripT_idempotentList ts (by simpa [DataType.stripWfT] using h)]
  | .lowCardinality t, h => by
    rw [recursiveRemoveLowCardinalityType]
    exact stripFixedT_strip t (by simpa [DataType.stripWfT] using h)

theorem stripT_idempotentList : ∀ ts : List DataType, DataType.stripWfTList ts = true →
    recursiveRemoveLowCardinalityTypeList (recursiveRemoveLowCardinalityTypeList ts)
      = recursiveRemoveLowCardinalityTypeList ts
  | [], _ => rfl
  | t :: ts, h => by
    rw [DataType.stripWfTList, Bool.and_eq_true] at h
    rw [recursiveRemoveLowCardinalityTypeList, recursiveRemoveLowCardinalityTypeList,
      stripT_idempotent t h.1, stripT_idempotentList ts h.2]

end

theorem strip_indexBy_simple (d : Col) (idx : List Nat)
    (h : d.dictionaryNestedSimple = true) :
    recursiveRemoveLowCardinalityColumn (d.indexBy idx) = d.indexBy idx := by
  cases d with
  | plain g vs => simp [Col.indexBy, recursiveRemoveLowCardinalityColumn]
  | nothing n => simp [Col.indexBy, recursiveRemoveLowCardinalityColumn]
  | nullable v m => simp [Col.indexBy, recursiveRemoveLowCardinalityColumn]
  | const d n => simp [Col.dictionaryNestedSimple] at h
  | dict d di sh => simp [Col.dictionaryNestedSimple] at h
  | array offs data => simp [Col.dictionaryNestedSimple] at h
  | tuple cs => simp [Col.dictionaryNestedSimple] at h

mutual

theorem stripC_idempotent : ∀ c : Col, c.stripWfC = true →
    recursiveRemoveLowCardinalityColumn (recursiveRemoveLowCardinalityColumn c)
      = recursiveRemoveLowCardinalityColumn c
  | .plain _ _, _ => rfl
  | .nothing _, _ => rfl
  | .nullable _ _, _ => rfl
  | .const d n, h => by
    rw [recursiveRemoveLowCardinalityColumn, recursiveRemoveLowCardinalityColumn,
      stripC_idempotent d (by simpa [Col.stripWfC] using h)]
  | .array offs data, h => by
    rw [recursiveRemoveLowCardinalityColumn, recursiveRemoveLowCardinalityColumn,
      stripC_idempotent data (by simpa [Col.stripWfC] using h)]
  | .tuple cs, h => by
    rw [recursiveRemoveLowCardinalityColumn, recursiveRemoveLowCardinalityColumn,
      stripC_idempotentList cs (by simpa [Col.stripWfC] using h)]
  | .dict d idx sh, h => by
    rw [recursiveRemoveLowCardinalityColumn]
    exact strip_indexBy_simple d idx (by simpa [Col.stripWfC] using h)

theorem stripC_idempotentList : ∀ cs : List Col, Col.stripWfCList cs = true →
    recursiveRemoveLowCardinalityColumnList (recursiveRemoveLowCardinalityColumnList cs)
      = recursiveRemoveLowCardinalityColumnList cs
  | [], _ => rfl
  | c :: cs, h => by
    rw [Col.stripWfCList, Bool.and_eq_true] at h
    rw [recursiveRemoveLowCardinalityColumnList, recursiveRemoveLowCardinalityColumnList,
      stripC_idempotent c h.1, stripC_idempotentList cs h.2]

end

/-- C9: Stripping idempotence.  For every type and every column — well
formed as the program guarantees: a dictionary type's inner type is a
fixpoint of the stripper, and a dictionary column's nested column is a
simple column — applying the recursive dictionary-stripping operation
twice yields the same result as applying it once, including through
Array, Tuple and Constant containers. -/
theorem claim_stripping_idempotent (t : DataType) (c : Col)
    (ht : t.stripWfT = true) (hc : c.stripWfC = true) :
    recursiveRemoveLowCardinalityType (recursiveRemoveLowCardinalityType t)
        = recursiveRemoveLowCardinalityType t ∧
      recursiveRemoveLowCardinalityColumn (recursiveRemoveLowCardinalityColumn c)
        = recursiveRemoveLowCardinalityColumn c :=
  ⟨stripT_idempotent t ht, stripC_idempotent c hc⟩

/-- Witness: idempotence at a concrete Array-of-dictionary type and a
concrete Constant-of-Tuple column holding a dictionary and an array. -/
theorem claim_stripping_idempotent_w :
    (DataType.array (.lowCardinality (.ground 0))).stripWfT = true ∧
      (Col.const (.tuple [.dict (.plain 0 [5, 7]) [1, 0, 1] false,
          .array [2] (.plain 0 [3, 4])]) 3).stripWfC = true ∧
      (recursiveRemoveLowCardinalityType (recursiveRemoveLowCardinalityType
            (DataType.array (.lowCardinality (.ground 0))))
          = recursiveRemoveLowCardinalityType (DataType.array (.lowCardinality (.ground 0))) ∧
        recursiveRemoveLowCardinalityColumn (recursiveRemoveLowCardinalityColumn
            (Col.const (.tuple [.dict (.plain 0 [5, 7]) [1, 0, 1] false,
              .array [2] (.plain 0 [3, 4])]) 3))
          = recursiveRemoveLowCardinalityColumn
            (Col.const (.tuple [.dict (.plain 0 [5, 7]) [1, 0, 1] false,
              .array [2] (.plain 0 [3, 4])]) 3)) :=
  ⟨rfl, rfl, claim_stripping_idempotent _ _ rfl rfl⟩

/-! Out-of-range always-constant indices (claim C10). -/

theorem any_append_of_false (L E : List Nat) (p : Nat → Bool)
    (h : ∀ a ∈ E, p a = false) : (L ++ E).any p = L.any p := by
  rw [List.any_append]
  have hE : E.any p = false := by
    cases hE2 : E.any p with
    | false => rfl
    | true =>
      rcases List.any_eq_true.mp hE2 with ⟨a, ha, hpa⟩
      rw [h a ha] at hpa
      cases hpa
  rw [hE, Bool.or_false]

theorem any_congr_local (l : List Nat) (p q : Nat → Bool) (h : ∀ x ∈ l, p x = q x) :
    l.any p = l.any q := by
  induction l with
  | nil => rfl
  | cons a l ih =>
    simp only [List.any_cons]
    rw [h a (by simp), ih (fun x hx => h x (by simp [hx]))]

theorem contains_append_of_oob (L E : List Nat) (x : Nat)
    (h : ∀ a ∈ E, x ≠ a) : (L ++ E).contains x = L.contains x := by
  cases hc : L.contains x with
  | true =>
    have : x ∈ L ++ E := List.mem_append_left E (List.elem_iff.mp hc)
    exact List.elem_iff.mpr this
  | false =>
    cases hc2 : (L ++ E).contains x with
    | false => rfl
    | true =>
      rcases List.mem_append.mp (List.elem_iff.mp hc2) with hL | hE
      · have h2 : L.contains x = true := List.elem_iff.mpr hL
        rw [h2] at hc
        cases hc
      · exact absurd rfl (h x hE)

theorem dica_append_oob (rec1 rec2 : ExecCont) (f : Func) (extra : List Nat)
    (block : Block) (args : List Nat) (result input_rows_count : Nat)
    (hx : ∀ a ∈ extra, args.length ≤ a)
    (hrec : rec1 ((List.range args.length).map (fun arg_num =>
          let column := Block.getByPosition block (args.getD arg_num 0)
          if f.argumentsThatAreAlwaysConstant.contains arg_num then column
          else ⟨column.column.map Col.getDataColumn, column.type, column.name⟩)
          ++ [Block.getByPosition block result])
        (List.range args.length) args.length
        (Block.rows ((List.range args.length).map (fun arg_num =>
          let column := Block.getByPosition block (args.getD arg_num 0)
          if f.argumentsThatAreAlwaysConstant.contains arg_num then column
          else ⟨column.column.map Col.getDataColumn, column.type, column.name⟩)
          ++ [Block.getByPosition block result]))
      = rec2 ((List.range args.length).map (fun arg_num =>
          let column := Block.getByPosition block (args.getD arg_num 0)
          if f.argumentsThatAreAlwaysConstant.contains arg_num then column
          else ⟨column.column.map Col.getDataColumn, column.type, column.name⟩)
          ++ [Block.getByPosition block result])
        (List.range args.length) args.length
        (Block.rows ((List.range args.length).map (fun arg_num =>
          let column := Block.getByPosition block (args.getD arg_num 0)
          if f.argumentsThatAreAlwaysConstant.contains arg_num then column
          else ⟨column.column.map Col.getDataColumn, column.type, column.name⟩)
          ++ [Block.getByPosition block result]))) :
    defaultImplementationForConstantArguments rec1
        { f with argumentsThatAreAlwaysConstant := f.argumentsThatAreAlwaysConstant ++ extra }
        block args result input_rows_count
      = defaultImplementationForConstantArguments rec2 f block args result input_rows_count := by
  have hcontains : ∀ arg_num ∈ List.range args.length,
      (f.argumentsThatAreAlwaysConstant ++ extra).contains arg_num
        = f.argumentsThatAreAlwaysConstant.contains arg_num := by
    intro a ha
    refine contains_append_of_oob _ _ _ (fun b hb => ?_)
    have h1 := List.mem_range.mp ha
    have h2 := hx b hb
    omega
  have hmap : ((List.range args.length).map (fun arg_num =>
        let column := Block.getByPosition block (args.getD arg_num 0)
        if (f.argumentsThatAreAlwaysConstant ++ extra).contains arg_num then column
        else ⟨column.column.map Col.getDataColumn, column.type, column.name⟩))
      = ((List.range args.length).map (fun arg_num =>
        let column := Block.getByPosition block (args.getD arg_num 0)
        if f.argumentsThatAreAlwaysConstant.contains arg_num then column
        else ⟨column.column.map Col.getDataColumn, column.type, column.name⟩)) :=
    List.map_congr_left (fun a ha => by rw [hcontains a ha])
  have hany : ((f.argumentsThatAreAlwaysConstant ++ extra).any (fun arg_num =>
        decide (arg_num < args.length) &&
        !(Block.getByPosition block (args.getD arg_num 0)).col.isColumnConst))
      = (f.argumentsThatAreAlwaysConstant.any (fun arg_num =>
        decide (arg_num < args.length) &&
        !(Block.getByPosition block (args.getD arg_num 0)).col.isColumnConst)) := by
    refine any_append_of_false _ _ _ (fun a ha => ?_)
    have := hx a ha
    simp only [Bool.and_eq_false_imp, decide_eq_true_eq]
    intro hlt
    omega
  have hhave : ((List.range args.length).any
        (fun arg_num => !(f.argumentsThatAreAlwaysConstant ++ extra).contains arg_num))
      = ((List.range args.length).any
        (fun arg_num => !f.argumentsThatAreAlwaysConstant.contains arg_num)) := by
    refine any_congr_local _ _ _ (fun a ha => ?_)
    rw [hcontains a ha]
  simp only [defaultImplementationForConstantArguments]
  rw [hany, hmap, hhave, hrec]

theorem EWD_append_oob (f : Func) (extra : List Nat) :
    ∀ fuel (block : Block) (args : List Nat) (result input_rows_count : Nat),
      (∀ a ∈ extra, args.length ≤ a) →
      executeWithoutLowCardinality fuel
          { f with argumentsThatAreAlwaysConstant := f.argumentsThatAreAlwaysConstant ++ extra }
          block args result input_rows_count
        = executeWithoutLowCardinality fuel f block args result input_rows_count := by
  intro fuel
  induction fuel with
  | zero => intro block args result n hx; rfl
  | succ fuel ih =>
    intro block args result n hx
    rw [executeWithoutLowCardinality, executeWithoutLowCardinality]
    have hdica := dica_append_oob
      (executeWithoutLowCardinality fuel
        { f with argumentsThatAreAlwaysConstant := f.argumentsThatAreAlwaysConstant ++ extra })
      (executeWithoutLowCardinality fuel f) f extra block args result n hx
      (ih _ (List.range args.length) _ _ (fun a ha => by simpa using hx a ha))
    rw [hdica]
    have hdin : defaultImplementationForNulls
        (executeWithoutLowCardinality fuel
          { f with argumentsThatAreAlwaysConstant := f.argumentsThatAreAlwaysConstant ++ extra })
        { f with argumentsThatAreAlwaysConstant := f.argumentsThatAreAlwaysConstant ++ extra }
        block args result n
      = defaultImplementationForNulls (executeWithoutLowCardinality fuel f) f
        block args result n := by
      simp only [defaultImplementationForNulls]
      rw [ih (createBlockWithNestedColumnsWithResult block args result) args result
        (Block.rows (createBlockWithNestedColumnsWithResult block args result)) hx]
    rw [hdin]

/-- C10: an index in `always_constant_args` that is out of range for the
argument list is silently skipped by the always-constant check of
`defaultImplementationForConstantArguments` — appending any collection
of out-of-range indices leaves the entire dispatch (`execute`) result
unchanged, so such an index can never cause ILLEGAL_COLUMN or any other
error. -/
theorem claim_oob_always_constant_ignored (fuel : Nat) (f : Func) (extra : List Nat)
    (block : Block) (args : List Nat) (result input_rows_count : Nat)
    (hx : ∀ a ∈ extra, args.length ≤ a) :
    execute fuel { f with argumentsThatAreAlwaysConstant := f.argumentsThatAreAlwaysConstant ++ extra }
        block args result input_rows_count
      = execute fuel f block args result input_rows_count := by
  have hE : ∀ (b : Block) (r n : Nat),
      executeWithoutLowCardinality fuel
          { f with argumentsThatAreAlwaysConstant := f.argumentsThatAreAlwaysConstant ++ extra }
          b args r n
        = executeWithoutLowCardinality fuel f b args r n :=
    fun b r n => EWD_append_oob f extra fuel b args r n hx
  rw [execute, execute]
  simp only [hE]

theorem claim_oob_always_constant_ignored_w :
    (∀ a ∈ [5], List.length [0] ≤ a) ∧
    execute 3
        ⟨true, true, false, false, true, false, 1, [] ++ [5],
          fun _ _ _ n => .ok (.plain 0 (List.replicate n 7)),
          fun _ => .ok (.ground 0), none⟩
        [⟨some (.plain 0 [1, 2]), .ground 0, "a"⟩, ⟨none, .ground 0, "r"⟩]
        [0] 1 2
      = execute 3
        ⟨true, true, false, false, true, false, 1, [],
          fun _ _ _ n => .ok (.plain 0 (List.replicate n 7)),
          fun _ => .ok (.ground 0), none⟩
        [⟨some (.plain 0 [1, 2]), .ground 0, "a"⟩, ⟨none, .ground 0, "r"⟩]
        [0] 1 2 :=
  ⟨by decide,
    claim_oob_always_constant_ignored 3
      ⟨true, true, false, false, true, false, 1, [],
        fun _ _ _ n => .ok (.plain 0 (List.replicate n 7)),
        fun _ => .ok (.ground 0), none⟩
      [5]
      [⟨some (.plain 0 [1, 2]), .ground 0, "a"⟩, ⟨none, .ground 0, "r"⟩]
      [0] 1 2 (by decide)⟩

/-! Block access helper lemmas. -/

theorem getByPosition_map_range (g : Nat → ColumnWithTypeAndName) (n i : Nat) (h : i < n) :
    Block.getByPosition ((List.range n).map g) i = g i := by
  unfold Block.getByPosition
  rw [List.getD_eq_getElem?_getD, List.getElem?_map, List.getElem?_range h]
  rfl

theorem getByPosition_oob (b : Block) (i : Nat) (h : b.length ≤ i) :
    Block.getByPosition b i = emptyPosition := by
  unfold Block.getByPosition
  rw [List.getD_eq_getElem?_getD, List.getElem?_eq_none h]
  rfl

theorem getByPosition_set_self (b : Block) (i : Nat) (p : ColumnWithTypeAndName)
    (h : i < b.length) : Block.getByPosition (b.set i p) i = p := by
  unfold Block.getByPosition
  rw [List.getD_eq_getElem?_getD, List.getElem?_set_self (by simpa using h)]
  rfl

theorem getByPosition_set_ne (b : Block) (i : Nat) (p : ColumnWithTypeAndName) (j : Nat)
    (h : j ≠ i) : Block.getByPosition (b.set i p) j = b.getByPosition j := by
  unfold Block.getByPosition
  rw [List.getD_eq_getElem?_getD, List.getD_eq_getElem?_getD, List.getElem?_set_ne (by omega)]

theorem length_set (b : Block) (i : Nat) (p : ColumnWithTypeAndName) :
    (b.set i p).length = b.length := by simp

theorem mem_lt_of_const (block : Block) (x : Nat)
    (h : (Block.getByPosition block x).col.isColumnConst = true) : x < block.length := by
  by_contra h2
  rw [getByPosition_oob block x (by omega)] at h
  simp [emptyPosition, ColumnWithTypeAndName.col, Col.isColumnConst] at h

theorem allArgumentsAreConstants_mem (block : Block) (args : List Nat)
    (h : allArgumentsAreConstants block args = true) :
    ∀ x ∈ args, (Block.getByPosition block x).col.isColumnConst = true := by
  intro x hx
  exact List.all_eq_true.mp h x hx

/-- A column that is a Constant, viewed constructor-wise. -/
theorem isColumnConst_elim (c : Col) (h : c.isColumnConst = true) :
    ∃ d n, c = .const d n := by
  cases c with
  | const d n => exact ⟨d, n, rfl⟩
  | plain g vs => simp [Col.isColumnConst] at h
  | nothing n => simp [Col.isColumnConst] at h
  | nullable v m => simp [Col.isColumnConst] at h
  | dict d idx sh => simp [Col.isColumnConst] at h
  | array offs data => simp [Col.isColumnConst] at h
  | tuple cs => simp [Col.isColumnConst] at h

/-! All arguments always-constant (claim C7). -/

theorem dica_all_const_error (recur : ExecCont) (f : Func) (block : Block) (args : List Nat)
    (result input_rows_count : Nat)
    (hudc : f.useDefaultImplementationForConstants = true)
    (hne : args ≠ [])
    (hconst : allArgumentsAreConstants block args = true)
    (hall : ∀ i, i < args.length → f.argumentsThatAreAlwaysConstant.contains i = true) :
    defaultImplementationForConstantArguments recur f block args result input_rows_count
      = ([], .error .numberOfArgumentsDoesntMatch) := by
  simp only [defaultImplementationForConstantArguments]
  have hany : (f.argumentsThatAreAlwaysConstant.any (fun arg_num =>
      decide (arg_num < args.length) &&
      !(Block.getByPosition block (args.getD arg_num 0)).col.isColumnConst)) = false := by
    cases hA : (f.argumentsThatAreAlwaysConstant.any (fun arg_num =>
        decide (arg_num < args.length) &&
        !(Block.getByPosition block (args.getD arg_num 0)).col.isColumnConst)) with
    | false => rfl
    | true =>
      rcases List.any_eq_true.mp hA with ⟨a, ha, hpa⟩
      rw [Bool.and_eq_true, decide_eq_true_eq] at hpa
      have hmem : args.getD a 0 ∈ args := by
        rw [List.getD_eq_getElem?_getD, List.getElem?_eq_getElem hpa.1]
        exact List.getElem_mem hpa.1
      have := allArgumentsAreConstants_mem block args hconst _ hmem
      rw [this] at hpa
      simp at hpa
  rw [hany]
  have hhave : ((List.range args.length).any
      (fun arg_num => !f.argumentsThatAreAlwaysConstant.contains arg_num)) = false := by
    cases hA : ((List.range args.length).any
        (fun arg_num => !f.argumentsThatAreAlwaysConstant.contains arg_num)) with
    | false => rfl
    | true =>
      rcases List.any_eq_true.mp hA with ⟨a, ha, hpa⟩
      rw [hall a (List.mem_range.mp ha)] at hpa
      simp at hpa
  rw [hhave]
  simp [hudc, hconst, hne]

theorem EWD_all_const_error (fuel : Nat) (f : Func) (block : Block) (args : List Nat)
    (result input_rows_count : Nat)
    (hudc : f.useDefaultImplementationForConstants = true)
    (hne : args ≠ [])
    (hconst : allArgumentsAreConstants block args = true)
    (hall : ∀ i, i < args.length → f.argumentsThatAreAlwaysConstant.contains i = true)
    (hfuel : 0 < fuel) :
    executeWithoutLowCardinality fuel f block args result input_rows_count
      = ([], .error .numberOfArgumentsDoesntMatch) := by
  cases fuel with
  | zero => omega
  | succ fuel =>
    rw [executeWithoutLowCardinality,
      dica_all_const_error _ f block args result input_rows_count hudc hne hconst hall]

theorem findLCGo_no_dict (block : Block) :
    ∀ (args : List Nat) (acc : Option Col),
      (∀ x ∈ args, (Block.getByPosition block x).col.isColumnLowCardinality = false) →
      findLowCardinalityArgumentGo block args acc = .ok acc := by
  intro args
  induction args with
  | nil => intro acc h; rfl
  | cons a rest ih =>
    intro acc h
    rw [findLowCardinalityArgumentGo]
    cases hcol : (Block.getByPosition block a).col with
    | dict d idx sh =>
      have ha := h a (by simp)
      rw [hcol] at ha
      simp [Col.isColumnLowCardinality] at ha
    | plain g vs => exact ih acc (fun x hx => h x (by simp [hx]))
    | nothing n => exact ih acc (fun x hx => h x (by simp [hx]))
    | const d n => exact ih acc (fun x hx => h x (by simp [hx]))
    | nullable v m => exact ih acc (fun x hx => h x (by simp [hx]))
    | array offs data => exact ih acc (fun x hx => h x (by simp [hx]))
    | tuple cs => exact ih acc (fun x hx => h x (by simp [hx]))

theorem const_not_dict (c : Col) (h : c.isColumnConst = true) :
    c.isColumnLowCardinality = false := by
  rcases isColumnConst_elim c h with ⟨d, n, rfl⟩
  rfl

theorem replaceScan_no_dict (block : Block) :
    ∀ (args : List Nat) (indexes : Option (List Nat)) (num_rows : Nat),
      (∀ x ∈ args, (Block.getByPosition block x).col.isColumnLowCardinality = false) →
      replaceLowCardinalityScan block args indexes num_rows = .ok (indexes, num_rows) := by
  intro args
  induction args with
  | nil => intro idx nr h; rfl
  | cons a rest ih =>
    intro idx nr h
    rw [replaceLowCardinalityScan]
    cases hcol : (Block.getByPosition block a).col with
    | dict d idx2 sh =>
      have ha := h a (by simp)
      rw [hcol] at ha
      simp [Col.isColumnLowCardinality] at ha
    | plain g vs => exact ih idx nr (fun x hx => h x (by simp [hx]))
    | nothing n => exact ih idx nr (fun x hx => h x (by simp [hx]))
    | const d n => exact ih idx nr (fun x hx => h x (by simp [hx]))
    | nullable v m => exact ih idx nr (fun x hx => h x (by simp [hx]))
    | array offs data => exact ih idx nr (fun x hx => h x (by simp [hx]))
    | tuple cs => exact ih idx nr (fun x hx => h x (by simp [hx]))

theorem replaceRewrite_all_const (can : Bool) (nr : Nat) :
    ∀ (args : List Nat) (block : Block) (indexes : Option (List Nat)),
      (∀ x ∈ args, (Block.getByPosition block x).col.isColumnConst = true) →
      ∃ block2, replaceLowCardinalityRewrite can nr block args indexes = .ok (block2, indexes)
        ∧ ∀ x, (Block.getByPosition block2 x).col.isColumnConst
            = (Block.getByPosition block x).col.isColumnConst := by
  intro args
  induction args with
  | nil => intro block idx h; exact ⟨block, rfl, fun x => rfl⟩
  | cons a rest ih =>
    intro block idx h
    have ha := h a (by simp)
    rcases isColumnConst_elim _ ha with ⟨d, n, hcol⟩
    have hstep : ∀ x, (Block.getByPosition
        (Block.setColumn block a ((Col.const d n).constRemoveLowCardinality.cloneResized nr)) x).col.isColumnConst
        = (Block.getByPosition block x).col.isColumnConst := by
      intro x
      by_cases hx : x = a
      · subst hx
        by_cases hlen : x < block.length
        · rw [Block.setColumn, getByPosition_set_self _ _ _ hlen]
          rw [hcol]
          simp [ColumnWithTypeAndName.col, Col.constRemoveLowCardinality, Col.cloneResized,
            Col.isColumnConst]
        · rw [Block.setColumn, List.set_eq_of_length_le (by omega)]
      · rw [Block.setColumn, getByPosition_set_ne _ _ _ _ hx]
    have hrest : ∀ x ∈ rest, (Block.getByPosition
        (Block.setColumn block a ((Col.const d n).constRemoveLowCardinality.cloneResized nr)) x).col.isColumnConst = true := by
      intro x hx
      rw [hstep x]
      exact h x (by simp [hx])
    rcases ih (Block.setColumn block a ((Col.const d n).constRemoveLowCardinality.cloneResized nr))
      idx hrest with ⟨block2, heq, hinv⟩
    refine ⟨block2, ?_, fun x => by rw [hinv x, hstep x]⟩
    rw [replaceLowCardinalityRewrite]
    rw [hcol]
    exact heq

theorem getByPosition_setType_col (b : Block) (i : Nat) (t : DataType) (j : Nat) :
    ((Block.setType b i t).getByPosition j).col = (b.getByPosition j).col := by
  by_cases hj : j = i
  · subst hj
    by_cases hlen : j < b.length
    · rw [Block.setType, getByPosition_set_self _ _ _ hlen]
      rfl
    · rw [Block.setType, List.set_eq_of_length_le (by omega)]
  · rw [Block.setType, getByPosition_set_ne _ _ _ _ hj]

theorem bwd_col (block : Block) (args : List Nat) (x : Nat) (hx : x ∈ args) :
    (Block.getByPosition ((List.range block.length).map (fun i =>
        let p := Block.getByPosition block i
        if args.contains i then p else ⟨none, p.type, p.name⟩)) x).col
      = (Block.getByPosition block x).col := by
  by_cases hlt : x < block.length
  · rw [getByPosition_map_range _ _ _ hlt]
    simp only [List.elem_iff.mpr hx, if_true]
  · rw [getByPosition_oob _ _ (by simpa using hlt),
      getByPosition_oob block x (by omega)]

theorem bwd_length (block : Block) (args : List Nat) :
    ((List.range block.length).map (fun i =>
        let p := Block.getByPosition block i
        if args.contains i then p else ⟨none, p.type, p.name⟩) : Block).length
      = block.length := by
  simp

theorem strip_head (c : Col) (hd : c.isColumnLowCardinality = false) :
    (recursiveRemoveLowCardinalityColumn c).isColumnConst = c.isColumnConst ∧
      (recursiveRemoveLowCardinalityColumn c).isColumnLowCardinality = false := by
  cases c with
  | plain g vs => exact ⟨rfl, rfl⟩
  | nothing n => exact ⟨rfl, rfl⟩
  | const d n => exact ⟨rfl, rfl⟩
  | nullable v m => exact ⟨rfl, rfl⟩
  | dict d idx sh => simp [Col.isColumnLowCardinality] at hd
  | array offs data => exact ⟨rfl, rfl⟩
  | tuple cs => exact ⟨rfl, rfl⟩

theorem convertFull_inv : ∀ (args : List Nat) (block : Block),
    (∀ x ∈ args, (Block.getByPosition block x).col.isColumnLowCardinality = false) →
    ∀ x, ((Block.getByPosition (convertColumnsWithDictionaryToFull block args) x).col.isColumnConst
        = (Block.getByPosition block x).col.isColumnConst)
      ∧ ((Block.getByPosition (convertColumnsWithDictionaryToFull block args) x).col.isColumnLowCardinality
        = (Block.getByPosition block x).col.isColumnLowCardinality) := by
  intro args
  induction args with
  | nil => intro block h x; exact ⟨rfl, rfl⟩
  | cons a rest ih =>
    intro block h x
    have ha := h a (by simp)
    have hstep : ∀ y,
        ((Block.getByPosition (Block.setPosition block a
            ⟨(Block.getByPosition block a).column.map recursiveRemoveLowCardinalityColumn,
              recursiveRemoveLowCardinalityType (Block.getByPosition block a).type,
              (Block.getByPosition block a).name⟩) y).col.isColumnConst
          = (Block.getByPosition block y).col.isColumnConst)
        ∧ ((Block.getByPosition (Block.setPosition block a
            ⟨(Block.getByPosition block a).column.map recursiveRemoveLowCardinalityColumn,
              recursiveRemoveLowCardinalityType (Block.getByPosition block a).type,
              (Block.getByPosition block a).name⟩) y).col.isColumnLowCardinality
          = (Block.getByPosition block y).col.isColumnLowCardinality) := by
      intro y
      by_cases hy : y = a
      · subst hy
        by_cases hlen : y < block.length
        · rw [Block.setPosition, getByPosition_set_self _ _ _ hlen]
          cases hc : (Block.getByPosition block y).column with
          | none =>
            simp only [ColumnWithTypeAndName.col, hc]
            exact ⟨rfl, rfl⟩
          | some c =>
            have hdc : c.isColumnLowCardinality = false := by
              have h2 := ha
              rw [ColumnWithTypeAndName.col, hc] at h2
              exact h2
            have hs := strip_head c hdc
            simp only [ColumnWithTypeAndName.col, hc, Option.map_some', Option.getD_some]
            exact ⟨hs.1, by rw [hs.2, hdc]⟩
        · rw [Block.setPosition, List.set_eq_of_length_le (by omega)]
          exact ⟨rfl, rfl⟩
      · rw [Block.setPosition, getByPosition_set_ne _ _ _ _ hy]
        exact ⟨rfl, rfl⟩
    have hrest : ∀ y ∈ rest,
        (Block.getByPosition (Block.setPosition block a
            ⟨(Block.getByPosition block a).column.map recursiveRemoveLowCardinalityColumn,
              recursiveRemoveLowCardinalityType (Block.getByPosition block a).type,
              (Block.getByPosition block a).name⟩) y).col.isColumnLowCardinality = false := by
      intro y hy
      rw [(hstep y).2]
      exact h y (by simp [hy])
    have hfold : convertColumnsWithDictionaryToFull block (a :: rest)
        = convertColumnsWithDictionaryToFull (Block.setPosition block a
            ⟨(Block.getByPosition block a).column.map recursiveRemoveLowCardinalityColumn,
              recursiveRemoveLowCardinalityType (Block.getByPosition block a).type,
              (Block.getByPosition block a).name⟩) rest := rfl
    rw [hfold]
    rcases ih _ hrest x with ⟨h1, h2⟩
    rw [h1, h2, (hstep x).1, (hstep x).2]
    exact ⟨rfl, rfl⟩

theorem replaceRewrite_no_dict (can : Bool) (nr : Nat) :
    ∀ (args : List Nat) (block : Block) (indexes : Option (List Nat)),
      (∀ x ∈ args, (Block.getByPosition block x).col.isColumnLowCardinality = false) →
      ∃ block2, replaceLowCardinalityRewrite can nr block args indexes = .ok (block2, indexes)
        ∧ ∀ x, ((Block.getByPosition block2 x).col.isColumnConst
              = (Block.getByPosition block x).col.isColumnConst)
            ∧ ((Block.getByPosition block2 x).col.isColumnLowCardinality
              = (Block.getByPosition block x).col.isColumnLowCardinality) := by
  intro args
  induction args with
  | nil => intro block idx h; exact ⟨block, rfl, fun x => ⟨rfl, rfl⟩⟩
  | cons a rest ih =>
    intro block idx h
    have ha := h a (by simp)
    cases hcol : (Block.getByPosition block a).col with
    | dict d idx2 sh =>
      rw [hcol] at ha
      simp [Col.isColumnLowCardinality] at ha
    | const d n =>
      have hstep : ∀ y, ((Block.getByPosition
            (Block.setColumn block a ((Col.const d n).constRemoveLowCardinality.cloneResized nr)) y).col.isColumnConst
          = (Block.getByPosition block y).col.isColumnConst)
          ∧ ((Block.getByPosition
            (Block.setColumn block a ((Col.const d n).constRemoveLowCardinality.cloneResized nr)) y).col.isColumnLowCardinality
          = (Block.getByPosition block y).col.isColumnLowCardinality) := by
        intro y
        by_cases hy : y = a
        · subst hy
          by_cases hlen : y < block.length
          · rw [Block.setColumn, getByPosition_set_self _ _ _ hlen, hcol]
            simp [ColumnWithTypeAndName.col, Col.constRemoveLowCardinality, Col.cloneResized,
              Col.isColumnConst, Col.isColumnLowCardinality]
          · rw [Block.setColumn, List.set_eq_of_length_le (by omega)]
            exact ⟨rfl, rfl⟩
        · rw [Block.setColumn, getByPosition_set_ne _ _ _ _ hy]
          exact ⟨rfl, rfl⟩
      have hrest : ∀ y ∈ rest, (Block.getByPosition
          (Block.setColumn block a ((Col.const d n).constRemoveLowCardinality.cloneResized nr)) y).col.isColumnLowCardinality = false := by
        intro y hy
        rw [(hstep y).2]
        exact h y (by simp [hy])
      rcases ih (Block.setColumn block a ((Col.const d n).constRemoveLowCardinality.cloneResized nr))
        idx hrest with ⟨block2, heq, hinv⟩
      refine ⟨block2, ?_, fun y => ⟨by rw [(hinv y).1, (hstep y).1], by rw [(hinv y).2, (hstep y).2]⟩⟩
      rw [replaceLowCardinalityRewrite, hcol]
      exact heq
    | plain g vs =>
      rcases ih block idx (fun y hy => h y (by simp [hy])) with ⟨block2, heq, hinv⟩
      refine ⟨block2, ?_, hinv⟩
      rw [replaceLowCardinalityRewrite, hcol]
      exact heq
    | nothing n =>
      rcases ih block idx (fun y hy => h y (by simp [hy])) with ⟨block2, heq, hinv⟩
      refine ⟨block2, ?_, hinv⟩
      rw [replaceLowCardinalityRewrite, hcol]
      exact heq
    | nullable v m =>
      rcases ih block idx (fun y hy => h y (by simp [hy])) with ⟨block2, heq, hinv⟩
      refine ⟨block2, ?_, hinv⟩
      rw [replaceLowCardinalityRewrite, hcol]
      exact heq
    | array offs data =>
      rcases ih block idx (fun y hy => h y (by simp [hy])) with ⟨block2, heq, hinv⟩
      refine ⟨block2, ?_, hinv⟩
      rw [replaceLowCardinalityRewrite, hcol]
      exact heq
    | tuple cs =>
      rcases ih block idx (fun y hy => h y (by simp [hy])) with ⟨block2, heq, hinv⟩
      refine ⟨block2, ?_, hinv⟩
      rw [replaceLowCardinalityRewrite, hcol]
      exact heq

theorem execute_caseA_no_dict (fuel : Nat) (f : Func) (block : Block) (args : List Nat)
    (result input_rows_count : Nat) (dt : DataType)
    (hflag : f.useDefaultImplementationForColumnsWithDictionary = true)
    (htype : (Block.getByPosition block result).type = .lowCardinality dt)
    (hnodict : ∀ x ∈ args, (Block.getByPosition block x).col.isColumnLowCardinality = false) :
    ∃ block2,
      (∀ x ∈ args, ((Block.getByPosition block2 x).col.isColumnConst
            = (Block.getByPosition block x).col.isColumnConst)
          ∧ ((Block.getByPosition block2 x).col.isColumnLowCardinality
            = (Block.getByPosition block x).col.isColumnLowCardinality)) ∧
      execute fuel f block args result input_rows_count
        = (match executeWithoutLowCardinality fuel f block2 args result (Block.rows block2) with
           | (calls, .error e) => (calls, .error e)
           | (calls, .ok tb) =>
             (calls, .ok (Block.setColumn block result
               (.dict ((Block.getByPosition tb result).col.convertToFullColumnIfConst.getD
                   (Block.getByPosition tb result).col)
                 (List.range ((Block.getByPosition tb result).col.convertToFullColumnIfConst.getD
                   (Block.getByPosition tb result).col).size) false)))) := by
  have hbwdcol : ∀ x ∈ args,
      (Block.getByPosition (Block.setType ((List.range block.length).map (fun i =>
          let p := Block.getByPosition block i
          if args.contains i then p else ⟨none, p.type, p.name⟩)) result dt) x).col
        = (Block.getByPosition block x).col := by
    intro x hx
    rw [getByPosition_setType_col, bwd_col block args x hx]
  have hfind : findLowCardinalityArgument block args = .ok none := by
    rw [findLowCardinalityArgument]
    exact findLCGo_no_dict block args none hnodict
  have hscan : replaceLowCardinalityScan
      (Block.setType ((List.range block.length).map (fun i =>
        let p := Block.getByPosition block i
        if args.contains i then p else ⟨none, p.type, p.name⟩)) result dt) args none 0
      = .ok (none, 0) := by
    refine replaceScan_no_dict _ args none 0 (fun x hx => ?_)
    rw [hbwdcol x hx]
    exact hnodict x hx
  rcases replaceRewrite_no_dict f.canBeExecutedOnDefaultArguments 0 args
      (Block.setType ((List.range block.length).map (fun i =>
        let p := Block.getByPosition block i
        if args.contains i then p else ⟨none, p.type, p.name⟩)) result dt) none
      (fun x hx => by rw [hbwdcol x hx]; exact hnodict x hx) with ⟨block2, hrw, hinv⟩
  refine ⟨block2, ?_, ?_⟩
  · intro x hx
    rw [(hinv x).1, (hinv x).2, hbwdcol x hx]
    exact ⟨rfl, rfl⟩
  · simp only [execute, hflag, htype, hfind, if_true, Bool.and_false, Bool.false_and,
      replaceColumnsWithDictionaryByNestedAndGetDictionaryIndexes, hscan, hrw,
      uniqueInsertRangeFrom, Bool.false_eq_true, if_false]

theorem execute_caseB (fuel : Nat) (f : Func) (block : Block) (args : List Nat)
    (result input_rows_count : Nat)
    (hflag : f.useDefaultImplementationForColumnsWithDictionary = true)
    (hnotlc : ∀ dt, (Block.getByPosition block result).type ≠ .lowCardinality dt) :
    execute fuel f block args result input_rows_count
      = (match executeWithoutLowCardinality fuel f
            (convertColumnsWithDictionaryToFull ((List.range block.length).map (fun i =>
              let p := Block.getByPosition block i
              if args.contains i then p else ⟨none, p.type, p.name⟩)) args)
            args result input_rows_count with
         | (calls, .error e) => (calls, .error e)
         | (calls, .ok tb) =>
           (calls, .ok (Block.setColumn block result (Block.getByPosition tb result).col))) := by
  simp only [execute, hflag, if_true]

theorem execute_no_dict_flag (fuel : Nat) (f : Func) (block : Block) (args : List Nat)
    (result input_rows_count : Nat)
    (hflag : f.useDefaultImplementationForColumnsWithDictionary = false) :
    execute fuel f block args result input_rows_count
      = executeWithoutLowCardinality fuel f block args result input_rows_count := by
  simp only [execute, hflag, Bool.false_eq_true, if_false]

/-- C7: All-always-constant error.  For every function with
`use_default_for_constants` and every non-empty argument list in which
every argument column is Constant and every argument index is listed in
`always_constant_args` (so no argument would be unwrapped), `execute`
fails with NUMBER_OF_ARGUMENTS_DOESNT_MATCH and the row-kernel is never
invoked. -/
theorem claim_all_always_constant_error (fuel : Nat) (f : Func) (block : Block)
    (args : List Nat) (result input_rows_count : Nat)
    (hudc : f.useDefaultImplementationForConstants = true)
    (hne : args ≠ [])
    (hconst : allArgumentsAreConstants block args = true)
    (hall : ∀ i, i < args.length → f.argumentsThatAreAlwaysConstant.contains i = true)
    (hfuel : 0 < fuel) :
    execute fuel f block args result input_rows_count
      = ([], .error .numberOfArgumentsDoesntMatch) := by
  have hconstm := allArgumentsAreConstants_mem block args hconst
  have hnodict : ∀ x ∈ args, (Block.getByPosition block x).col.isColumnLowCardinality = false :=
    fun x hx => const_not_dict _ (hconstm x hx)
  by_cases hflag : f.useDefaultImplementationForColumnsWithDictionary = true
  · cases htype : (Block.getByPosition block result).type with
    | lowCardinality dt =>
      rcases execute_caseA_no_dict fuel f block args result input_rows_count dt hflag htype
        hnodict with ⟨block2, hinv, hexec⟩
      rw [hexec]
      have hconst2 : allArgumentsAreConstants block2 args = true := by
        refine List.all_eq_true.mpr (fun x hx => ?_)
        rw [(hinv x hx).1]
        exact hconstm x hx
      rw [EWD_all_const_error fuel f block2 args result (Block.rows block2) hudc hne hconst2
        hall hfuel]
    | ground g =>
      rw [execute_caseB fuel f block args result input_rows_count hflag
        (fun dt h => by rw [htype] at h; cases h)]
      have hconv := convertFull_inv args ((List.range block.length).map (fun i =>
        let p := Block.getByPosition block i
        if args.contains i then p else ⟨none, p.type, p.name⟩))
        (fun x hx => by rw [bwd_col block args x hx]; exact hnodict x hx)
      have hconst2 : allArgumentsAreConstants (convertColumnsWithDictionaryToFull
          ((List.range block.length).map (fun i =>
            let p := Block.getByPosition block i
            if args.contains i then p else ⟨none, p.type, p.name⟩)) args) args = true := by
        refine List.all_eq_true.mpr (fun x hx => ?_)
        rw [(hconv x).1, bwd_col block args x hx]
        exact hconstm x hx
      rw [EWD_all_const_error fuel f _ args result input_rows_count hudc hne hconst2 hall hfuel]
    | nothing =>
      rw [execute_caseB fuel f block args result input_rows_count hflag
        (fun dt h => by rw [htype] at h; cases h)]
      have hconv := convertFull_inv args ((List.range block.length).map (fun i =>
        let p := Block.getByPosition block i
        if args.contains i then p else ⟨none, p.type, p.name⟩))
        (fun x hx => by rw [bwd_col block args x hx]; exact hnodict x hx)
      have hconst2 : allArgumentsAreConstants (convertColumnsWithDictionaryToFull
          ((List.range block.length).map (fun i =>
            let p := Block.getByPosition block i
            if args.contains i then p else ⟨none, p.type, p.name⟩)) args) args = true := by
        refine List.all_eq_true.mpr (fun x hx => ?_)
        rw [(hconv x).1, bwd_col block args x hx]
        exact hconstm x hx
      rw [EWD_all_const_error fuel f _ args result input_rows_count hudc hne hconst2 hall hfuel]
    | nullable t =>
      rw [execute_caseB fuel f block args result input_rows_count hflag
        (fun dt h => by rw [htype] at h; cases h)]
      have hconv := convertFull_inv args ((List.range block.length).map (fun i =>
        let p := Block.getByPosition block i
        if args.contains i then p else ⟨none, p.type, p.name⟩))
        (fun x hx => by rw [bwd_col block args x hx]; exact hnodict x hx)
      have hconst2 : allArgumentsAreConstants (convertColumnsWithDictionaryToFull
          ((List.range block.length).map (fun i =>
            let p := Block.getByPosition block i
            if args.contains i then p else ⟨none, p.type, p.name⟩)) args) args = true := by
        refine List.all_eq_true.mpr (fun x hx => ?_)
        rw [(hconv x).1, bwd_col block args x hx]
        exact hconstm x hx
      rw [EWD_all_const_error fuel f _ args result input_rows_count hudc hne hconst2 hall hfuel]
    | array t =>
      rw [execute_caseB fuel f block args result input_rows_count hflag
        (fun dt h => by rw [htype] at h; cases h)]
      have hconv := convertFull_inv args ((List.range block.length).map (fun i =>
        let p := Block.getByPosition block i
        if args.contains i then p else ⟨none, p.type, p.name⟩))
        (fun x hx => by rw [bwd_col block args x hx]; exact hnodict x hx)
      have hconst2 : allArgumentsAreConstants (convertColumnsWithDictionaryToFull
          ((List.range block.length).map (fun i =>
            let p := Block.getByPosition block i
            if args.contains i then p else ⟨none, p.type, p.name⟩)) args) args = true := by
        refine List.all_eq_true.mpr (fun x hx => ?_)
        rw [(hconv x).1, bwd_col block args x hx]
        exact hconstm x hx
      rw [EWD_all_const_error fuel f _ args result input_rows_count hudc hne hconst2 hall hfuel]
    | tuple ts named =>
      rw [execute_caseB fuel f block args result input_rows_count hflag
        (fun dt h => by rw [htype] at h; cases h)]
      have hconv := convertFull_inv args ((List.range block.length).map (fun i =>
        let p := Block.getByPosition block i
        if args.contains i then p else ⟨none, p.type, p.name⟩))
        (fun x hx => by rw [bwd_col block args x hx]; exact hnodict x hx)
      have hconst2 : allArgumentsAreConstants (convertColumnsWithDictionaryToFull
          ((List.range block.length).map (fun i =>
            let p := Block.getByPosition block i
            if args.contains i then p else ⟨none, p.type, p.name⟩)) args) args = true := by
        refine List.all_eq_true.mpr (fun x hx => ?_)
        rw [(hconv x).1, bwd_col block args x hx]
        exact hconstm x hx
      rw [EWD_all_const_error fuel f _ args result input_rows_count hudc hne hconst2 hall hfuel]
  · rw [execute_no_dict_flag fuel f block args result input_rows_count
      (Bool.not_eq_true _ ▸ Bool.of_not_eq_true hflag)]
    exact EWD_all_const_error fuel f block args result input_rows_count hudc hne hconst hall hfuel

/-- Witness for the all-always-constant error at a concrete function and
block: two Constant arguments, both declared always-constant. -/
theorem claim_all_always_constant_error_w :
    execute 3
        ⟨true, false, false, false, true, false, 2, [0, 1],
          fun _ _ _ n => .ok (.plain 0 (List.replicate n 9)), fun _ => .ok (.ground 0), none⟩
        [⟨some (.const (.plain 0 [2]) 4), .ground 0, "a"⟩,
          ⟨some (.const (.plain 0 [3]) 4), .ground 0, "b"⟩,
          ⟨none, .ground 0, "r"⟩] [0, 1] 2 4
      = ([], .error .numberOfArgumentsDoesntMatch) :=
  claim_all_always_constant_error 3 _ _ [0, 1] 2 4 rfl (by simp) rfl
    (fun i hi => by
      rcases i with _ | _ | i
      · rfl
      · rfl
      · simp only [List.length_cons, List.length_nil] at hi
        omega) (by omega)

/-! Always-constant violation (claim C6). -/

theorem dica_violation (recur : ExecCont) (f : Func) (block : Block) (args : List Nat)
    (result input_rows_count : Nat)
    (hviol : f.argumentsThatAreAlwaysConstant.any (fun arg_num =>
        decide (arg_num < args.length) &&
        !(Block.getByPosition block (args.getD arg_num 0)).col.isColumnConst) = true) :
    defaultImplementationForConstantArguments recur f block args result input_rows_count
      = ([], .error .illegalColumn) := by
  simp only [defaultImplementationForConstantArguments, hviol, if_true]

theorem EWD_violation (fuel : Nat) (f : Func) (block : Block) (args : List Nat)
    (result input_rows_count : Nat)
    (hfuel : 0 < fuel)
    (hviol : f.argumentsThatAreAlwaysConstant.any (fun arg_num =>
        decide (arg_num < args.length) &&
        !(Block.getByPosition block (args.getD arg_num 0)).col.isColumnConst) = true) :
    executeWithoutLowCardinality fuel f block args result input_rows_count
      = ([], .error .illegalColumn) := by
  cases fuel with
  | zero => omega
  | succ fuel =>
    rw [executeWithoutLowCardinality,
      dica_violation _ f block args result input_rows_count hviol]

theorem violCheck_congr (f : Func) (b2 block : Block) (args : List Nat)
    (hinv : ∀ x ∈ args, (Block.getByPosition b2 x).col.isColumnConst
        = (Block.getByPosition block x).col.isColumnConst) :
    f.argumentsThatAreAlwaysConstant.any (fun arg_num =>
        decide (arg_num < args.length) &&
        !(Block.getByPosition b2 (args.getD arg_num 0)).col.isColumnConst)
      = f.argumentsThatAreAlwaysConstant.any (fun arg_num =>
        decide (arg_num < args.length) &&
        !(Block.getByPosition block (args.getD arg_num 0)).col.isColumnConst) := by
  refine any_congr_local _ _ _ (fun a _ => ?_)
  by_cases hlt : a < args.length
  · have hmem : args.getD a 0 ∈ args := by
      rw [List.getD_eq_getElem?_getD, List.getElem?_eq_getElem hlt]
      exact List.getElem_mem hlt
    rw [hinv _ hmem]
  · simp [hlt]

theorem execute_error_of_EWD (fuel : Nat) (f : Func) (block : Block) (args : List Nat)
    (result input_rows_count : Nat) (e : Err)
    (hnodict : ∀ x ∈ args, (Block.getByPosition block x).col.isColumnLowCardinality = false)
    (hEWD : ∀ (b2 : Block) (n2 : Nat),
        (∀ x ∈ args, (Block.getByPosition b2 x).col.isColumnConst
            = (Block.getByPosition block x).col.isColumnConst) →
        executeWithoutLowCardinality fuel f b2 args result n2 = ([], .error e)) :
    execute fuel f block args result input_rows_count = ([], .error e) := by
  by_cases hflag : f.useDefaultImplementationForColumnsWithDictionary = true
  · by_cases hlc : ∃ dt, (Block.getByPosition block result).type = .lowCardinality dt
    · rcases hlc with ⟨dt, htype⟩
      rcases execute_caseA_no_dict fuel f block args result input_rows_count dt hflag htype
        hnodict with ⟨block2, hinv, hexec⟩
      rw [hexec, hEWD block2 (Block.rows block2) (fun x hx => (hinv x hx).1)]
    · rw [execute_caseB fuel f block args result input_rows_count hflag
        (fun dt h => hlc ⟨dt, h⟩)]
      have hconv := convertFull_inv args ((List.range block.length).map (fun i =>
        let p := Block.getByPosition block i
        if args.contains i then p else ⟨none, p.type, p.name⟩))
        (fun x hx => by rw [bwd_col block args x hx]; exact hnodict x hx)
      rw [hEWD _ input_rows_count (fun x hx => by rw [(hconv x).1, bwd_col block args x hx])]
  · rw [execute_no_dict_flag fuel f block args result input_rows_count
      (Bool.not_eq_true _ ▸ Bool.of_not_eq_true hflag)]
    exact hEWD block input_rows_count (fun x hx => rfl)

/-- C6 (amended): always-constant violation.  If some index listed in
`always_constant_args` is within the argument list's bounds, the
argument column at that index is not Constant, and no argument column is
dictionary-encoded (a dictionary argument can be answered from the
result cache before the check runs), then `execute` fails with
ILLEGAL_COLUMN and the row-kernel is never invoked. -/
theorem claim_always_constant_violation (fuel : Nat) (f : Func) (block : Block)
    (args : List Nat) (result input_rows_count : Nat)
    (hviol : f.argumentsThatAreAlwaysConstant.any (fun arg_num =>
        decide (arg_num < args.length) &&
        !(Block.getByPosition block (args.getD arg_num 0)).col.isColumnConst) = true)
    (hnodict : ∀ x ∈ args, (Block.getByPosition block x).col.isColumnLowCardinality = false)
    (hfuel : 0 < fuel) :
    execute fuel f block args result input_rows_count = ([], .error .illegalColumn) := by
  refine execute_error_of_EWD fuel f block args result input_rows_count .illegalColumn hnodict
    (fun b2 n2 hinv => ?_)
  refine EWD_violation fuel f b2 args result n2 hfuel ?_
  exact (violCheck_congr f b2 block args hinv).trans hviol

/-- Witness for the always-constant violation at a concrete function and
block: index 0 is declared always-constant but holds a Plain column. -/
theorem claim_always_constant_violation_w :
    execute 1
        ⟨true, true, false, false, true, false, 1, [0],
          fun _ _ _ n => .ok (.plain 0 (List.replicate n 9)), fun _ => .ok (.ground 0), none⟩
        [⟨some (.plain 0 [1, 2]), .ground 0, "a"⟩, ⟨none, .ground 0, "r"⟩] [0] 1 2
      = ([], .error .illegalColumn) :=
  claim_always_constant_violation 1 _ _ [0] 1 2 rfl (by decide) (by decide)

/-- Counterexample to the unamended C6: index 0 is declared
always-constant and holds a non-Constant (dictionary-encoded) column,
yet `execute` neither raises ILLEGAL_COLUMN nor invokes the kernel — the
dictionary result cache answers first. -/
theorem claim_always_constant_violation_cex :
    execute 1
        ⟨true, false, true, true, true, false, 1, [0],
          fun _ _ _ n => .ok (.plain 0 (List.replicate n 9)),
          fun _ => .ok (.ground 0),
          some [(((Col.plain 1 [10, 20]).contentHash, 2),
            ⟨.nothing 0, .plain 0 [5, 6], [0, 1]⟩)]⟩
        [⟨some (.dict (.plain 1 [10, 20]) [0, 1, 1] true), .lowCardinality (.ground 1), "a"⟩,
          ⟨none, .lowCardinality (.ground 0), "r"⟩]
        [0] 1 3
      = ([], .ok
          [⟨some (.dict (.plain 1 [10, 20]) [0, 1, 1] true), .lowCardinality (.ground 1), "a"⟩,
            ⟨some (.dict (.plain 0 [5, 6]) [0, 1, 1] true), .lowCardinality (.ground 0), "r"⟩])
      ∧ (Col.dict (.plain 1 [10, 20]) [0, 1, 1] true).isColumnConst = false :=
  ⟨rfl, rfl⟩

/-! Multiple dictionary-encoded arguments (claim C8). -/

theorem findLCGo_two_dicts (block : Block) :
    ∀ (args : List Nat) (acc : Option Col),
      2 ≤ (if acc.isSome then 1 else 0)
          + args.countP (fun x => (Block.getByPosition block x).col.isColumnLowCardinality) →
      findLowCardinalityArgumentGo block args acc = .error .logicalError := by
  intro args
  induction args with
  | nil =>
    intro acc h
    simp only [List.countP_nil] at h
    cases acc <;> simp at h
  | cons a rest ih =>
    intro acc h
    rw [List.countP_cons] at h
    rw [findLowCardinalityArgumentGo]
    cases hcol : (Block.getByPosition block a).col with
    | dict d idx sh =>
      cases acc with
      | some c => rfl
      | none =>
        refine ih (some (.dict d idx sh)) ?_
        rw [hcol] at h
        have hq : (Col.dict d idx sh).isColumnLowCardinality = true := rfl
        rw [hq] at h
        have h0 : (if (none : Option Col).isSome = true then (1 : Nat) else 0) = 0 := rfl
        have h1 : (if true = true then (1 : Nat) else 0) = 1 := rfl
        have h2 : (if (some (Col.dict d idx sh)).isSome = true then (1 : Nat) else 0) = 1 := rfl
        rw [h0, h1] at h
        rw [h2]
        omega
    | plain g vs =>
      refine ih acc ?_
      rw [hcol] at h
      have hq : (Col.plain g vs).isColumnLowCardinality = false := rfl
      rw [hq] at h
      have h0 : (if false = true then (1 : Nat) else 0) = 0 := rfl
      rw [h0] at h
      omega
    | nothing n =>
      refine ih acc ?_
      rw [hcol] at h
      have hq : (Col.nothing n).isColumnLowCardinality = false := rfl
      rw [hq] at h
      have h0 : (if false = true then (1 : Nat) else 0) = 0 := rfl
      rw [h0] at h
      omega
    | const d n =>
      refine ih acc ?_
      rw [hcol] at h
      have hq : (Col.const d n).isColumnLowCardinality = false := rfl
      rw [hq] at h
      have h0 : (if false = true then (1 : Nat) else 0) = 0 := rfl
      rw [h0] at h
      omega
    | nullable v m =>
      refine ih acc ?_
      rw [hcol] at h
      have hq : (Col.nullable v m).isColumnLowCardinality = false := rfl
      rw [hq] at h
      have h0 : (if false = true then (1 : Nat) else 0) = 0 := rfl
      rw [h0] at h
      omega
    | array offs data =>
      refine ih acc ?_
      rw [hcol] at h
      have hq : (Col.array offs data).isColumnLowCardinality = false := rfl
      rw [hq] at h
      have h0 : (if false = true then (1 : Nat) else 0) = 0 := rfl
      rw [h0] at h
      omega
    | tuple cs =>
      refine ih acc ?_
      rw [hcol] at h
      have hq : (Col.tuple cs).isColumnLowCardinality = false := rfl
      rw [hq] at h
      have h0 : (if false = true then (1 : Nat) else 0) = 0 := rfl
      rw [h0] at h
      omega

/-- C8 (amended): multiple-dictionary error.  With the dictionary
default in effect, LOGICAL_ERROR for several dictionary-encoded argument
columns is raised on the low-cardinality result path: if the result
slot's type is `LowCardinality(T)` and at least two argument positions
hold dictionary-encoded columns, `execute` fails with LOGICAL_ERROR (and
the row-kernel is never invoked); when the result slot's type is not
LowCardinality, the dictionary arguments are instead converted to full
columns and no such error is raised. -/
theorem claim_multiple_dictionary_error (fuel : Nat) (f : Func) (block : Block)
    (args : List Nat) (result input_rows_count : Nat) (dt : DataType)
    (hflag : f.useDefaultImplementationForColumnsWithDictionary = true)
    (htype : (Block.getByPosition block result).type = .lowCardinality dt)
    (htwo : 2 ≤ args.countP (fun x =>
        (Block.getByPosition block x).col.isColumnLowCardinality)) :
    execute fuel f block args result input_rows_count = ([], .error .logicalError) := by
  have hfind : findLowCardinalityArgument block args = .error .logicalError := by
    rw [findLowCardinalityArgument]
    refine findLCGo_two_dicts block args none ?_
    simpa using htwo
  simp only [execute, hflag, htype, hfind, if_true]

/-- Witness for the multiple-dictionary error at a concrete function and
block: two dictionary-encoded arguments under a LowCardinality result
slot. -/
theorem claim_multiple_dictionary_error_w :
    execute 2
        ⟨false, false, true, true, true, false, 2, [],
          fun _ _ _ n => .ok (.plain 0 (List.replicate n 7)),
          fun _ => .ok (.lowCardinality (.ground 0)), none⟩
        [⟨some (.dict (.plain 0 [10, 20]) [0, 1, 1] false), .lowCardinality (.ground 0), "a"⟩,
          ⟨some (.dict (.plain 0 [30, 40]) [1, 0, 0] false), .lowCardinality (.ground 0), "b"⟩,
          ⟨none, .lowCardinality (.ground 0), "r"⟩]
        [0, 1] 2 3
      = ([], .error .logicalError) :=
  claim_multiple_dictionary_error 2 _ _ [0, 1] 2 3 (.ground 0) rfl rfl (by decide)

/-- Counterexample to the unamended C8: the dictionary default is in
effect and two argument columns are dictionary-encoded, yet `execute`
succeeds — the result slot's type is not LowCardinality, so the
arguments are converted to full columns instead. -/
theorem claim_multiple_dictionary_error_cex :
    (execute 2
        ⟨false, false, true, true, true, false, 2, [],
          fun _ _ _ n => .ok (.plain 0 (List.replicate n 7)),
          fun _ => .ok (.ground 0), none⟩
        [⟨some (.dict (.plain 0 [10, 20]) [0, 1, 1] false), .lowCardinality (.ground 0), "a"⟩,
          ⟨some (.dict (.plain 0 [30, 40]) [1, 0, 0] false), .lowCardinality (.ground 0), "b"⟩,
          ⟨none, .ground 0, "r"⟩]
        [0, 1] 2 3).2
      = .ok
        [⟨some (.dict (.plain 0 [10, 20]) [0, 1, 1] false), .lowCardinality (.ground 0), "a"⟩,
          ⟨some (.dict (.plain 0 [30, 40]) [1, 0, 0] false), .lowCardinality (.ground 0), "b"⟩,
          ⟨some (.plain 0 [7, 7, 7]), .ground 0, "r"⟩]
      ∧ 2 ≤ List.countP (fun x => (Block.getByPosition
          [⟨some (.dict (.plain 0 [10, 20]) [0, 1, 1] false), .lowCardinality (.ground 0), "a"⟩,
            ⟨some (.dict (.plain 0 [30, 40]) [1, 0, 0] false), .lowCardinality (.ground 0), "b"⟩,
            ⟨none, .ground 0, "r"⟩] x).col.isColumnLowCardinality) [0, 1] :=
  ⟨rfl, by decide⟩

/-- C5: result-length invariant, shown violated at a concrete input.
With the dictionary default in effect, a LowCardinality result slot and
a single Constant argument, the dictionary path's row count stays 0 (no
dictionary-encoded argument sets it), the Constant argument is resized
to 0 rows, the row-kernel is invoked with n_rows = 0, and the dictionary
column written to the result slot has length 0 — not the requested
`input_rows_count` of 5. -/
theorem claim_result_length_bug :
    execute 2
        ⟨false, false, true, true, true, false, 1, [],
          fun _ _ _ n => .ok (.plain 0 (List.replicate n 7)),
          fun _ => .ok (.ground 0), none⟩
        [⟨some (.const (.plain 0 [4]) 5), .ground 0, "a"⟩,
          ⟨none, .lowCardinality (.ground 0), "r"⟩]
        [0] 1 5
      = ([⟨[⟨some (.const (.plain 0 [4]) 0), .ground 0, "a"⟩,
              ⟨none, .ground 0, "r"⟩], [0], 1, 0⟩],
          .ok [⟨some (.const (.plain 0 [4]) 5), .ground 0, "a"⟩,
            ⟨some (.dict (.plain 0 []) [] false), .lowCardinality (.ground 0), "r"⟩])
      ∧ (Col.dict (.plain 0 []) [] false).size = 0 :=
  ⟨rfl, rfl⟩

/-! Constants projection (claim C2). -/

theorem rows_converted (block : Block) (a0 : Nat) (rest : List Nat) (result : Nat)
    (hconst : (Block.getByPosition block a0).col.isColumnConst = true)
    (hone : (Block.getByPosition block a0).col.getDataColumn.size = 1) :
    Block.rows (((List.range (a0 :: rest).length).map (fun arg_num =>
        let column := Block.getByPosition block ((a0 :: rest).getD arg_num 0)
        (⟨column.column.map Col.getDataColumn, column.type, column.name⟩ :
          ColumnWithTypeAndName)))
      ++ [Block.getByPosition block result]) = 1 := by
  rw [List.length_cons, List.range_succ_eq_map, List.map_cons]
  cases hcolv : (Block.getByPosition block a0).column with
  | none =>
    rw [ColumnWithTypeAndName.col, hcolv] at hconst
    simp [Col.isColumnConst] at hconst
  | some c =>
    have hcc : (Block.getByPosition block a0).col = c := by
      rw [ColumnWithTypeAndName.col, hcolv]
      rfl
    simp only [List.cons_append, Block.rows, List.getD_cons_zero, hcolv, Option.map_some']
    rw [hcc] at hone
    exact hone

theorem head_converted (block : Block) (a0 : Nat) (rest : List Nat) (result : Nat) :
    (Block.getByPosition (((List.range (a0 :: rest).length).map (fun arg_num =>
        let column := Block.getByPosition block ((a0 :: rest).getD arg_num 0)
        (⟨column.column.map Col.getDataColumn, column.type, column.name⟩ :
          ColumnWithTypeAndName)))
      ++ [Block.getByPosition block result]) 0).col
      = (Block.getByPosition block a0).col.getDataColumn := by
  have hG : Block.getByPosition (((List.range (a0 :: rest).length).map (fun arg_num =>
        let column := Block.getByPosition block ((a0 :: rest).getD arg_num 0)
        (⟨column.column.map Col.getDataColumn, column.type, column.name⟩ :
          ColumnWithTypeAndName)))
      ++ [Block.getByPosition block result]) 0
      = ⟨(Block.getByPosition block a0).column.map Col.getDataColumn,
          (Block.getByPosition block a0).type, (Block.getByPosition block a0).name⟩ := by
    rw [List.length_cons, List.range_succ_eq_map, List.map_cons, List.cons_append]
    rfl
  rw [hG]
  cases hcolv : (Block.getByPosition block a0).column with
  | none => simp [ColumnWithTypeAndName.col, hcolv, Col.getDataColumn]
  | some c => simp [ColumnWithTypeAndName.col, hcolv]

theorem nac_converted (block : Block) (a0 : Nat) (rest : List Nat) (result : Nat)
    (hd : (Block.getByPosition block a0).col.getDataColumn.isColumnConst = false) :
    allArgumentsAreConstants (((List.range (a0 :: rest).length).map (fun arg_num =>
        let column := Block.getByPosition block ((a0 :: rest).getD arg_num 0)
        (⟨column.column.map Col.getDataColumn, column.type, column.name⟩ :
          ColumnWithTypeAndName)))
      ++ [Block.getByPosition block result]) (List.range (a0 :: rest).length) = false := by
  refine Bool.eq_false_iff.mpr (fun hall => ?_)
  have h0 := List.all_eq_true.mp hall 0 (List.mem_range.mpr (by simp))
  rw [head_converted block a0 rest result, hd] at h0
  cases h0

theorem dica_project (recur : ExecCont) (f : Func) (block : Block) (a0 : Nat) (rest : List Nat)
    (result input_rows_count : Nat)
    (hudc : f.useDefaultImplementationForConstants = true)
    (halways : f.argumentsThatAreAlwaysConstant = [])
    (hconst : allArgumentsAreConstants block (a0 :: rest) = true) :
    defaultImplementationForConstantArguments recur f block (a0 :: rest) result
        input_rows_count
      = (match recur (((List.range (a0 :: rest).length).map (fun arg_num =>
        let column := Block.getByPosition block ((a0 :: rest).getD arg_num 0)
        (⟨column.column.map Col.getDataColumn, column.type, column.name⟩ :
          ColumnWithTypeAndName)))
      ++ [Block.getByPosition block result])
            (List.range (a0 :: rest).length) (a0 :: rest).length
            (Block.rows (((List.range (a0 :: rest).length).map (fun arg_num =>
        let column := Block.getByPosition block ((a0 :: rest).getD arg_num 0)
        (⟨column.column.map Col.getDataColumn, column.type, column.name⟩ :
          ColumnWithTypeAndName)))
      ++ [Block.getByPosition block result])) with
         | (calls, .error e) => (calls, .error e)
         | (calls, .ok tb) => (calls, .ok (some (Block.setColumn block result
             (Col.constCreate (Block.getByPosition tb (a0 :: rest).length).col
               input_rows_count))))) := by
  have hcn : ∀ a : Nat, (([] : List Nat)).contains a = false := fun a => rfl
  have hhc : ((List.range (a0 :: rest).length).any (fun _ => true)) = true := by
    rw [List.length_cons, List.range_succ_eq_map, List.any_cons]
    rfl
  simp only [defaultImplementationForConstantArguments, halways, List.any_nil,
    Bool.false_eq_true, if_false, hudc, hconst, List.isEmpty_cons, Bool.not_true,
    Bool.or_false, Bool.false_or, hhc, hcn, Bool.not_false]

theorem EWD_kernel_step (k : Nat) (f : Func) (tb : Block) (args2 : List Nat)
    (result2 irc2 : Nat)
    (halways : f.argumentsThatAreAlwaysConstant = [])
    (hnulls : f.useDefaultImplementationForNulls = false)
    (hnac : allArgumentsAreConstants tb args2 = false) :
    executeWithoutLowCardinality (k + 1) f tb args2 result2 irc2
      = (match f.kernel tb args2 result2 irc2 with
         | .error e => ([⟨tb, args2, result2, irc2⟩], .error e)
         | .ok c => ([⟨tb, args2, result2, irc2⟩], .ok (Block.setColumn tb result2 c))) := by
  rw [executeWithoutLowCardinality]
  have hdica : defaultImplementationForConstantArguments
      (executeWithoutLowCardinality k f) f tb args2 result2 irc2 = ([], .ok none) := by
    simp only [defaultImplementationForConstantArguments, halways, List.any_nil,
      Bool.false_eq_true, if_false, hnac, Bool.not_false, Bool.or_true, if_true]
  have hdin : defaultImplementationForNulls
      (executeWithoutLowCardinality k f) f tb args2 result2 irc2 = ([], .ok none) := by
    simp only [defaultImplementationForNulls, hnulls, Bool.not_false, Bool.or_true, if_true]
  rw [hdica, hdin]

theorem constants_projection_aux (k : Nat) (f : Func) (block : Block) (a0 : Nat)
    (rest : List Nat) (result input_rows_count : Nat)
    (hudc : f.useDefaultImplementationForConstants = true)
    (hnulls : f.useDefaultImplementationForNulls = false)
    (hflag : f.useDefaultImplementationForColumnsWithDictionary = false)
    (halways : f.argumentsThatAreAlwaysConstant = [])
    (hconst : allArgumentsAreConstants block (a0 :: rest) = true)
    (hdata : ∀ x ∈ (a0 :: rest),
      (Block.getByPosition block x).col.getDataColumn.isColumnConst = false)
    (hone : ∀ x ∈ (a0 :: rest), (Block.getByPosition block x).col.getDataColumn.size = 1) :
    execute (k + 2) f block (a0 :: rest) result input_rows_count
      = (match f.kernel (((List.range (a0 :: rest).length).map (fun arg_num =>
        let column := Block.getByPosition block ((a0 :: rest).getD arg_num 0)
        (⟨column.column.map Col.getDataColumn, column.type, column.name⟩ :
          ColumnWithTypeAndName)))
      ++ [Block.getByPosition block result])
            (List.range (a0 :: rest).length) (a0 :: rest).length 1 with
         | .error e => ([⟨(((List.range (a0 :: rest).length).map (fun arg_num =>
        let column := Block.getByPosition block ((a0 :: rest).getD arg_num 0)
        (⟨column.column.map Col.getDataColumn, column.type, column.name⟩ :
          ColumnWithTypeAndName)))
      ++ [Block.getByPosition block result]),
             (List.range (a0 :: rest).length), (a0 :: rest).length, 1⟩], .error e)
         | .ok c => ([⟨(((List.range (a0 :: rest).length).map (fun arg_num =>
        let column := Block.getByPosition block ((a0 :: rest).getD arg_num 0)
        (⟨column.column.map Col.getDataColumn, column.type, column.name⟩ :
          ColumnWithTypeAndName)))
      ++ [Block.getByPosition block result]),
             (List.range (a0 :: rest).length), (a0 :: rest).length, 1⟩],
             .ok (Block.setColumn block result (Col.constCreate c input_rows_count)))) := by
  have hc0 := allArgumentsAreConstants_mem block (a0 :: rest) hconst a0 (by simp)
  have ho0 := hone a0 (by simp)
  rw [execute_no_dict_flag _ _ _ _ _ _ hflag]
  rw [executeWithoutLowCardinality]
  rw [dica_project (executeWithoutLowCardinality (k + 1) f) f block a0 rest result
    input_rows_count hudc halways hconst]
  rw [rows_converted block a0 rest result hc0 ho0]
  have hnac := nac_converted block a0 rest result (hdata a0 (by simp))
  rw [EWD_kernel_step k f _ _ _ _ halways hnulls hnac]
  have hlen : ((((List.range (a0 :: rest).length).map (fun arg_num =>
        let column := Block.getByPosition block ((a0 :: rest).getD arg_num 0)
        (⟨column.column.map Col.getDataColumn, column.type, column.name⟩ :
          ColumnWithTypeAndName)))
      ++ [Block.getByPosition block result]) : Block).length = (a0 :: rest).length + 1 := by
    simp
  cases hker : f.kernel (((List.range (a0 :: rest).length).map (fun arg_num =>
        let column := Block.getByPosition block ((a0 :: rest).getD arg_num 0)
        (⟨column.column.map Col.getDataColumn, column.type, column.name⟩ :
          ColumnWithTypeAndName)))
      ++ [Block.getByPosition block result])
      (List.range (a0 :: rest).length) (a0 :: rest).length 1 with
  | error e => rfl
  | ok c =>
    have hget : (Block.getByPosition (Block.setColumn (((List.range (a0 :: rest).length).map (fun arg_num =>
        let column := Block.getByPosition block ((a0 :: rest).getD arg_num 0)
        (⟨column.column.map Col.getDataColumn, column.type, column.name⟩ :
          ColumnWithTypeAndName)))
      ++ [Block.getByPosition block result])
        (a0 :: rest).length c) (a0 :: rest).length).col = c := by
      rw [Block.setColumn, getByPosition_set_self _ _ _ (by rw [hlen]; omega)]
      rfl
    simp only [hget]

/-- C2 (amended): constants projection.  For a function with
`use_default_for_constants`, the nulls and dictionary defaults off and
no always-constant argument indices, on a non-empty argument list whose
columns are all Constant with non-Constant one-row inner data, `execute`
unwraps the Constants into a one-row temporary block, invokes the
row-kernel exactly once with n_rows = 1, and writes the kernel output
back as a Constant column of length `input_rows_count` (with an
always-constant argument the temporary block keeps that Constant whole,
so the kernel instead sees the Constant column's full length). -/
theorem claim_constants_projection (fuel : Nat) (f : Func) (block : Block) (args : List Nat)
    (result input_rows_count : Nat)
    (hudc : f.useDefaultImplementationForConstants = true)
    (hnulls : f.useDefaultImplementationForNulls = false)
    (hflag : f.useDefaultImplementationForColumnsWithDictionary = false)
    (halways : f.argumentsThatAreAlwaysConstant = [])
    (hne : args ≠ [])
    (hconst : allArgumentsAreConstants block args = true)
    (hdata : ∀ x ∈ args,
      (Block.getByPosition block x).col.getDataColumn.isColumnConst = false)
    (hone : ∀ x ∈ args, (Block.getByPosition block x).col.getDataColumn.size = 1)
    (hfuel : 2 ≤ fuel) :
    execute fuel f block args result input_rows_count
      = (match f.kernel (((List.range args.length).map (fun arg_num =>
        let column := Block.getByPosition block (args.getD arg_num 0)
        (⟨column.column.map Col.getDataColumn, column.type, column.name⟩ :
          ColumnWithTypeAndName)))
      ++ [Block.getByPosition block result])
            (List.range args.length) args.length 1 with
         | .error e => ([⟨(((List.range args.length).map (fun arg_num =>
        let column := Block.getByPosition block (args.getD arg_num 0)
        (⟨column.column.map Col.getDataColumn, column.type, column.name⟩ :
          ColumnWithTypeAndName)))
      ++ [Block.getByPosition block result]),
             (List.range args.length), args.length, 1⟩], .error e)
         | .ok c => ([⟨(((List.range args.length).map (fun arg_num =>
        let column := Block.getByPosition block (args.getD arg_num 0)
        (⟨column.column.map Col.getDataColumn, column.type, column.name⟩ :
          ColumnWithTypeAndName)))
      ++ [Block.getByPosition block result]),
             (List.range args.length), args.length, 1⟩],
             .ok (Block.setColumn block result (Col.constCreate c input_rows_count)))) := by
  obtain ⟨k, rfl⟩ : ∃ k, fuel = k + 2 := ⟨fuel - 2, by omega⟩
  cases args with
  | nil => exact absurd rfl hne
  | cons a0 rest =>
    exact constants_projection_aux k f block a0 rest result input_rows_count hudc hnulls
      hflag halways hconst hdata hone

/-- Witness for the constants projection at a concrete function and
block: two Constant arguments are unwrapped, the kernel runs once on one
row, and the result is Constant of the requested length. -/
theorem claim_constants_projection_w :
    execute 2
        ⟨true, false, false, false, true, false, 2, [],
          fun _ _ _ n => .ok (.plain 0 (List.replicate n 9)),
          fun _ => .ok (.ground 0), none⟩
        [⟨some (.const (.plain 0 [2]) 4), .ground 0, "a"⟩,
          ⟨some (.const (.plain 0 [3]) 4), .ground 0, "b"⟩,
          ⟨none, .ground 0, "r"⟩] [0, 1] 2 4
      = ([⟨[⟨some (.plain 0 [2]), .ground 0, "a"⟩, ⟨some (.plain 0 [3]), .ground 0, "b"⟩,
              ⟨none, .ground 0, "r"⟩], [0, 1], 2, 1⟩],
          .ok [⟨some (.const (.plain 0 [2]) 4), .ground 0, "a"⟩,
            ⟨some (.const (.plain 0 [3]) 4), .ground 0, "b"⟩,
            ⟨some (.const (.plain 0 [9]) 4), .ground 0, "r"⟩]) :=
  (claim_constants_projection 2
    ⟨true, false, false, false, true, false, 2, [],
      fun _ _ _ n => .ok (.plain 0 (List.replicate n 9)),
      fun _ => .ok (.ground 0), none⟩
    [⟨some (.const (.plain 0 [2]) 4), .ground 0, "a"⟩,
      ⟨some (.const (.plain 0 [3]) 4), .ground 0, "b"⟩,
      ⟨none, .ground 0, "r"⟩] [0, 1] 2 4
    rfl rfl rfl rfl (by decide) rfl (by decide) (by decide) (by omega)).trans rfl

/-- Counterexample to the unamended C2: with index 0 declared
always-constant, every hypothesis of the original claim holds (constants
default on, every argument Constant), yet the single kernel invocation
receives n_rows = 2, not 1 — the always-constant argument is kept whole
in the temporary block, whose row count is the Constant column's length. -/
theorem claim_constants_projection_cex :
    allArgumentsAreConstants
        [⟨some (.const (.plain 0 [2]) 2), .ground 0, "a"⟩,
          ⟨some (.const (.plain 0 [3]) 2), .ground 0, "b"⟩,
          ⟨none, .ground 0, "r"⟩] [0, 1] = true
      ∧ (execute 3
          ⟨true, false, false, false, true, false, 2, [0],
            fun _ _ _ n => .ok (.plain 0 (List.replicate n 9)),
            fun _ => .ok (.ground 0), none⟩
          [⟨some (.const (.plain 0 [2]) 2), .ground 0, "a"⟩,
            ⟨some (.const (.plain 0 [3]) 2), .ground 0, "b"⟩,
            ⟨none, .ground 0, "r"⟩] [0, 1] 2 2).1.map KernelCall.rows = [2] :=
  ⟨rfl, rfl⟩

/-! Null-constant short-circuit (claim C3). -/

theorem getNullPresense_foldl_hnc (block : Block) :
    ∀ (args : List Nat) (acc : NullPresence),
      (args.foldl (fun res arg =>
          let elem := Block.getByPosition block arg
          (⟨res.has_nullable || elem.type.isNullable,
            res.has_null_constant || elem.type.onlyNull⟩ : NullPresence)) acc).has_null_constant
        = (acc.has_null_constant
            || args.any (fun x => (Block.getByPosition block x).type.onlyNull)) := by
  intro args
  induction args with
  | nil => intro acc; simp
  | cons a rest ih =>
    intro acc
    rw [List.foldl_cons, ih, List.any_cons, ← Bool.or_assoc]

theorem getNullPresense_foldl_hn (block : Block) :
    ∀ (args : List Nat) (acc : NullPresence),
      (args.foldl (fun res arg =>
          let elem := Block.getByPosition block arg
          (⟨res.has_nullable || elem.type.isNullable,
            res.has_null_constant || elem.type.onlyNull⟩ : NullPresence)) acc).has_nullable
        = (acc.has_nullable
            || args.any (fun x => (Block.getByPosition block x).type.isNullable)) := by
  intro args
  induction args with
  | nil => intro acc; simp
  | cons a rest ih =>
    intro acc
    rw [List.foldl_cons, ih, List.any_cons, ← Bool.or_assoc]

theorem dica_skip (recur : ExecCont) (f : Func) (block : Block) (args : List Nat)
    (result input_rows_count : Nat)
    (hnoviol : f.argumentsThatAreAlwaysConstant.any (fun arg_num =>
        decide (arg_num < args.length) &&
        !(Block.getByPosition block (args.getD arg_num 0)).col.isColumnConst) = false)
    (hnac : allArgumentsAreConstants block args = false) :
    defaultImplementationForConstantArguments recur f block args result input_rows_count
      = ([], .ok none) := by
  simp only [defaultImplementationForConstantArguments, hnoviol, Bool.false_eq_true,
    if_false, hnac, Bool.not_false, Bool.or_true, if_true]

/-- C3 (amended): null-constant short-circuit.  With the nulls default
on and the dictionary default off, when some argument's type is
only-null, the always-constant check passes, not every argument column
is Constant (so the constants default does not fire first) and the
result slot's type is `Nullable(rt)`, `execute` writes
`Constant(NULL, input_rows_count)` of the result type to the result slot
and the row-kernel is never invoked (with the dictionary default on and
a LowCardinality result slot, the written column is instead
dictionary-encoded and not Constant). -/
theorem claim_null_constant_short_circuit (fuel : Nat) (f : Func) (block : Block)
    (args : List Nat) (result input_rows_count : Nat) (rt : DataType)
    (hudn : f.useDefaultImplementationForNulls = true)
    (hflag : f.useDefaultImplementationForColumnsWithDictionary = false)
    (hnoviol : f.argumentsThatAreAlwaysConstant.any (fun arg_num =>
        decide (arg_num < args.length) &&
        !(Block.getByPosition block (args.getD arg_num 0)).col.isColumnConst) = false)
    (hnac : allArgumentsAreConstants block args = false)
    (honly : args.any (fun x => (Block.getByPosition block x).type.onlyNull) = true)
    (hrt : (Block.getByPosition block result).type = .nullable rt)
    (hfuel : 0 < fuel) :
    execute fuel f block args result input_rows_count
      = ([], .ok (Block.setColumn block result
          (.const (.nullable (rt.defaultColumn 1) [true]) input_rows_count))) := by
  rw [execute_no_dict_flag _ _ _ _ _ _
    (Bool.not_eq_true _ ▸ (fun h => by rw [hflag] at h; cases h))]
  cases fuel with
  | zero => omega
  | succ k =>
    rw [executeWithoutLowCardinality]
    rw [dica_skip (executeWithoutLowCardinality k f) f block args result input_rows_count
      hnoviol hnac]
    have hne : args.isEmpty = false := by
      cases args with
      | nil => cases hnac
      | cons a r => rfl
    have hpres : (getNullPresense block args).has_null_constant = true := by
      rw [getNullPresense, getNullPresense_foldl_hnc block args ⟨false, false⟩]
      rw [honly]
      rfl
    have hdin : defaultImplementationForNulls (executeWithoutLowCardinality k f) f block
        args result input_rows_count
        = ([], .ok (some (Block.setColumn block result
            (.const (.nullable (rt.defaultColumn 1) [true]) input_rows_count)))) := by
      simp only [defaultImplementationForNulls, hne, hudn, Bool.not_true, Bool.or_false,
        Bool.false_or, Bool.false_eq_true, if_false, hpres, if_true, hrt,
        DataType.createColumnConstNull]
    rw [hdin]

/-- Witness for the null-constant short-circuit at a concrete function
and block: a Constant-NULL first argument short-circuits to
Constant(NULL, 3) with no kernel call. -/
theorem claim_null_constant_short_circuit_w :
    execute 1
        ⟨true, true, false, false, true, false, 2, [],
          fun _ _ _ n => .ok (.plain 0 (List.replicate n 9)),
          fun _ => .ok (.nullable (.ground 0)), none⟩
        [⟨some (.const (.nullable (.nothing 1) [true]) 3), .nullable .nothing, "a"⟩,
          ⟨some (.plain 0 [1, 2, 3]), .ground 0, "b"⟩,
          ⟨none, .nullable (.ground 0), "r"⟩] [0, 1] 2 3
      = ([], .ok
          [⟨some (.const (.nullable (.nothing 1) [true]) 3), .nullable .nothing, "a"⟩,
            ⟨some (.plain 0 [1, 2, 3]), .ground 0, "b"⟩,
            ⟨some (.const (.nullable (.plain 0 [0]) [true]) 3), .nullable (.ground 0), "r"⟩]) :=
  (claim_null_constant_short_circuit 1
    ⟨true, true, false, false, true, false, 2, [],
      fun _ _ _ n => .ok (.plain 0 (List.replicate n 9)),
      fun _ => .ok (.nullable (.ground 0)), none⟩
    [⟨some (.const (.nullable (.nothing 1) [true]) 3), .nullable .nothing, "a"⟩,
      ⟨some (.plain 0 [1, 2, 3]), .ground 0, "b"⟩,
      ⟨none, .nullable (.ground 0), "r"⟩] [0, 1] 2 3 (.ground 0)
    rfl rfl rfl rfl rfl rfl (by decide)).trans rfl

/-- Counterexample to the unamended C3: the nulls default is on and the
only argument's type is only-null, yet under a LowCardinality result
slot the column written by `execute` is dictionary-encoded, not
Constant(NULL, 3). -/
theorem claim_null_constant_short_circuit_cex :
    execute 2
        ⟨false, true, true, true, true, false, 1, [],
          fun _ _ _ n => .ok (.plain 0 (List.replicate n 9)),
          fun _ => .ok (.nullable .nothing), none⟩
        [⟨some (.const (.nullable (.nothing 1) [true]) 3), .nullable .nothing, "a"⟩,
          ⟨none, .lowCardinality (.nullable (.ground 0)), "r"⟩] [0] 1 3
      = ([], .ok
          [⟨some (.const (.nullable (.nothing 1) [true]) 3), .nullable .nothing, "a"⟩,
            ⟨some (.dict (.nullable (.plain 0 []) []) [] false),
              .lowCardinality (.nullable (.ground 0)), "r"⟩])
      ∧ (Col.dict (.nullable (.plain 0 []) []) [] false).isColumnConst = false :=
  ⟨rfl, rfl⟩

/-! Null-map OR (claim C4). -/

theorem onlyNull_of_flat (t : DataType) (h : t.isNullable = false) : t.onlyNull = false := by
  cases t with
  | nullable t2 => simp [DataType.isNullable] at h
  | ground g => rfl
  | nothing => rfl
  | array t2 => rfl
  | tuple ts n => rfl
  | lowCardinality t2 => rfl

theorem getD_mapIdx_or : ∀ (m0 m1 : List Bool), m0.length = m1.length →
    ∀ i, (m0.mapIdx (fun i v => v || m1.getD i false)).getD i false
      = (m0.getD i false || m1.getD i false) := by
  intro m0
  induction m0 with
  | nil =>
    intro m1 hm i
    cases m1 with
    | nil => simp
    | cons y ys => cases hm
  | cons x xs ih =>
    intro m1 hm i
    cases m1 with
    | nil => cases hm
    | cons y ys =>
      rw [List.mapIdx_cons]
      cases i with
      | zero => rfl
      | succ j =>
        rw [List.getD_cons_succ, List.getD_cons_succ, List.getD_cons_succ]
        have hm2 : xs.length = ys.length := by
          simp at hm
          exact hm
        have := ih ys hm2 j
        simpa using this

theorem column_of_col_nullable (block : Block) (x : Nat) (v : Col) (m : List Bool)
    (h : (Block.getByPosition block x).col = .nullable v m) :
    (Block.getByPosition block x).column = some (.nullable v m) := by
  cases hc : (Block.getByPosition block x).column with
  | none =>
    rw [ColumnWithTypeAndName.col, hc] at h
    simp at h
  | some c =>
    rw [ColumnWithTypeAndName.col, hc] at h
    simp at h
    rw [h]

theorem lt_of_col_nullable (block : Block) (x : Nat) (v : Col) (m : List Bool)
    (h : (Block.getByPosition block x).col = .nullable v m) :
    x < block.length := by
  by_contra hx
  rw [getByPosition_oob block x (by omega)] at h
  simp [emptyPosition, ColumnWithTypeAndName.col] at h

theorem cbwnc_pos (block : Block) (inSet : Nat → Bool) (x : Nat) (v : Col) (m : List Bool)
    (t : DataType)
    (hlt : x < block.length)
    (hin : inSet x = true)
    (hcolv : (Block.getByPosition block x).column = some (.nullable v m))
    (htype : (Block.getByPosition block x).type = .nullable t) :
    Block.getByPosition (createBlockWithNestedColumnsIn block inSet) x
      = ⟨some v, t, (Block.getByPosition block x).name⟩ := by
  rw [createBlockWithNestedColumnsIn, getByPosition_map_range _ _ _ hlt]
  simp only [hin, htype, hcolv, DataType.isNullable, Bool.and_true, Bool.true_and, if_true,
    Col.isColumnNullable, Col.nullableNested, removeNullableType]

theorem wrap_two_nullable (c : Col) (block : Block) (a0 a1 : Nat) (result irc : Nat)
    (v0 v1 : Col) (m0 m1 : List Bool) (t0 t1 : DataType)
    (hcol0 : (Block.getByPosition block a0).col = .nullable v0 m0)
    (hcol1 : (Block.getByPosition block a1).col = .nullable v1 m1)
    (htype0 : (Block.getByPosition block a0).type = .nullable t0)
    (htype1 : (Block.getByPosition block a1).type = .nullable t1)
    (hc1 : c.isColumnNullable = false)
    (hc2 : c.onlyNull = false)
    (hc3 : c.isColumnConst = false) :
    wrapInNullable c block [a0, a1] result irc
      = .ok (.nullable c (m0.mapIdx (fun i v => v || m1.getD i false))) := by
  have hdt0 : (DataType.nullable t0).isNullable = true := rfl
  have hdt1 : (DataType.nullable t1).isNullable = true := rfl
  have hon0 : (Col.nullable v0 m0).onlyNull = false := rfl
  have hon1 : (Col.nullable v1 m1).onlyNull = false := rfl
  have hnc0 : (Col.nullable v0 m0).isColumnConst = false := rfl
  have hnc1 : (Col.nullable v1 m1).isColumnConst = false := rfl
  have hnn0 : (Col.nullable v0 m0).isColumnNullable = true := rfl
  have hnn1 : (Col.nullable v1 m1).isColumnNullable = true := rfl
  have hmap0 : (Col.nullable v0 m0).nullableMap = m0 := rfl
  have hmap1 : (Col.nullable v1 m1).nullableMap = m1 := rfl
  rw [wrapInNullable]
  simp only [hc2, Bool.false_eq_true, if_false, hc1]
  rw [wrapInNullableGo]
  simp only [htype0, hdt0, Bool.not_true, Bool.false_eq_true, if_false,
    hcol0, hon0, hnc0, hnn0, if_true, hmap0]
  rw [wrapInNullableGo]
  simp only [htype1, hdt1, Bool.not_true, Bool.false_eq_true, if_false,
    hcol1, hon1, hnc1, hnn1, if_true, hmap1]
  rw [wrapInNullableGo]
  simp only [hc3, Bool.false_eq_true, if_false]

theorem EWD_kernel_step_nulls (k : Nat) (f : Func) (tb : Block) (args2 : List Nat)
    (result2 irc2 : Nat)
    (halways : f.argumentsThatAreAlwaysConstant = [])
    (hnac : allArgumentsAreConstants tb args2 = false)
    (hp1 : (getNullPresense tb args2).has_null_constant = false)
    (hp2 : (getNullPresense tb args2).has_nullable = false) :
    executeWithoutLowCardinality (k + 1) f tb args2 result2 irc2
      = (match f.kernel tb args2 result2 irc2 with
         | .error e => ([⟨tb, args2, result2, irc2⟩], .error e)
         | .ok c => ([⟨tb, args2, result2, irc2⟩], .ok (Block.setColumn tb result2 c))) := by
  have hne : args2.isEmpty = false := by
    cases args2 with
    | nil => cases hnac
    | cons a r => rfl
  rw [executeWithoutLowCardinality]
  have hdica : defaultImplementationForConstantArguments
      (executeWithoutLowCardinality k f) f tb args2 result2 irc2 = ([], .ok none) := by
    simp only [defaultImplementationForConstantArguments, halways, List.any_nil,
      Bool.false_eq_true, if_false, hnac, Bool.not_false, Bool.or_true, if_true]
  have hdin : defaultImplementationForNulls
      (executeWithoutLowCardinality k f) f tb args2 result2 irc2 = ([], .ok none) := by
    simp only [defaultImplementationForNulls, hne, Bool.false_or, Bool.false_eq_true,
      if_false, hp1, hp2]
    cases hu : f.useDefaultImplementationForNulls with
    | false => rfl
    | true => simp only [Bool.not_true, Bool.false_eq_true, if_false]
  rw [hdica, hdin]

theorem onlyNull_nullable_ne (t : DataType) (h : t ≠ .nothing) :
    (DataType.nullable t).onlyNull = false := by
  cases t with
  | nothing => exact absurd rfl h
  | ground g => rfl
  | nullable t2 => rfl
  | array t2 => rfl
  | tuple ts n => rfl
  | lowCardinality t2 => rfl

theorem null_or_run (k : Nat) (f : Func) (block : Block) (a0 a1 : Nat)
    (result input_rows_count : Nat) (v0 v1 c : Col) (m0 m1 : List Bool) (t0 t1 : DataType)
    (hudn : f.useDefaultImplementationForNulls = true)
    (hflag : f.useDefaultImplementationForColumnsWithDictionary = false)
    (halways : f.argumentsThatAreAlwaysConstant = [])
    (hcol0 : (Block.getByPosition block a0).col = .nullable v0 m0)
    (hcol1 : (Block.getByPosition block a1).col = .nullable v1 m1)
    (htype0 : (Block.getByPosition block a0).type = .nullable t0)
    (htype1 : (Block.getByPosition block a1).type = .nullable t1)
    (hflat0 : t0.isNullable = false)
    (hflat1 : t1.isNullable = false)
    (honc0 : t0 ≠ .nothing)
    (honc1 : t1 ≠ .nothing)
    (hv0 : v0.isColumnConst = false)
    (hreslt : result < block.length)
    (hker : f.kernel (createBlockWithNestedColumnsWithResult block [a0, a1] result)
        [a0, a1] result
        (Block.rows (createBlockWithNestedColumnsWithResult block [a0, a1] result)) = .ok c)
    (hc1 : c.isColumnNullable = false)
    (hc2 : c.onlyNull = false)
    (hc3 : c.isColumnConst = false) :
    execute (k + 2) f block [a0, a1] result input_rows_count
      = ([⟨createBlockWithNestedColumnsWithResult block [a0, a1] result, [a0, a1], result,
            Block.rows (createBlockWithNestedColumnsWithResult block [a0, a1] result)⟩],
          .ok (Block.setColumn block result
            (.nullable c (m0.mapIdx (fun i v => v || m1.getD i false))))) := by
  rw [execute_no_dict_flag _ _ _ _ _ _ hflag]
  rw [executeWithoutLowCardinality]
  have hnac : allArgumentsAreConstants block [a0, a1] = false := by
    rw [allArgumentsAreConstants, List.all_cons, hcol0]
    rfl
  rw [dica_skip (executeWithoutLowCardinality (k + 1) f) f block [a0, a1] result
    input_rows_count (by rw [halways]; rfl) hnac]
  have hp1 : (getNullPresense block [a0, a1]).has_null_constant = false := by
    rw [getNullPresense, getNullPresense_foldl_hnc block [a0, a1] ⟨false, false⟩,
      Bool.false_or, List.any_cons, List.any_cons, List.any_nil, htype0, htype1,
      onlyNull_nullable_ne t0 honc0, onlyNull_nullable_ne t1 honc1]
    rfl
  have hp2 : (getNullPresense block [a0, a1]).has_nullable = true := by
    rw [getNullPresense, getNullPresense_foldl_hn block [a0, a1] ⟨false, false⟩,
      Bool.false_or, List.any_cons, htype0]
    rfl
  have hdin : defaultImplementationForNulls (executeWithoutLowCardinality (k + 1) f) f block
      [a0, a1] result input_rows_count
      = (match executeWithoutLowCardinality (k + 1) f
            (createBlockWithNestedColumnsWithResult block [a0, a1] result) [a0, a1] result
            (Block.rows (createBlockWithNestedColumnsWithResult block [a0, a1] result)) with
         | (calls, .error e) => (calls, .error e)
         | (calls, .ok tb) =>
           match wrapInNullable (Block.getByPosition tb result).col block [a0, a1] result
               input_rows_count with
           | .error e => (calls, .error e)
           | .ok c2 => (calls, .ok (some (Block.setColumn block result c2)))) := by
    simp only [defaultImplementationForNulls, List.isEmpty_cons, hudn, Bool.not_true,
      Bool.or_false, Bool.false_or, Bool.false_eq_true, if_false, hp1, hp2, if_true]
  rw [hdin]
  have hcolv0 := column_of_col_nullable block a0 v0 m0 hcol0
  have hcolv1 := column_of_col_nullable block a1 v1 m1 hcol1
  have hlt0 := lt_of_col_nullable block a0 v0 m0 hcol0
  have hlt1 := lt_of_col_nullable block a1 v1 m1 hcol1
  have hpos0 := cbwnc_pos block (fun i => [a0, a1].contains i || i == result) a0 v0 m0 t0
    hlt0 (by simp) hcolv0 htype0
  have hpos1 := cbwnc_pos block (fun i => [a0, a1].contains i || i == result) a1 v1 m1 t1
    hlt1 (by simp) hcolv1 htype1
  have hnac2 : allArgumentsAreConstants
      (createBlockWithNestedColumnsWithResult block [a0, a1] result) [a0, a1] = false := by
    rw [allArgumentsAreConstants, List.all_cons, createBlockWithNestedColumnsWithResult,
      hpos0]
    rw [show (⟨some v0, t0, (Block.getByPosition block a0).name⟩ :
      ColumnWithTypeAndName).col = v0 from rfl, hv0]
    rfl
  have hq1 : NullPresence.has_null_constant (getNullPresense
      (createBlockWithNestedColumnsWithResult block [a0, a1] result) [a0, a1]) = false := by
    rw [getNullPresense, getNullPresense_foldl_hnc _ [a0, a1] ⟨false, false⟩,
      Bool.false_or, List.any_cons, List.any_cons, List.any_nil,
      createBlockWithNestedColumnsWithResult, hpos0, hpos1]
    rw [show (⟨some v0, t0, (Block.getByPosition block a0).name⟩ :
      ColumnWithTypeAndName).type = t0 from rfl]
    rw [show (⟨some v1, t1, (Block.getByPosition block a1).name⟩ :
      ColumnWithTypeAndName).type = t1 from rfl]
    rw [onlyNull_of_flat t0 hflat0, onlyNull_of_flat t1 hflat1]
    rfl
  have hq2 : NullPresence.has_nullable (getNullPresense
      (createBlockWithNestedColumnsWithResult block [a0, a1] result) [a0, a1]) = false := by
    rw [getNullPresense, getNullPresense_foldl_hn _ [a0, a1] ⟨false, false⟩,
      Bool.false_or, List.any_cons, List.any_cons, List.any_nil,
      createBlockWithNestedColumnsWithResult, hpos0, hpos1]
    rw [show (⟨some v0, t0, (Block.getByPosition block a0).name⟩ :
      ColumnWithTypeAndName).type = t0 from rfl]
    rw [show (⟨some v1, t1, (Block.getByPosition block a1).name⟩ :
      ColumnWithTypeAndName).type = t1 from rfl]
    rw [hflat0, hflat1]
    rfl
  rw [EWD_kernel_step_nulls k f (createBlockWithNestedColumnsWithResult block [a0, a1] result)
    [a0, a1] result (Block.rows (createBlockWithNestedColumnsWithResult block [a0, a1] result))
    halways hnac2 hq1 hq2]
  rw [hker]
  have hlen : (createBlockWithNestedColumnsWithResult block [a0, a1] result).length
      = block.length := by
    simp [createBlockWithNestedColumnsWithResult, createBlockWithNestedColumnsIn]
  have hget : (Block.getByPosition (Block.setColumn
      (createBlockWithNestedColumnsWithResult block [a0, a1] result) result c) result).col
      = c := by
    rw [Block.setColumn, getByPosition_set_self _ _ _ (by rw [hlen]; exact hreslt)]
    rfl
  simp only [hget]
  rw [wrap_two_nullable c block a0 a1 result input_rows_count v0 v1 m0 m1 t0 t1 hcol0 hcol1
    htype0 htype1 hc1 hc2 hc3]

/-- C4: null-map OR.  With the nulls default on (and the dictionary
default off, no always-constant indices), applied to two non-Constant
Nullable arguments with flat non-Nothing inner types, equal null-map
lengths and a kernel that returns the same flat column on the
nested-columns temporary block in either order, `execute` writes a Nullable
column over the kernel output whose null map at every row is the
pointwise OR of the two arguments' null maps, in either argument order —
the composed output does not depend on the order of the arguments. -/
theorem claim_null_map_or (fuel : Nat) (f : Func) (block : Block) (a0 a1 : Nat)
    (result input_rows_count : Nat) (v0 v1 c : Col) (m0 m1 : List Bool) (t0 t1 : DataType)
    (hudn : f.useDefaultImplementationForNulls = true)
    (hflag : f.useDefaultImplementationForColumnsWithDictionary = false)
    (halways : f.argumentsThatAreAlwaysConstant = [])
    (hcol0 : (Block.getByPosition block a0).col = .nullable v0 m0)
    (hcol1 : (Block.getByPosition block a1).col = .nullable v1 m1)
    (htype0 : (Block.getByPosition block a0).type = .nullable t0)
    (htype1 : (Block.getByPosition block a1).type = .nullable t1)
    (hflat0 : t0.isNullable = false)
    (hflat1 : t1.isNullable = false)
    (honc0 : t0 ≠ .nothing)
    (honc1 : t1 ≠ .nothing)
    (hv0 : v0.isColumnConst = false)
    (hv1 : v1.isColumnConst = false)
    (hm : m0.length = m1.length)
    (hreslt : result < block.length)
    (hker : f.kernel (createBlockWithNestedColumnsWithResult block [a0, a1] result)
        [a0, a1] result
        (Block.rows (createBlockWithNestedColumnsWithResult block [a0, a1] result)) = .ok c)
    (hker2 : f.kernel (createBlockWithNestedColumnsWithResult block [a1, a0] result)
        [a1, a0] result
        (Block.rows (createBlockWithNestedColumnsWithResult block [a1, a0] result)) = .ok c)
    (hc1 : c.isColumnNullable = false)
    (hc2 : c.onlyNull = false)
    (hc3 : c.isColumnConst = false)
    (hfuel : 2 ≤ fuel) :
    (execute fuel f block [a0, a1] result input_rows_count
      = ([⟨createBlockWithNestedColumnsWithResult block [a0, a1] result, [a0, a1], result,
            Block.rows (createBlockWithNestedColumnsWithResult block [a0, a1] result)⟩],
          .ok (Block.setColumn block result
            (.nullable c (m0.mapIdx (fun i v => v || m1.getD i false))))))
    ∧ (execute fuel f block [a1, a0] result input_rows_count
      = ([⟨createBlockWithNestedColumnsWithResult block [a1, a0] result, [a1, a0], result,
            Block.rows (createBlockWithNestedColumnsWithResult block [a1, a0] result)⟩],
          .ok (Block.setColumn block result
            (.nullable c (m1.mapIdx (fun i v => v || m0.getD i false))))))
    ∧ (∀ i, (m0.mapIdx (fun i v => v || m1.getD i false)).getD i false
        = ((m0.getD i false) || (m1.getD i false)))
    ∧ (∀ i, (m1.mapIdx (fun i v => v || m0.getD i false)).getD i false
        = ((m0.getD i false) || (m1.getD i false))) := by
  obtain ⟨k, rfl⟩ : ∃ k, fuel = k + 2 := ⟨fuel - 2, by omega⟩
  refine ⟨null_or_run k f block a0 a1 result input_rows_count v0 v1 c m0 m1 t0 t1 hudn hflag
      halways hcol0 hcol1 htype0 htype1 hflat0 hflat1 honc0 honc1 hv0 hreslt hker hc1 hc2 hc3,
    null_or_run k f block a1 a0 result input_rows_count v1 v0 c m1 m0 t1 t0 hudn hflag
      halways hcol1 hcol0 htype1 htype0 hflat1 hflat0 honc1 honc0 hv1 hreslt hker2 hc1 hc2 hc3,
    getD_mapIdx_or m0 m1 hm,
    fun i => (getD_mapIdx_or m1 m0 hm.symm i).trans (Bool.or_comm _ _)⟩

/-- Witness for the null-map OR at a concrete function and block: null
maps [false,true,false] and [true,false,false] compose to
[true,true,false] in both argument orders. -/
theorem claim_null_map_or_w :
    (execute 2
        ⟨true, true, false, false, true, false, 2, [],
          fun _ _ _ n => .ok (.plain 0 (List.replicate n 7)),
          fun _ => .ok (.nullable (.ground 0)), none⟩
        [⟨some (.nullable (.plain 0 [1, 2, 3]) [false, true, false]), .nullable (.ground 0), "a"⟩,
          ⟨some (.nullable (.plain 0 [4, 5, 6]) [true, false, false]), .nullable (.ground 0), "b"⟩,
          ⟨none, .nullable (.ground 0), "r"⟩] [0, 1] 2 3
      = ([⟨[⟨some (.plain 0 [1, 2, 3]), .ground 0, "a"⟩,
              ⟨some (.plain 0 [4, 5, 6]), .ground 0, "b"⟩,
              ⟨none, .ground 0, "r"⟩], [0, 1], 2, 3⟩],
          .ok [⟨some (.nullable (.plain 0 [1, 2, 3]) [false, true, false]),
              .nullable (.ground 0), "a"⟩,
            ⟨some (.nullable (.plain 0 [4, 5, 6]) [true, false, false]),
              .nullable (.ground 0), "b"⟩,
            ⟨some (.nullable (.plain 0 [7, 7, 7]) [true, true, false]),
              .nullable (.ground 0), "r"⟩]))
    ∧ (execute 2
        ⟨true, true, false, false, true, false, 2, [],
          fun _ _ _ n => .ok (.plain 0 (List.replicate n 7)),
          fun _ => .ok (.nullable (.ground 0)), none⟩
        [⟨some (.nullable (.plain 0 [1, 2, 3]) [false, true, false]), .nullable (.ground 0), "a"⟩,
          ⟨some (.nullable (.plain 0 [4, 5, 6]) [true, false, false]), .nullable (.ground 0), "b"⟩,
          ⟨none, .nullable (.ground 0), "r"⟩] [1, 0] 2 3
      = ([⟨[⟨some (.plain 0 [1, 2, 3]), .ground 0, "a"⟩,
              ⟨some (.plain 0 [4, 5, 6]), .ground 0, "b"⟩,
              ⟨none, .ground 0, "r"⟩], [1, 0], 2, 3⟩],
          .ok [⟨some (.nullable (.plain 0 [1, 2, 3]) [false, true, false]),
              .nullable (.ground 0), "a"⟩,
            ⟨some (.nullable (.plain 0 [4, 5, 6]) [true, false, false]),
              .nullable (.ground 0), "b"⟩,
            ⟨some (.nullable (.plain 0 [7, 7, 7]) [true, true, false]),
              .nullable (.ground 0), "r"⟩])) := by
  have h := claim_null_map_or 2
    ⟨true, true, false, false, true, false, 2, [],
      fun _ _ _ n => .ok (.plain 0 (List.replicate n 7)),
      fun _ => .ok (.nullable (.ground 0)), none⟩
    [⟨some (.nullable (.plain 0 [1, 2, 3]) [false, true, false]), .nullable (.ground 0), "a"⟩,
      ⟨some (.nullable (.plain 0 [4, 5, 6]) [true, false, false]), .nullable (.ground 0), "b"⟩,
      ⟨none, .nullable (.ground 0), "r"⟩] 0 1 2 3
    (.plain 0 [1, 2, 3]) (.plain 0 [4, 5, 6]) (.plain 0 [7, 7, 7])
    [false, true, false] [true, false, false] (.ground 0) (.ground 0)
    rfl rfl rfl rfl rfl rfl rfl rfl rfl
    (fun h2 => DataType.noConfusion h2) (fun h2 => DataType.noConfusion h2)
    rfl rfl rfl (by decide) rfl rfl rfl rfl rfl (by omega)
  exact ⟨h.1.trans rfl, h.2.1.trans rfl⟩

mutual

theorem defaultColumn_hasType : ∀ (t : DataType) (n : Nat),
    hasType (t.defaultColumn n) t = true := by
  intro t n
  cases t with
  | ground g => simp [DataType.defaultColumn, hasType]
  | nothing => rfl
  | nullable t2 =>
    rw [DataType.defaultColumn, hasType]
    exact defaultColumn_hasType t2 n
  | array t2 =>
    rw [DataType.defaultColumn, hasType]
    exact defaultColumn_hasType t2 0
  | tuple ts named =>
    rw [DataType.defaultColumn, hasType]
    exact defaultColumnList_hasType ts n
  | lowCardinality t2 =>
    rw [DataType.defaultColumn, hasType]
    exact defaultColumn_hasType t2 1

theorem defaultColumnList_hasType : ∀ (ts : List DataType) (n : Nat),
    hasTypeList (DataType.defaultColumnList ts n) ts = true := by
  intro ts n
  cases ts with
  | nil => rfl
  | cons t ts2 =>
    rw [DataType.defaultColumnList, hasTypeList, Bool.and_eq_true]
    exact ⟨defaultColumn_hasType t n, defaultColumnList_hasType ts2 n⟩

end

theorem ccn_hasType (t : DataType) (n : Nat) (c : Col)
    (h : t.createColumnConstNull n = .ok c) : hasType c t = true := by
  cases t with
  | nullable t2 =>
    rw [DataType.createColumnConstNull] at h
    injection h with h2
    rw [← h2, hasType, hasType]
    exact defaultColumn_hasType t2 1
  | nothing =>
    rw [DataType.createColumnConstNull] at h
    injection h with h2
    rw [← h2]
    rfl
  | ground g => cases h
  | array t2 => cases h
  | tuple ts named => cases h
  | lowCardinality t2 => cases h

theorem hasType_getDataColumn (c : Col) (t : DataType) (h : hasType c t = true) :
    hasType c.getDataColumn t = true := by
  cases c with
  | const d n => rw [Col.getDataColumn]; rw [hasType] at h; exact h
  | plain g vs => exact h
  | nothing n => exact h
  | nullable v m => exact h
  | dict d idx sh => exact h
  | array offs data => exact h
  | tuple cs => exact h

theorem constCreate_hasType : ∀ (c : Col) (t : DataType) (n : Nat),
    hasType c t = true → hasType (c.constCreate n) t = true
  | .const d _, t, n, h => by
    rw [Col.constCreate]
    rw [hasType] at h
    exact constCreate_hasType d t n h
  | .plain g vs, t, n, h => h
  | .nothing k, t, n, h => h
  | .nullable v m, t, n, h => h
  | .dict d idx sh, t, n, h => h
  | .array offs data, t, n, h => h
  | .tuple cs, t, n, h => h

mutual

theorem indexBy_hasType : ∀ (c : Col) (t : DataType) (idx : List Nat),
    hasType c t = true → hasType (c.indexBy idx) t = true
  | .plain g vs, t, idx, h => by
    cases t with
    | ground g2 => exact h
    | nothing => cases h
    | nullable t2 => cases h
    | array t2 => cases h
    | tuple ts named => cases h
    | lowCardinality t2 => cases h
  | .nothing k, t, idx, h => by
    cases t with
    | nothing => rfl
    | ground g2 => cases h
    | nullable t2 => cases h
    | array t2 => cases h
    | tuple ts named => cases h
    | lowCardinality t2 => cases h
  | .const d k, t, idx, h => h
  | .nullable v m, t, idx, h => by
    cases t with
    | nullable t2 => exact indexBy_hasType v t2 idx h
    | ground g2 => cases h
    | nothing => cases h
    | array t2 => cases h
    | tuple ts named => cases h
    | lowCardinality t2 => cases h
  | .dict d di sh, t, idx, h => by
    cases t with
    | lowCardinality t2 => exact h
    | ground g2 => cases h
    | nothing => cases h
    | nullable t2 => cases h
    | array t2 => cases h
    | tuple ts named => cases h
  | .array offs data, t, idx, h => by
    cases t with
    | array t2 =>
      rw [Col.indexBy, hasType]
      exact indexBy_hasType data t2 _ h
    | ground g2 => cases h
    | nothing => cases h
    | nullable t2 => cases h
    | tuple ts named => cases h
    | lowCardinality t2 => cases h
  | .tuple cs, t, idx, h => by
    cases t with
    | tuple ts named =>
      rw [Col.indexBy, hasType]
      exact indexByList_hasType cs ts idx h
    | ground g2 => cases h
    | nothing => cases h
    | nullable t2 => cases h
    | array t2 => cases h
    | lowCardinality t2 => cases h

theorem indexByList_hasType : ∀ (cs : List Col) (ts : List DataType) (idx : List Nat),
    hasTypeList cs ts = true → hasTypeList (Col.indexByList cs idx) ts = true
  | [], [], idx, h => rfl
  | [], t :: ts, idx, h => by cases h
  | c :: cs, [], idx, h => by cases h
  | c :: cs, t :: ts, idx, h => by
    rw [hasTypeList, Bool.and_eq_true] at h
    rw [Col.indexByList, hasTypeList, Bool.and_eq_true]
    exact ⟨indexBy_hasType c t idx h.1, indexByList_hasType cs ts idx h.2⟩

end

mutual

theorem replicateRow0_hasType : ∀ (c : Col) (t : DataType) (n : Nat),
    hasType c t = true → hasType (c.replicateRow0 n) t = true
  | .plain g vs, t, n, h => by
    cases t with
    | ground g2 => exact h
    | nothing => cases h
    | nullable t2 => cases h
    | array t2 => cases h
    | tuple ts named => cases h
    | lowCardinality t2 => cases h
  | .nothing k, t, n, h => by
    cases t with
    | nothing => rfl
    | ground g2 => cases h
    | nullable t2 => cases h
    | array t2 => cases h
    | tuple ts named => cases h
    | lowCardinality t2 => cases h
  | .const d k, t, n, h => replicateRow0_hasType d t n h
  | .nullable v m, t, n, h => by
    cases t with
    | nullable t2 => exact replicateRow0_hasType v t2 n h
    | ground g2 => cases h
    | nothing => cases h
    | array t2 => cases h
    | tuple ts named => cases h
    | lowCardinality t2 => cases h
  | .dict d di sh, t, n, h => by
    cases t with
    | lowCardinality t2 => exact h
    | ground g2 => cases h
    | nothing => cases h
    | nullable t2 => cases h
    | array t2 => cases h
    | tuple ts named => cases h
  | .array offs data, t, n, h => by
    cases t with
    | array t2 =>
      rw [Col.replicateRow0, hasType]
      exact indexBy_hasType data t2 _ h
    | ground g2 => cases h
    | nothing => cases h
    | nullable t2 => cases h
    | tuple ts named => cases h
    | lowCardinality t2 => cases h
  | .tuple cs, t, n, h => by
    cases t with
    | tuple ts named =>
      rw [Col.replicateRow0, hasType]
      exact replicateRow0List_hasType cs ts n h
    | ground g2 => cases h
    | nothing => cases h
    | nullable t2 => cases h
    | array t2 => cases h
    | lowCardinality t2 => cases h

theorem replicateRow0List_hasType : ∀ (cs : List Col) (ts : List DataType) (n : Nat),
    hasTypeList cs ts = true → hasTypeList (Col.replicateRow0List cs n) ts = true
  | [], [], n, h => rfl
  | [], t :: ts, n, h => by cases h
  | c :: cs, [], n, h => by cases h
  | c :: cs, t :: ts, n, h => by
    rw [hasTypeList, Bool.and_eq_true] at h
    rw [Col.replicateRow0List, hasTypeList, Bool.and_eq_true]
    exact ⟨replicateRow0_hasType c t n h.1, replicateRow0List_hasType cs ts n h.2⟩

end

theorem isNullAt_flat : ∀ (c : Col) (t : DataType) (i : Nat),
    hasType c t = true → t.isNullable = false → t.headLC = false →
    c.isNullAt i = false
  | .const d k, t, i, h, h1, h2 => by
    rw [hasType] at h
    rw [Col.isNullAt]
    exact isNullAt_flat d t 0 h h1 h2
  | .plain g vs, t, i, h, h1, h2 => rfl
  | .nothing k, t, i, h, h1, h2 => rfl
  | .nullable v m, t, i, h, h1, h2 => by
    cases t with
    | nullable t2 => cases h1
    | ground g2 => cases h
    | nothing => cases h
    | array t2 => cases h
    | tuple ts named => cases h
    | lowCardinality t2 => cases h
  | .dict d di sh, t, i, h, h1, h2 => by
    cases t with
    | lowCardinality t2 => cases h2
    | ground g2 => cases h
    | nothing => cases h
    | nullable t2 => cases h
    | array t2 => cases h
    | tuple ts named => cases h
  | .array offs data, t, i, h, h1, h2 => rfl
  | .tuple cs, t, i, h, h1, h2 => rfl

theorem onlyNull_flat (c : Col) (t : DataType)
    (h : hasType c t = true) (h1 : t.isNullable = false) (h2 : t.headLC = false) :
    c.onlyNull = false := by
  cases c with
  | const d k =>
    rw [Col.onlyNull]
    rw [hasType] at h
    exact isNullAt_flat d t 0 h h1 h2
  | plain g vs => rfl
  | nothing k => rfl
  | nullable v m => rfl
  | dict d di sh => rfl
  | array offs data => rfl
  | tuple cs => rfl

theorem makeNullableColumn_hasType : ∀ (c : Col) (t : DataType),
    hasType c t = true → t.isNullable = false →
    hasType (makeNullableColumn c) (.nullable t) = true
  | .const d k, t, h, h1 => by
    rw [hasType] at h
    rw [makeNullableColumn, hasType]
    exact makeNullableColumn_hasType d t h h1
  | .nullable v m, t, h, h1 => by
    cases t with
    | nullable t2 => cases h1
    | ground g2 => cases h
    | nothing => cases h
    | array t2 => cases h
    | tuple ts named => cases h
    | lowCardinality t2 => cases h
  | .plain g vs, t, h, h1 => h
  | .nothing k, t, h, h1 => h
  | .dict d di sh, t, h, h1 => h
  | .array offs data, t, h, h1 => h
  | .tuple cs, t, h, h1 => h

theorem notNullable_of_flat (c : Col) (t : DataType)
    (h : hasType c t = true) (h1 : t.isNullable = false) :
    c.isColumnNullable = false := by
  cases c with
  | nullable v m =>
    cases t with
    | nullable t2 => cases h1
    | ground g2 => cases h
    | nothing => cases h
    | array t2 => cases h
    | tuple ts named => cases h
    | lowCardinality t2 => cases h
  | const d k => rfl
  | plain g vs => rfl
  | nothing k => rfl
  | dict d di sh => rfl
  | array offs data => rfl
  | tuple cs => rfl

theorem go_inr (block : Block) (result irc : Nat) :
    ∀ (args : List Nat) (acc : Option (List Bool)) (c : Col),
      wrapInNullableGo block result irc args acc = .ok (.inr c) →
      (Block.getByPosition block result).type.createColumnConstNull irc = .ok c := by
  intro args
  induction args with
  | nil => intro acc c h; cases h
  | cons arg rest ih =>
    intro acc c h
    rw [wrapInNullableGo] at h
    cases hn : (Block.getByPosition block arg).type.isNullable with
    | false =>
      simp only [hn, Bool.not_false, if_true] at h
      exact ih acc c h
    | true =>
      simp only [hn, Bool.not_true, Bool.false_eq_true, if_false] at h
      cases ho : (Block.getByPosition block arg).col.onlyNull with
      | true =>
        simp only [ho, if_true] at h
        cases hc : (Block.getByPosition block result).type.createColumnConstNull irc with
        | error e => rw [hc] at h; cases h
        | ok c3 =>
          rw [hc] at h
          injection h with h2
          injection h2 with h3
          rw [h3]
      | false =>
        simp only [ho, Bool.false_eq_true, if_false] at h
        cases hcc : (Block.getByPosition block arg).col.isColumnConst with
        | true =>
          simp only [hcc, if_true] at h
          exact ih acc c h
        | false =>
          simp only [hcc, Bool.false_eq_true, if_false] at h
          cases hnn : (Block.getByPosition block arg).col.isColumnNullable with
          | false =>
            simp only [hnn, Bool.false_eq_true, if_false] at h
            exact ih acc c h
          | true =>
            simp only [hnn, if_true] at h
            cases acc with
            | none => exact ih _ c h
            | some r => exact ih _ c h

theorem wrap_hasType (src : Col) (block : Block) (args : List Nat) (result irc : Nat)
    (t2 : DataType) (c2 : Col)
    (hslotT : (Block.getByPosition block result).type = .nullable t2)
    (hflat : t2.isNullable = false) (hLC : t2.headLC = false)
    (hsrc : hasType src t2 = true)
    (h : wrapInNullable src block args result irc = .ok c2) :
    hasType c2 (.nullable t2) = true := by
  rw [wrapInNullable] at h
  have hon := onlyNull_flat src t2 hsrc hflat hLC
  have hsn := notNullable_of_flat src t2 hsrc hflat
  simp only [hon, Bool.false_eq_true, if_false, hsn] at h
  cases hgo : wrapInNullableGo block result irc args none with
  | error e => rw [hgo] at h; cases h
  | ok s =>
    cases s with
    | inr c3 =>
      rw [hgo] at h
      injection h with h2
      have hccn := go_inr block result irc args none c3 hgo
      rw [hslotT] at hccn
      rw [← h2]
      exact ccn_hasType _ irc c3 hccn
    | inl acc =>
      cases acc with
      | none =>
        rw [hgo] at h
        injection h with h2
        rw [← h2]
        exact makeNullableColumn_hasType src t2 hsrc hflat
      | some m =>
        rw [hgo] at h
        cases hc : src.isColumnConst with
        | true =>
          simp only [hc, if_true] at h
          rcases isColumnConst_elim src hc with ⟨d, n, rfl⟩
          injection h with h2
          rw [← h2, hasType]
          rw [hasType] at hsrc
          exact replicateRow0_hasType d t2 n hsrc
        | false =>
          simp only [hc, Bool.false_eq_true, if_false] at h
          injection h with h2
          rw [← h2, hasType]
          exact hsrc

theorem getByPosition_append_left (L : Block) (x : ColumnWithTypeAndName) (i : Nat)
    (h : i < L.length) :
    Block.getByPosition (L ++ [x]) i = Block.getByPosition L i := by
  rw [Block.getByPosition, Block.getByPosition, List.getD_eq_getElem?_getD,
    List.getD_eq_getElem?_getD, List.getElem?_append, if_pos h]

theorem getByPosition_append_sing (L : Block) (x : ColumnWithTypeAndName) :
    Block.getByPosition (L ++ [x]) L.length = x := by
  rw [Block.getByPosition, List.getD_eq_getElem?_getD, List.getElem?_append_right (by omega)]
  simp

theorem setCol_hasType (b : Block) (r : Nat) (c : Col)
    (hc : hasType c (Block.getByPosition b r).type = true) :
    hasType (Block.getByPosition (Block.setColumn b r c) r).col
      (Block.getByPosition b r).type = true := by
  by_cases hlt : r < b.length
  · rw [Block.setColumn, getByPosition_set_self _ _ _ hlt]
    exact hc
  · rw [Block.setColumn, List.set_eq_of_length_le (by omega)]
    rw [getByPosition_oob b r (by omega)]
    rfl

theorem onlyNull_isNullable (t : DataType) (h : t.onlyNull = true) :
    t.isNullable = true := by
  cases t with
  | nullable t2 => rfl
  | ground g => cases h
  | nothing => cases h
  | array t2 => cases h
  | tuple ts n => cases h
  | lowCardinality t2 => cases h

theorem any_range_getD (q : Nat → Bool) : ∀ (l : List Nat),
    (List.range l.length).any (fun i => q (l.getD i 0)) = l.any q := by
  intro l
  induction l with
  | nil => rfl
  | cons a rest ih =>
    rw [List.length_cons, List.range_succ_eq_map, List.any_cons, List.any_cons, List.any_map,
      List.getD_cons_zero]
    congr 1

theorem colWf_getDataColumn (c : Col) (h : Col.colWf c = true) :
    Col.colWf c.getDataColumn = true := by
  cases c with
  | const d k =>
    rw [Col.colWf, Bool.and_eq_true] at h
    exact h.2
  | plain g vs => exact h
  | nothing k => exact h
  | nullable v m => exact h
  | dict d di sh => exact h
  | array offs data => exact h
  | tuple cs => exact h

theorem temp_pos (f : Func) (block : Block) (args : List Nat) (result : Nat) (i : Nat)
    (hi : i < args.length) :
    Block.getByPosition (((List.range args.length).map (fun arg_num =>
        if f.argumentsThatAreAlwaysConstant.contains arg_num
        then Block.getByPosition block (args.getD arg_num 0)
        else ⟨(Block.getByPosition block (args.getD arg_num 0)).column.map Col.getDataColumn,
          (Block.getByPosition block (args.getD arg_num 0)).type,
          (Block.getByPosition block (args.getD arg_num 0)).name⟩))
      ++ [Block.getByPosition block result]) i
      = (if f.argumentsThatAreAlwaysConstant.contains i
        then Block.getByPosition block (args.getD i 0)
        else ⟨(Block.getByPosition block (args.getD i 0)).column.map Col.getDataColumn,
          (Block.getByPosition block (args.getD i 0)).type,
          (Block.getByPosition block (args.getD i 0)).name⟩) := by
  rw [getByPosition_append_left _ _ i (by simpa using hi), getByPosition_map_range _ _ _ hi]

theorem temp_pos_type (f : Func) (block : Block) (args : List Nat) (result : Nat) (i : Nat)
    (hi : i < args.length) :
    (Block.getByPosition (((List.range args.length).map (fun arg_num =>
        if f.argumentsThatAreAlwaysConstant.contains arg_num
        then Block.getByPosition block (args.getD arg_num 0)
        else ⟨(Block.getByPosition block (args.getD arg_num 0)).column.map Col.getDataColumn,
          (Block.getByPosition block (args.getD arg_num 0)).type,
          (Block.getByPosition block (args.getD arg_num 0)).name⟩))
      ++ [Block.getByPosition block result]) i).type
      = (Block.getByPosition block (args.getD i 0)).type := by
  rw [temp_pos f block args result i hi]
  cases hc : f.argumentsThatAreAlwaysConstant.contains i with
  | true => rw [if_pos rfl]
  | false => rw [if_neg (by simp)]

theorem temp_pos_props (f : Func) (block : Block) (args : List Nat) (result : Nat) (i : Nat)
    (hi : i < args.length)
    (hT : hasType (Block.getByPosition block (args.getD i 0)).col
      (Block.getByPosition block (args.getD i 0)).type = true)
    (hW : Col.colWf (Block.getByPosition block (args.getD i 0)).col = true) :
    hasType (Block.getByPosition (((List.range args.length).map (fun arg_num =>
        if f.argumentsThatAreAlwaysConstant.contains arg_num
        then Block.getByPosition block (args.getD arg_num 0)
        else ⟨(Block.getByPosition block (args.getD arg_num 0)).column.map Col.getDataColumn,
          (Block.getByPosition block (args.getD arg_num 0)).type,
          (Block.getByPosition block (args.getD arg_num 0)).name⟩))
      ++ [Block.getByPosition block result]) i).col
        (Block.getByPosition block (args.getD i 0)).type = true
      ∧ Col.colWf (Block.getByPosition (((List.range args.length).map (fun arg_num =>
        if f.argumentsThatAreAlwaysConstant.contains arg_num
        then Block.getByPosition block (args.getD arg_num 0)
        else ⟨(Block.getByPosition block (args.getD arg_num 0)).column.map Col.getDataColumn,
          (Block.getByPosition block (args.getD arg_num 0)).type,
          (Block.getByPosition block (args.getD arg_num 0)).name⟩))
      ++ [Block.getByPosition block result]) i).col = true := by
  rw [temp_pos f block args result i hi]
  cases hc : f.argumentsThatAreAlwaysConstant.contains i with
  | true =>
    rw [if_pos rfl]
    exact ⟨hT, hW⟩
  | false =>
    rw [if_neg (by simp)]
    cases hcv : (Block.getByPosition block (args.getD i 0)).column with
    | none =>
      rw [ColumnWithTypeAndName.col, hcv] at hT hW
      exact ⟨hT, hW⟩
    | some c =>
      rw [ColumnWithTypeAndName.col, hcv] at hT hW
      constructor
      · exact hasType_getDataColumn c _ hT
      · exact colWf_getDataColumn c hW

theorem temp_argOk (f : Func) (block : Block) (args : List Nat) (result : Nat) (i : Nat)
    (hi : i < args.length)
    (h : argOk (Block.getByPosition block (args.getD i 0))) :
    argOk (Block.getByPosition (((List.range args.length).map (fun arg_num =>
        if f.argumentsThatAreAlwaysConstant.contains arg_num
        then Block.getByPosition block (args.getD arg_num 0)
        else ⟨(Block.getByPosition block (args.getD arg_num 0)).column.map Col.getDataColumn,
          (Block.getByPosition block (args.getD arg_num 0)).type,
          (Block.getByPosition block (args.getD arg_num 0)).name⟩))
      ++ [Block.getByPosition block result]) i) := by
  intro hN
  rw [temp_pos_type f block args result i hi] at hN
  rcases h hN with ⟨hT, hW, htW⟩
  have hp := temp_pos_props f block args result i hi hT hW
  rw [temp_pos_type f block args result i hi]
  exact ⟨hp.1, hp.2, htW⟩

theorem temp_slot (f : Func) (block : Block) (args : List Nat) (result : Nat) :
    Block.getByPosition (((List.range args.length).map (fun arg_num =>
        if f.argumentsThatAreAlwaysConstant.contains arg_num
        then Block.getByPosition block (args.getD arg_num 0)
        else ⟨(Block.getByPosition block (args.getD arg_num 0)).column.map Col.getDataColumn,
          (Block.getByPosition block (args.getD arg_num 0)).type,
          (Block.getByPosition block (args.getD arg_num 0)).name⟩))
      ++ [Block.getByPosition block result]) args.length = Block.getByPosition block result := by
  have hlen : (((List.range args.length).map (fun arg_num =>
      if f.argumentsThatAreAlwaysConstant.contains arg_num
      then Block.getByPosition block (args.getD arg_num 0)
      else ⟨(Block.getByPosition block (args.getD arg_num 0)).column.map Col.getDataColumn,
        (Block.getByPosition block (args.getD arg_num 0)).type,
        (Block.getByPosition block (args.getD arg_num 0)).name⟩)) : Block).length
      = args.length := by simp
  have h := getByPosition_append_sing ((List.range args.length).map (fun arg_num =>
      if f.argumentsThatAreAlwaysConstant.contains arg_num
      then Block.getByPosition block (args.getD arg_num 0)
      else ⟨(Block.getByPosition block (args.getD arg_num 0)).column.map Col.getDataColumn,
        (Block.getByPosition block (args.getD arg_num 0)).type,
        (Block.getByPosition block (args.getD arg_num 0)).name⟩))
    (Block.getByPosition block result)
  rw [hlen] at h
  exact h

theorem temp_presence_hnc (f : Func) (block : Block) (args : List Nat) (result : Nat) :
    (getNullPresense (((List.range args.length).map (fun arg_num =>
        if f.argumentsThatAreAlwaysConstant.contains arg_num
        then Block.getByPosition block (args.getD arg_num 0)
        else ⟨(Block.getByPosition block (args.getD arg_num 0)).column.map Col.getDataColumn,
          (Block.getByPosition block (args.getD arg_num 0)).type,
          (Block.getByPosition block (args.getD arg_num 0)).name⟩))
      ++ [Block.getByPosition block result]) (List.range args.length)).has_null_constant
      = (getNullPresense block args).has_null_constant := by
  rw [getNullPresense, getNullPresense, getNullPresense_foldl_hnc, getNullPresense_foldl_hnc,
    Bool.false_or, Bool.false_or]
  rw [← any_range_getD (fun x => (Block.getByPosition block x).type.onlyNull) args]
  refine any_congr_local _ _ _ (fun i hi => ?_)
  rw [temp_pos_type f block args result i (List.mem_range.mp hi)]

theorem temp_presence_hn (f : Func) (block : Block) (args : List Nat) (result : Nat) :
    (getNullPresense (((List.range args.length).map (fun arg_num =>
        if f.argumentsThatAreAlwaysConstant.contains arg_num
        then Block.getByPosition block (args.getD arg_num 0)
        else ⟨(Block.getByPosition block (args.getD arg_num 0)).column.map Col.getDataColumn,
          (Block.getByPosition block (args.getD arg_num 0)).type,
          (Block.getByPosition block (args.getD arg_num 0)).name⟩))
      ++ [Block.getByPosition block result]) (List.range args.length)).has_nullable
      = (getNullPresense block args).has_nullable := by
  rw [getNullPresense, getNullPresense, getNullPresense_foldl_hn, getNullPresense_foldl_hn,
    Bool.false_or, Bool.false_or]
  rw [← any_range_getD (fun x => (Block.getByPosition block x).type.isNullable) args]
  refine any_congr_local _ _ _ (fun i hi => ?_)
  rw [temp_pos_type f block args result i (List.mem_range.mp hi)]

theorem constCreate_colWf : ∀ (c : Col) (n : Nat),
    Col.colWf c = true → Col.colWf (c.constCreate n) = true
  | .const d _, n, h => by
    rw [Col.colWf, Bool.and_eq_true] at h
    rw [Col.constCreate]
    exact constCreate_colWf d n h.2
  | .plain g vs, n, h => rfl
  | .nothing k, n, h => rfl
  | .nullable v m, n, h => h
  | .dict d di sh, n, h => h
  | .array offs data, n, h => h
  | .tuple cs, n, h => h

theorem cbwncIn_length (block : Block) (inSet : Nat → Bool) :
    (createBlockWithNestedColumnsIn block inSet).length = block.length := by
  simp [createBlockWithNestedColumnsIn]

theorem nested_slot (block : Block) (args : List Nat) (result : Nat)
    (hrescol : (Block.getByPosition block result).column = none) :
    Block.getByPosition (createBlockWithNestedColumnsWithResult block args result) result
      = ⟨none,
          (if (Block.getByPosition block result).type.isNullable
            then removeNullableType (Block.getByPosition block result).type
            else (Block.getByPosition block result).type),
          (Block.getByPosition block result).name⟩ := by
  rw [createBlockWithNestedColumnsWithResult]
  by_cases hlt : result < block.length
  · rw [createBlockWithNestedColumnsIn, getByPosition_map_range _ _ _ hlt]
    have hin : ((args.contains result || (result == result)) = true) := by simp
    simp only [hin, Bool.true_and]
    cases hN : (Block.getByPosition block result).type.isNullable with
    | true =>
      simp only [if_true, hrescol]
    | false =>
      simp only [Bool.false_eq_true, if_false]
      have heta : Block.getByPosition block result
          = ⟨(Block.getByPosition block result).column, (Block.getByPosition block result).type,
              (Block.getByPosition block result).name⟩ := rfl
      rw [heta, hrescol]
  · have hoob := getByPosition_oob block result (by omega)
    rw [getByPosition_oob _ result (by rw [cbwncIn_length]; omega), hoob]
    rfl

theorem nested_arg (block : Block) (args : List Nat) (result : Nat) (x : Nat) (hx : x ∈ args)
    (h : argOk (Block.getByPosition block x)) :
    DataType.isNullable
        (Block.getByPosition (createBlockWithNestedColumnsWithResult block args result) x).type
        = false
      ∧ DataType.onlyNull
        (Block.getByPosition (createBlockWithNestedColumnsWithResult block args result) x).type
        = false := by
  rw [createBlockWithNestedColumnsWithResult]
  by_cases hlt : x < block.length
  · rw [createBlockWithNestedColumnsIn, getByPosition_map_range _ _ _ hlt]
    have hin : ((args.contains x || (x == result)) = true) := by
      simp only [List.elem_iff.mpr hx]
      rfl
    simp only [hin, Bool.true_and]
    cases hN : (Block.getByPosition block x).type.isNullable with
    | false =>
      simp only [Bool.false_eq_true, if_false]
      exact ⟨hN, onlyNull_of_flat _ hN⟩
    | true =>
      simp only [if_true]
      rcases h hN with ⟨hT, hW, htW⟩
      cases hty : (Block.getByPosition block x).type with
      | nullable t2 =>
        rw [hty] at htW
        rw [typeWf, Bool.and_eq_true, Bool.and_eq_true] at htW
        rcases htW with ⟨⟨ht1, ht2⟩, ht3⟩
        have ht1f : t2.isNullable = false := by
          cases hq : t2.isNullable
          · rfl
          · rw [hq] at ht1; cases ht1
        cases hcv : (Block.getByPosition block x).column with
        | none =>
          rw [ColumnWithTypeAndName.col, hcv, hty] at hT
          cases hT
        | some c =>
          rw [ColumnWithTypeAndName.col, hcv, hty] at hT
          rw [ColumnWithTypeAndName.col, hcv] at hW
          cases c with
          | nullable v m =>
            exact ⟨ht1f, onlyNull_of_flat t2 ht1f⟩
          | const d k =>
            have hTd : hasType d (.nullable t2) = true := hT
            have hWd : (!d.isColumnConst && d.colWf) = true := hW
            rw [Bool.and_eq_true] at hWd
            cases d with
            | nullable v2 m2 =>
              exact ⟨ht1f, onlyNull_of_flat t2 ht1f⟩
            | const d2 k2 =>
              have hbad : (false : Bool) = true := hWd.1
              cases hbad
            | plain g2 vs2 => cases hTd
            | nothing k2 => cases hTd
            | dict d2 di2 sh2 => cases hTd
            | array offs2 data2 => cases hTd
            | tuple cs2 => cases hTd
          | plain g2 vs2 => cases hT
          | nothing k2 => cases hT
          | dict d2 di2 sh2 => cases hT
          | array offs2 data2 => cases hT
          | tuple cs2 => cases hT
      | ground g => rw [hty] at hN; cases hN
      | nothing => rw [hty] at hN; cases hN
      | array t2 => rw [hty] at hN; cases hN
      | tuple ts named => rw [hty] at hN; cases hN
      | lowCardinality t2 => rw [hty] at hN; cases hN
  · have hoob := getByPosition_oob block x (by omega)
    rw [getByPosition_oob _ x (by rw [cbwncIn_length]; omega)]
    exact ⟨rfl, rfl⟩

theorem dica_cases (recur : ExecCont) (f : Func) (block : Block) (args : List Nat)
    (result irc : Nat) (dcalls : List KernelCall) (b : Block)
    (h : defaultImplementationForConstantArguments recur f block args result irc
      = (dcalls, .ok (some b))) :
    ∃ tb, recur (((List.range args.length).map (fun arg_num =>
        if f.argumentsThatAreAlwaysConstant.contains arg_num
        then Block.getByPosition block (args.getD arg_num 0)
        else ⟨(Block.getByPosition block (args.getD arg_num 0)).column.map Col.getDataColumn,
          (Block.getByPosition block (args.getD arg_num 0)).type,
          (Block.getByPosition block (args.getD arg_num 0)).name⟩))
      ++ [Block.getByPosition block result]) (List.range args.length) args.length
        (Block.rows (((List.range args.length).map (fun arg_num =>
        if f.argumentsThatAreAlwaysConstant.contains arg_num
        then Block.getByPosition block (args.getD arg_num 0)
        else ⟨(Block.getByPosition block (args.getD arg_num 0)).column.map Col.getDataColumn,
          (Block.getByPosition block (args.getD arg_num 0)).type,
          (Block.getByPosition block (args.getD arg_num 0)).name⟩))
      ++ [Block.getByPosition block result])) = (dcalls, .ok tb)
      ∧ b = Block.setColumn block result
          (Col.constCreate (Block.getByPosition tb args.length).col irc) := by
  rw [defaultImplementationForConstantArguments] at h
  cases hv : (f.argumentsThatAreAlwaysConstant.any (fun arg_num =>
      decide (arg_num < args.length) &&
      !(Block.getByPosition block (args.getD arg_num 0)).col.isColumnConst)) with
  | true =>
    simp only [hv, if_true] at h
    cases h
  | false =>
    simp only [hv, Bool.false_eq_true, if_false] at h
    cases he : (args.isEmpty || !f.useDefaultImplementationForConstants
        || !allArgumentsAreConstants block args) with
    | true =>
      simp only [he, if_true] at h
      cases h
    | false =>
      simp only [he, Bool.false_eq_true, if_false] at h
      cases hhc : ((List.range args.length).any
          (fun arg_num => !f.argumentsThatAreAlwaysConstant.contains arg_num)) with
      | false =>
        simp only [hhc, Bool.not_false, if_true] at h
        cases h
      | true =>
        simp only [hhc, Bool.not_true, Bool.false_eq_true, if_false] at h
        cases hrec : recur (((List.range args.length).map (fun arg_num =>
        if f.argumentsThatAreAlwaysConstant.contains arg_num
        then Block.getByPosition block (args.getD arg_num 0)
        else ⟨(Block.getByPosition block (args.getD arg_num 0)).column.map Col.getDataColumn,
          (Block.getByPosition block (args.getD arg_num 0)).type,
          (Block.getByPosition block (args.getD arg_num 0)).name⟩))
      ++ [Block.getByPosition block result])
            (List.range args.length) args.length (Block.rows (((List.range args.length).map (fun arg_num =>
        if f.argumentsThatAreAlwaysConstant.contains arg_num
        then Block.getByPosition block (args.getD arg_num 0)
        else ⟨(Block.getByPosition block (args.getD arg_num 0)).column.map Col.getDataColumn,
          (Block.getByPosition block (args.getD arg_num 0)).type,
          (Block.getByPosition block (args.getD arg_num 0)).name⟩))
      ++ [Block.getByPosition block result])) with
        | mk rcalls rres =>
          rw [hrec] at h
          cases rres with
          | error e => cases h
          | ok tb =>
            rw [Prod.mk.injEq] at h
            have h2 := h.2
            injection h2 with h3
            injection h3 with h4
            refine ⟨tb, ?_, h4.symm⟩
            rw [h.1]

theorem dins_cases (recur : ExecCont) (f : Func) (block : Block) (args : List Nat)
    (result irc : Nat) (dcalls : List KernelCall) (b : Block)
    (h : defaultImplementationForNulls recur f block args result irc
      = (dcalls, .ok (some b))) :
    (∃ c, (Block.getByPosition block result).type.createColumnConstNull irc = .ok c
        ∧ b = Block.setColumn block result c)
    ∨ (∃ tb c2, recur (createBlockWithNestedColumnsWithResult block args result) args result
          (Block.rows (createBlockWithNestedColumnsWithResult block args result))
          = (dcalls, .ok tb)
        ∧ wrapInNullable (Block.getByPosition tb result).col block args result irc = .ok c2
        ∧ b = Block.setColumn block result c2
        ∧ f.useDefaultImplementationForNulls = true
        ∧ (getNullPresense block args).has_nullable = true
        ∧ (getNullPresense block args).has_null_constant = false) := by
  rw [defaultImplementationForNulls] at h
  cases hne : (args.isEmpty || !f.useDefaultImplementationForNulls) with
  | true =>
    simp only [hne, if_true] at h
    cases h
  | false =>
    simp only [hne, Bool.false_eq_true, if_false] at h
    have hudn : f.useDefaultImplementationForNulls = true := by
      rw [Bool.or_eq_false_iff] at hne
      have := hne.2
      cases hq : f.useDefaultImplementationForNulls
      · rw [hq] at this; cases this
      · rfl
    cases hhnc : (getNullPresense block args).has_null_constant with
    | true =>
      simp only [hhnc, if_true] at h
      cases hccn : (Block.getByPosition block result).type.createColumnConstNull irc with
      | error e => rw [hccn] at h; cases h
      | ok c =>
        rw [hccn] at h
        left
        rw [Prod.mk.injEq] at h
        have h2 := h.2
        injection h2 with h3
        injection h3 with h4
        exact ⟨c, rfl, h4.symm⟩
    | false =>
      simp only [hhnc, Bool.false_eq_true, if_false] at h
      cases hhn : (getNullPresense block args).has_nullable with
      | false =>
        simp only [hhn, Bool.false_eq_true, if_false] at h
        cases h
      | true =>
        simp only [hhn, if_true] at h
        cases hrec : recur (createBlockWithNestedColumnsWithResult block args result) args
            result (Block.rows (createBlockWithNestedColumnsWithResult block args result)) with
        | mk rcalls rres =>
          rw [hrec] at h
          cases rres with
          | error e => cases h
          | ok tb =>
            have h5 : (match wrapInNullable (Block.getByPosition tb result).col block args
                  result irc with
               | .error e => (rcalls, (.error e : Except Err Block))
               | .ok c => (rcalls, .ok (some (Block.setColumn block result c))))
                = ((dcalls, .ok (some b)) :
                    List KernelCall × Except Err (Option Block)) := h
            cases hwrap : wrapInNullable (Block.getByPosition tb result).col block args
                result irc with
            | error e => rw [hwrap] at h5; cases h5
            | ok c2 =>
              rw [hwrap] at h5
              right
              rw [Prod.mk.injEq] at h5
              have h2 := h5.2
              injection h2 with h3
              injection h3 with h4
              refine ⟨tb, c2, ?_, hwrap, h4.symm, hudn, rfl, rfl⟩
              rw [h5.1]

theorem EWD_succ_cases (fuel : Nat) (f : Func) (block : Block) (args : List Nat)
    (result irc : Nat) (calls : List KernelCall) (block2 : Block)
    (h : executeWithoutLowCardinality (fuel + 1) f block args result irc
      = (calls, .ok block2)) :
    defaultImplementationForConstantArguments (executeWithoutLowCardinality fuel f) f block
        args result irc = (calls, .ok (some block2))
    ∨ defaultImplementationForNulls (executeWithoutLowCardinality fuel f) f block args
        result irc = (calls, .ok (some block2))
    ∨ (∃ c, f.kernel block args result irc = .ok c
        ∧ calls = [⟨block, args, result, irc⟩]
        ∧ block2 = Block.setColumn block result c) := by
  rw [executeWithoutLowCardinality] at h
  cases hdica : defaultImplementationForConstantArguments (executeWithoutLowCardinality fuel f)
      f block args result irc with
  | mk dc dr =>
    rw [hdica] at h
    cases dr with
    | error e => cases h
    | ok oo =>
      cases oo with
      | some b =>
        rw [Prod.mk.injEq] at h
        left
        have h2 := h.2
        injection h2 with h3
        rw [h.1, h3]
      | none =>
        cases hdin : defaultImplementationForNulls (executeWithoutLowCardinality fuel f) f
            block args result irc with
        | mk nc nr =>
          rw [hdin] at h
          cases nr with
          | error e => cases h
          | ok oo2 =>
            cases oo2 with
            | some b =>
              rw [Prod.mk.injEq] at h
              right
              left
              have h2 := h.2
              injection h2 with h3
              rw [h.1, h3]
            | none =>
              cases hker : f.kernel block args result irc with
              | error e => rw [hker] at h; cases h
              | ok c =>
                rw [hker] at h
                rw [Prod.mk.injEq] at h
                right
                right
                have h2 := h.2
                injection h2 with h3
                exact ⟨c, rfl, h.1.symm, h3.symm⟩

theorem getD_mem (l : List Nat) (i : Nat) (hi : i < l.length) : l.getD i 0 ∈ l := by
  rw [List.getD_eq_getElem?_getD, List.getElem?_eq_getElem hi]
  exact List.getElem_mem hi

theorem nested_presence_hn_false (block : Block) (args : List Nat) (result : Nat)
    (h : ∀ x ∈ args, argOk (Block.getByPosition block x)) :
    NullPresence.has_nullable
      (getNullPresense (createBlockWithNestedColumnsWithResult block args result) args)
      = false := by
  rw [getNullPresense, getNullPresense_foldl_hn, Bool.false_or]
  refine Bool.eq_false_iff.mpr (fun hall => ?_)
  rcases List.any_eq_true.mp hall with ⟨x, hx, hpx⟩
  rw [(nested_arg block args result x hx (h x hx)).1] at hpx
  cases hpx

theorem EWD_type : ∀ (fuel : Nat) (f : Func) (block : Block) (args : List Nat)
    (result irc : Nat) (calls : List KernelCall) (block2 : Block),
    (∀ (b : Block) (as : List Nat) (r n : Nat) (c : Col),
        f.kernel b as r n = .ok c → hasType c (Block.getByPosition b r).type = true) →
    (∀ x ∈ args, argOk (Block.getByPosition block x)) →
    (Block.getByPosition block result).column = none →
    typeWf (Block.getByPosition block result).type = true →
    (f.useDefaultImplementationForNulls = true →
      (getNullPresense block args).has_nullable = true →
      (getNullPresense block args).has_null_constant = false →
      DataType.isNullable (Block.getByPosition block result).type = true) →
    executeWithoutLowCardinality fuel f block args result irc = (calls, .ok block2) →
    hasType (Block.getByPosition block2 result).col
      (Block.getByPosition block result).type = true := by
  intro fuel
  induction fuel with
  | zero =>
    intro f block args result irc calls block2 _ _ _ _ _ hexec
    rw [executeWithoutLowCardinality, Prod.mk.injEq] at hexec
    cases hexec.2
  | succ fuel ih =>
    intro f block args result irc calls block2 hcontract hargs hrescol hwfT
      hinv2 hexec
    rcases EWD_succ_cases fuel f block args result irc calls block2 hexec with
      hdica | hdin | ⟨c, hker, hcalls, hb⟩
    · rcases dica_cases _ f block args result irc calls block2 hdica with ⟨tb, hrec, hb⟩
      have hslot := temp_slot f block args result
      have htyped : hasType (Block.getByPosition tb args.length).col
          (Block.getByPosition (((List.range args.length).map (fun arg_num =>
          if f.argumentsThatAreAlwaysConstant.contains arg_num
          then Block.getByPosition block (args.getD arg_num 0)
          else ⟨(Block.getByPosition block (args.getD arg_num 0)).column.map Col.getDataColumn,
            (Block.getByPosition block (args.getD arg_num 0)).type,
            (Block.getByPosition block (args.getD arg_num 0)).name⟩))
        ++ [Block.getByPosition block result]) args.length).type = true := by
        refine ih f (((List.range args.length).map (fun arg_num =>
          if f.argumentsThatAreAlwaysConstant.contains arg_num
          then Block.getByPosition block (args.getD arg_num 0)
          else ⟨(Block.getByPosition block (args.getD arg_num 0)).column.map Col.getDataColumn,
            (Block.getByPosition block (args.getD arg_num 0)).type,
            (Block.getByPosition block (args.getD arg_num 0)).name⟩))
        ++ [Block.getByPosition block result])
          (List.range args.length) args.length (Block.rows (((List.range args.length).map (fun arg_num =>
          if f.argumentsThatAreAlwaysConstant.contains arg_num
          then Block.getByPosition block (args.getD arg_num 0)
          else ⟨(Block.getByPosition block (args.getD arg_num 0)).column.map Col.getDataColumn,
            (Block.getByPosition block (args.getD arg_num 0)).type,
            (Block.getByPosition block (args.getD arg_num 0)).name⟩))
        ++ [Block.getByPosition block result]))
          calls tb hcontract ?_ ?_ ?_ ?_ hrec
        · intro x hx
          have hx2 := List.mem_range.mp hx
          exact temp_argOk f block args result x hx2 (hargs _ (getD_mem args x hx2))
        · rw [hslot]
          exact hrescol
        · rw [hslot]
          exact hwfT
        · intro hudn hn hnc
          rw [hslot]
          refine hinv2 hudn ?_ ?_
          · rw [← temp_presence_hn f block args result]
            exact hn
          · rw [← temp_presence_hnc f block args result]
            exact hnc
      rw [hslot] at htyped
      rw [hb]
      exact setCol_hasType block result _ (constCreate_hasType _ _ irc htyped)
    · rcases dins_cases _ f block args result irc calls block2 hdin with
        ⟨c, hccn, hb⟩ | ⟨tb, c2, hrec, hwrap, hb, hudn, hhn, hhnc⟩
      · rw [hb]
        exact setCol_hasType block result c (ccn_hasType _ irc c hccn)
      · have hTnullable := hinv2 hudn hhn hhnc
        cases hty : (Block.getByPosition block result).type with
        | nullable t2 =>
          have hws := nested_slot block args result hrescol
          rw [hty] at hws
          have hws2 : Block.getByPosition
              (createBlockWithNestedColumnsWithResult block args result) result
              = ⟨none, t2, (Block.getByPosition block result).name⟩ := hws
          have hwfT2 : ((!t2.isNullable && !t2.headLC) && typeWf t2) = true := by
            rw [hty] at hwfT
            exact hwfT
          rw [Bool.and_eq_true, Bool.and_eq_true] at hwfT2
          have hA : t2.isNullable = false := by
            cases hq : t2.isNullable
            · rfl
            · rw [hq] at hwfT2
              rcases hwfT2 with ⟨⟨h1, _⟩, _⟩
              cases h1
          have hB : t2.headLC = false := by
            cases hq : t2.headLC
            · rfl
            · rw [hq] at hwfT2
              rcases hwfT2 with ⟨⟨_, h1⟩, _⟩
              cases h1
          have htb : hasType (Block.getByPosition tb result).col
              (Block.getByPosition
                (createBlockWithNestedColumnsWithResult block args result) result).type
              = true := by
            refine ih f (createBlockWithNestedColumnsWithResult block args result) args result
              (Block.rows (createBlockWithNestedColumnsWithResult block args result))
              calls tb hcontract ?_ ?_ ?_ ?_ hrec
            · intro x hx
              intro hN2
              rw [(nested_arg block args result x hx (hargs x hx)).1] at hN2
              cases hN2
            · rw [hws2]
            · rw [hws2]
              exact hwfT2.2
            · intro _ hn2 _
              rw [nested_presence_hn_false block args result hargs] at hn2
              cases hn2
          rw [hws2] at htb
          have hc2 := wrap_hasType (Block.getByPosition tb result).col block args result irc
            t2 c2 hty hA hB htb hwrap
          rw [hb]
          have hfin := setCol_hasType block result c2 (by rw [hty]; exact hc2)
          rw [hty] at hfin
          exact hfin
        | ground g => rw [hty] at hTnullable; cases hTnullable
        | nothing => rw [hty] at hTnullable; cases hTnullable
        | array t2 => rw [hty] at hTnullable; cases hTnullable
        | tuple ts named => rw [hty] at hTnullable; cases hTnullable
        | lowCardinality t2 => rw [hty] at hTnullable; cases hTnullable
    · rw [hb]
      exact setCol_hasType block result c (hcontract block args result irc c hker)

theorem presence_argDescr (block : Block) (args : List Nat) :
    getNullPresenseCols (Block.argDescr block args) = getNullPresense block args := by
  rw [getNullPresenseCols, getNullPresense, Block.argDescr, List.foldl_map]

theorem hinv2_of_ret (f : Func) (block : Block) (args : List Nat) (T : DataType)
    (hflag : f.useDefaultImplementationForColumnsWithDictionary = false)
    (hret : getReturnType f (Block.argDescr block args) = .ok T)
    (hudn : f.useDefaultImplementationForNulls = true)
    (hn : (getNullPresense block args).has_nullable = true)
    (hnc : (getNullPresense block args).has_null_constant = false) :
    T.isNullable = true := by
  rw [getReturnType] at hret
  simp only [hflag, Bool.false_eq_true, if_false] at hret
  rw [getReturnTypeWithoutLowCardinality] at hret
  cases hchk : checkNumberOfArguments f (Block.argDescr block args).length with
  | error e => rw [hchk] at hret; cases hret
  | ok u =>
    rw [hchk] at hret
    have hne : (Block.argDescr block args).isEmpty = false := by
      cases hargs : args with
      | nil =>
        rw [hargs] at hn
        cases hn
      | cons a rest =>
        rfl
    simp only [hne, Bool.not_false, hudn, Bool.true_and, if_true] at hret
    rw [presence_argDescr block args] at hret
    simp only [hnc, Bool.false_eq_true, if_false, hn, if_true] at hret
    cases hrt : f.returnTypeImpl (createBlockWithNestedColumns (Block.argDescr block args)
        (List.range (Block.argDescr block args).length)) with
    | error e => rw [hrt] at hret; cases hret
    | ok rt =>
      rw [hrt] at hret
      injection hret with h2
      rw [← h2, makeNullableType]
      cases hq : rt.isNullable with
      | true =>
        rw [if_pos rfl]
        exact hq
      | false =>
        rw [if_neg (by simp)]
        rfl

theorem makeNullableType_isNullable (t : DataType) :
    (makeNullableType t).isNullable = true := by
  rw [makeNullableType]
  cases hq : t.isNullable with
  | true => rw [if_pos rfl]; exact hq
  | false => rw [if_neg (by simp)]; rfl

theorem lcInnerWf_typeWf (t : DataType) (h : lcInnerWf t = true) : typeWf t = true := by
  cases t with
  | ground g => rfl
  | nothing => rfl
  | nullable u =>
    cases u with
    | ground g => rfl
    | nothing => rfl
    | nullable w => cases h
    | array w => cases h
    | tuple ws nm => cases h
    | lowCardinality w => cases h
  | array u => cases h
  | tuple us nm => cases h
  | lowCardinality u => cases h

theorem lcInnerWf_headLC (t : DataType) (h : lcInnerWf t = true) : t.headLC = false := by
  cases t with
  | ground g => rfl
  | nothing => rfl
  | nullable u => rfl
  | array u => cases h
  | tuple us nm => cases h
  | lowCardinality u => cases h

theorem stripT_fixed_of_lcInner (t : DataType) (h : lcInnerWf t = true) :
    recursiveRemoveLowCardinalityType t = t := by
  cases t with
  | ground g => rfl
  | nothing => rfl
  | nullable u => rfl
  | array u => cases h
  | tuple us nm => cases h
  | lowCardinality u => cases h

theorem notDict_of_notLC : ∀ (c : Col) (t : DataType), hasType c t = true →
    t.headLC = false → c.isColumnLowCardinality = false
  | .plain g vs, t, h, hd => rfl
  | .nothing n, t, h, hd => rfl
  | .const d n, t, h, hd => rfl
  | .nullable v m, t, h, hd => rfl
  | .array offs data, t, h, hd => rfl
  | .tuple cs, t, h, hd => rfl
  | .dict d di sh, t, h, hd => by
    cases t with
    | lowCardinality u => cases hd
    | ground g => cases h
    | nothing => cases h
    | nullable u => cases h
    | array u => cases h
    | tuple us nm => cases h

theorem hasType_nothing_elim (n : Nat) (t : DataType) (h : hasType (.nothing n) t = true) :
    t = .nothing := by
  cases t with
  | nothing => rfl
  | ground g => cases h
  | nullable u => cases h
  | array u => cases h
  | tuple us nm => cases h
  | lowCardinality u => cases h

theorem indexBy_shape (c : Col) (idx : List Nat) :
    ((c.indexBy idx).isColumnConst = c.isColumnConst)
    ∧ ((c.indexBy idx).isColumnNullable = c.isColumnNullable)
    ∧ ((c.indexBy idx).isColumnLowCardinality = c.isColumnLowCardinality) := by
  cases c with
  | plain g vs => exact ⟨rfl, rfl, rfl⟩
  | nothing n => exact ⟨rfl, rfl, rfl⟩
  | const d n => exact ⟨rfl, rfl, rfl⟩
  | nullable v m => exact ⟨rfl, rfl, rfl⟩
  | dict d di sh => exact ⟨rfl, rfl, rfl⟩
  | array offs data => exact ⟨rfl, rfl, rfl⟩
  | tuple cs => exact ⟨rfl, rfl, rfl⟩

mutual

theorem indexBy_colWf : ∀ (c : Col) (idx : List Nat),
    Col.colWf c = true → Col.colWf (c.indexBy idx) = true
  | .plain g vs, idx, h => rfl
  | .nothing n, idx, h => rfl
  | .const d n, idx, h => h
  | .nullable v m, idx, h => by
    have h2 : ((!v.isColumnConst && !v.isColumnNullable) && v.colWf) = true := h
    rw [Bool.and_eq_true, Bool.and_eq_true] at h2
    have hres : ((!(v.indexBy idx).isColumnConst && !(v.indexBy idx).isColumnNullable)
        && (v.indexBy idx).colWf) = true := by
      rw [(indexBy_shape v idx).1, (indexBy_shape v idx).2.1,
        Bool.and_eq_true, Bool.and_eq_true]
      exact ⟨⟨h2.1.1, h2.1.2⟩, indexBy_colWf v idx h2.2⟩
    exact hres
  | .dict d di sh, idx, h => h
  | .array offs data, idx, h =>
    indexBy_colWf data _ h
  | .tuple cs, idx, h => indexByList_colWf cs idx h

theorem indexByList_colWf : ∀ (cs : List Col) (idx : List Nat),
    Col.colWfList cs = true → Col.colWfList (Col.indexByList cs idx) = true
  | [], idx, h => rfl
  | c :: cs, idx, h => by
    have h2 : (c.colWf && Col.colWfList cs) = true := h
    rw [Bool.and_eq_true] at h2
    have hres : ((c.indexBy idx).colWf && Col.colWfList (Col.indexByList cs idx)) = true := by
      rw [Bool.and_eq_true]
      exact ⟨indexBy_colWf c idx h2.1, indexByList_colWf cs idx h2.2⟩
    exact hres

end

theorem strip_notConst (c : Col) (h : Col.colWf c = true) :
    (recursiveRemoveLowCardinalityColumn c).isColumnConst = c.isColumnConst := by
  cases c with
  | plain g vs => rfl
  | nothing n => rfl
  | const d n => rfl
  | nullable v m => rfl
  | array offs data => rfl
  | tuple cs => rfl
  | dict d di sh =>
    have h2 : (!d.isColumnConst && d.colWf) = true := h
    rw [Bool.and_eq_true] at h2
    have hc : d.isColumnConst = false := by
      cases hq : d.isColumnConst
      · rfl
      · rw [hq] at h2; rcases h2 with ⟨h3, _⟩; cases h3
    show (d.indexBy di).isColumnConst = Col.isColumnConst (.dict d di sh)
    rw [(indexBy_shape d di).1, hc]
    rfl

mutual

theorem strip_hasType : ∀ (c : Col) (t : DataType), hasType c t = true →
    hasType (recursiveRemoveLowCardinalityColumn c) (recursiveRemoveLowCardinalityType t) = true
  | .const d n, t, h => strip_hasType d t h
  | .plain g vs, t, h => by
    cases t with
    | ground g2 => exact h
    | nothing => cases h
    | nullable u => cases h
    | array u => cases h
    | tuple us nm => cases h
    | lowCardinality u => cases h
  | .nothing n, t, h => by
    cases t with
    | nothing => exact h
    | ground g2 => cases h
    | nullable u => cases h
    | array u => cases h
    | tuple us nm => cases h
    | lowCardinality u => cases h
  | .nullable v m, t, h => by
    cases t with
    | nullable u => exact h
    | ground g2 => cases h
    | nothing => cases h
    | array u => cases h
    | tuple us nm => cases h
    | lowCardinality u => cases h
  | .dict d di sh, t, h => by
    cases t with
    | lowCardinality u => exact indexBy_hasType d u di h
    | ground g2 => cases h
    | nothing => cases h
    | nullable u => cases h
    | array u => cases h
    | tuple us nm => cases h
  | .array offs data, t, h => by
    cases t with
    | array u => exact strip_hasType data u h
    | ground g2 => cases h
    | nothing => cases h
    | nullable u => cases h
    | tuple us nm => cases h
    | lowCardinality u => cases h
  | .tuple cs, t, h => by
    cases t with
    | tuple us nm => exact strip_hasTypeList cs us h
    | ground g2 => cases h
    | nothing => cases h
    | nullable u => cases h
    | array u => cases h
    | lowCardinality u => cases h

theorem strip_hasTypeList : ∀ (cs : List Col) (ts : List DataType), hasTypeList cs ts = true →
    hasTypeList (recursiveRemoveLowCardinalityColumnList cs)
      (recursiveRemoveLowCardinalityTypeList ts) = true
  | [], [], h => h
  | [], t :: ts, h => by cases h
  | c :: cs, [], h => by cases h
  | c :: cs, t :: ts, h => by
    have h2 : (hasType c t && hasTypeList cs ts) = true := h
    rw [Bool.and_eq_true] at h2
    have hres : (hasType (recursiveRemoveLowCardinalityColumn c)
          (recursiveRemoveLowCardinalityType t)
        && hasTypeList (recursiveRemoveLowCardinalityColumnList cs)
          (recursiveRemoveLowCardinalityTypeList ts)) = true := by
      rw [Bool.and_eq_true]
      exact ⟨strip_hasType c t h2.1, strip_hasTypeList cs ts h2.2⟩
    exact hres

end

mutual

theorem strip_colWf : ∀ (c : Col), Col.colWf c = true →
    Col.colWf (recursiveRemoveLowCardinalityColumn c) = true
  | .plain g vs, h => rfl
  | .nothing n, h => rfl
  | .const d n, h => by
    have h2 : (!d.isColumnConst && d.colWf) = true := h
    rw [Bool.and_eq_true] at h2
    have hdc : d.isColumnConst = false := by
      cases hq : d.isColumnConst
      · rfl
      · rw [hq] at h2; rcases h2 with ⟨h3, _⟩; cases h3
    have hres : (!(recursiveRemoveLowCardinalityColumn d).isColumnConst
        && (recursiveRemoveLowCardinalityColumn d).colWf) = true := by
      rw [strip_notConst d h2.2, hdc]
      simp only [Bool.not_false, Bool.true_and]
      exact strip_colWf d h2.2
    exact hres
  | .nullable v m, h => h
  | .dict d di sh, h => by
    have h2 : (!d.isColumnConst && d.colWf) = true := h
    rw [Bool.and_eq_true] at h2
    exact indexBy_colWf d di h2.2
  | .array offs data, h => strip_colWf data h
  | .tuple cs, h => strip_colWfList cs h

theorem strip_colWfList : ∀ (cs : List Col), Col.colWfList cs = true →
    Col.colWfList (recursiveRemoveLowCardinalityColumnList cs) = true
  | [], h => h
  | c :: cs, h => by
    have h2 : (c.colWf && Col.colWfList cs) = true := h
    rw [Bool.and_eq_true] at h2
    have hres : ((recursiveRemoveLowCardinalityColumn c).colWf
        && Col.colWfList (recursiveRemoveLowCardinalityColumnList cs)) = true := by
      rw [Bool.and_eq_true]
      exact ⟨strip_colWf c h2.1, strip_colWfList cs h2.2⟩
    exact hres

end

mutual

theorem strip_typeWf : ∀ (t : DataType), typeWf t = true →
    typeWf (recursiveRemoveLowCardinalityType t) = true
  | .ground g, h => rfl
  | .nothing, h => rfl
  | .nullable u, h => h
  | .array u, h => strip_typeWf u h
  | .tuple us nm, h => strip_typeWfList us h
  | .lowCardinality u, h => lcInnerWf_typeWf u h

theorem strip_typeWfList : ∀ (ts : List DataType), typeWfList ts = true →
    typeWfList (recursiveRemoveLowCardinalityTypeList ts) = true
  | [], h => h
  | t :: ts, h => by
    have h2 : (typeWf t && typeWfList ts) = true := h
    rw [Bool.and_eq_true] at h2
    have hres : (typeWf (recursiveRemoveLowCardinalityType t)
        && typeWfList (recursiveRemoveLowCardinalityTypeList ts)) = true := by
      rw [Bool.and_eq_true]
      exact ⟨strip_typeWf t h2.1, strip_typeWfList ts h2.2⟩
    exact hres

end

mutual

theorem stripT_idem : ∀ (t : DataType), typeWf t = true →
    recursiveRemoveLowCardinalityType (recursiveRemoveLowCardinalityType t)
      = recursiveRemoveLowCardinalityType t
  | .ground g, h => rfl
  | .nothing, h => rfl
  | .nullable u, h => rfl
  | .array u, h => by
    have h2 := stripT_idem u h
    show DataType.array (recursiveRemoveLowCardinalityType (recursiveRemoveLowCardinalityType u))
        = DataType.array (recursiveRemoveLowCardinalityType u)
    rw [h2]
  | .tuple us nm, h => by
    have h2 := stripT_idemList us h
    show DataType.tuple (recursiveRemoveLowCardinalityTypeList
          (recursiveRemoveLowCardinalityTypeList us)) nm
        = DataType.tuple (recursiveRemoveLowCardinalityTypeList us) nm
    rw [h2]
  | .lowCardinality u, h => stripT_fixed_of_lcInner u h

theorem stripT_idemList : ∀ (ts : List DataType), typeWfList ts = true →
    recursiveRemoveLowCardinalityTypeList (recursiveRemoveLowCardinalityTypeList ts)
      = recursiveRemoveLowCardinalityTypeList ts
  | [], h => rfl
  | t :: ts, h => by
    have h2 : (typeWf t && typeWfList ts) = true := h
    rw [Bool.and_eq_true] at h2
    show recursiveRemoveLowCardinalityType (recursiveRemoveLowCardinalityType t)
          :: recursiveRemoveLowCardinalityTypeList (recursiveRemoveLowCardinalityTypeList ts)
        = recursiveRemoveLowCardinalityType t :: recursiveRemoveLowCardinalityTypeList ts
    rw [stripT_idem t h2.1, stripT_idemList ts h2.2]

end

theorem getNullPresenseCols_foldl_hn : ∀ (L : List ColumnWithTypeAndName) (acc : NullPresence),
    (L.foldl (fun res elem =>
        (⟨res.has_nullable || elem.type.isNullable,
          res.has_null_constant || elem.type.onlyNull⟩ : NullPresence)) acc).has_nullable
      = (acc.has_nullable || L.any (fun p => p.type.isNullable)) := by
  intro L
  induction L with
  | nil => intro acc; simp
  | cons a rest ih =>
    intro acc
    rw [List.foldl_cons, ih, List.any_cons, ← Bool.or_assoc]

theorem getNullPresenseCols_hn (L : List ColumnWithTypeAndName) :
    (getNullPresenseCols L).has_nullable = L.any (fun p => p.type.isNullable) := by
  rw [getNullPresenseCols, getNullPresenseCols_foldl_hn, Bool.false_or]

theorem argsWLC_type_mem (A : List ColumnWithTypeAndName) (x : ColumnWithTypeAndName)
    (hx : x ∈ A) :
    ∃ p ∈ argsWLC A, p.type = recursiveRemoveLowCardinalityType (lcPeel x.type) := by
  obtain ⟨oc, ty, nm⟩ := x
  rw [argsWLC]
  refine ⟨_, List.mem_map.mpr ⟨_, List.mem_map.mpr ⟨⟨oc, ty, nm⟩, hx, rfl⟩, rfl⟩, ?_⟩
  cases oc with
  | none => cases ty <;> rfl
  | some c => cases c <;> cases ty <;> rfl

theorem argsWLC_hn_intro (A : List ColumnWithTypeAndName) (x : ColumnWithTypeAndName)
    (hx : x ∈ A)
    (h : (recursiveRemoveLowCardinalityType (lcPeel x.type)).isNullable = true) :
    (getNullPresenseCols (argsWLC A)).has_nullable = true := by
  rw [getNullPresenseCols_hn]
  rcases argsWLC_type_mem A x hx with ⟨p, hp, hpt⟩
  refine List.any_eq_true.mpr ⟨p, hp, ?_⟩
  rw [hpt]
  exact h

theorem retWLC_nullable (f : Func) (A : List ColumnWithTypeAndName) (T : DataType)
    (h : getReturnTypeWithoutLowCardinality f A = .ok T)
    (hudn : f.useDefaultImplementationForNulls = true)
    (hn : (getNullPresenseCols A).has_nullable = true) :
    T.isNullable = true := by
  rw [getReturnTypeWithoutLowCardinality] at h
  cases hchk : checkNumberOfArguments f A.length with
  | error e => rw [hchk] at h; cases h
  | ok u =>
    rw [hchk] at h
    have hne : A.isEmpty = false := by
      cases A with
      | nil => cases hn
      | cons a rest => rfl
    simp only [hne, Bool.not_false, hudn, Bool.true_and, if_true] at h
    cases hhnc : (getNullPresenseCols A).has_null_constant with
    | true =>
      simp only [hhnc, if_true] at h
      injection h with h2
      rw [← h2]
      rfl
    | false =>
      simp only [hhnc, Bool.false_eq_true, if_false, hn, if_true] at h
      cases hrt : f.returnTypeImpl (createBlockWithNestedColumns A (List.range A.length)) with
      | error e => rw [hrt] at h; cases h
      | ok rt =>
        rw [hrt] at h
        injection h with h2
        rw [← h2]
        exact makeNullableType_isNullable rt

theorem ret_flagTrue_cases (f : Func) (A : List ColumnWithTypeAndName) (T : DataType)
    (hflag : f.useDefaultImplementationForColumnsWithDictionary = true)
    (hret : getReturnType f A = .ok T) :
    (∃ t, T = .lowCardinality t
        ∧ getReturnTypeWithoutLowCardinality f (argsWLC A) = .ok t)
    ∨ getReturnTypeWithoutLowCardinality f (argsWLC A) = .ok T := by
  rw [getReturnType] at hret
  simp only [hflag, if_true] at hret
  split at hret
  · split at hret
    · cases hret
    · rename_i t heq
      injection hret with h2
      exact Or.inl ⟨t, h2.symm, heq⟩
  · exact Or.inr hret

theorem convertIfConst_hasType (c : Col) (t : DataType) (h : hasType c t = true) :
    hasType (c.convertToFullColumnIfConst.getD c) t = true := by
  cases c with
  | const d n =>
    have h2 : hasType d t = true := h
    exact replicateRow0_hasType d t n h2
  | plain g vs => exact h
  | nothing n => exact h
  | nullable v m => exact h
  | dict d di sh => exact h
  | array offs data => exact h
  | tuple cs => exact h

theorem convertFull_step (b : Block) (a : Nat) (t0 : DataType)
    (hwf : typeWf t0 = true)
    (hinv : convInv t0 (Block.getByPosition b a)) :
    convInv t0 (Block.getByPosition (Block.setPosition b a
        ⟨(Block.getByPosition b a).column.map recursiveRemoveLowCardinalityColumn,
          recursiveRemoveLowCardinalityType (Block.getByPosition b a).type,
          (Block.getByPosition b a).name⟩) a)
      ∧ ((Block.getByPosition b a).column = none →
          (Block.getByPosition (Block.setPosition b a
            ⟨(Block.getByPosition b a).column.map recursiveRemoveLowCardinalityColumn,
              recursiveRemoveLowCardinalityType (Block.getByPosition b a).type,
              (Block.getByPosition b a).name⟩) a).column = none) := by
  rcases hinv with ⟨htrack, hT, hW, htW⟩
  by_cases hlen : a < b.length
  · rw [Block.setPosition, getByPosition_set_self _ _ _ hlen]
    refine ⟨⟨?_, ?_, ?_, ?_⟩, ?_⟩
    · rcases htrack with h1 | h1
      · right
        rw [h1]
      · right
        rw [h1, stripT_idem t0 hwf]
    · cases hcol : (Block.getByPosition b a).column with
      | none =>
        have hT2 : hasType (.nothing 0) (Block.getByPosition b a).type = true := by
          rw [ColumnWithTypeAndName.col, hcol] at hT
          exact hT
        have hty := hasType_nothing_elim 0 _ hT2
        rw [hty]
        rfl
      | some c =>
        have hT2 : hasType c (Block.getByPosition b a).type = true := by
          rw [ColumnWithTypeAndName.col, hcol] at hT
          exact hT
        exact strip_hasType c _ hT2
    · cases hcol : (Block.getByPosition b a).column with
      | none =>
        rfl
      | some c =>
        have hW2 : Col.colWf c = true := by
          rw [ColumnWithTypeAndName.col, hcol] at hW
          exact hW
        exact strip_colWf c hW2
    · exact strip_typeWf _ htW
    · intro hc
      rw [hc]
      rfl
  · have hset : Block.setPosition b a
        ⟨(Block.getByPosition b a).column.map recursiveRemoveLowCardinalityColumn,
          recursiveRemoveLowCardinalityType (Block.getByPosition b a).type,
          (Block.getByPosition b a).name⟩ = b := by
      rw [Block.setPosition, List.set_eq_of_length_le (by omega)]
    rw [hset]
    exact ⟨⟨htrack, hT, hW, htW⟩, fun hc => hc⟩

theorem convertFull_props : ∀ (args : List Nat) (b : Block) (T : Nat → DataType),
    (∀ x ∈ args, typeWf (T x) = true) →
    (∀ x ∈ args, convInv (T x) (Block.getByPosition b x)) →
    ∀ x, (x ∈ args →
        convInv (T x) (Block.getByPosition (convertColumnsWithDictionaryToFull b args) x))
      ∧ (x ∉ args →
        Block.getByPosition (convertColumnsWithDictionaryToFull b args) x
          = Block.getByPosition b x)
      ∧ (x ∈ args → (Block.getByPosition b x).column = none →
        (Block.getByPosition (convertColumnsWithDictionaryToFull b args) x).column = none) := by
  intro args
  induction args with
  | nil =>
    intro b T hwf hinv x
    exact ⟨fun hx => absurd hx (List.not_mem_nil x), fun _ => rfl,
      fun hx => absurd hx (List.not_mem_nil x)⟩
  | cons a rest ih =>
    intro b T hwf hinv x
    have hfold : convertColumnsWithDictionaryToFull b (a :: rest)
        = convertColumnsWithDictionaryToFull (Block.setPosition b a
            ⟨(Block.getByPosition b a).column.map recursiveRemoveLowCardinalityColumn,
              recursiveRemoveLowCardinalityType (Block.getByPosition b a).type,
              (Block.getByPosition b a).name⟩) rest := rfl
    have hstep := convertFull_step b a (T a) (hwf a (by simp)) (hinv a (by simp))
    have hne : ∀ y, y ≠ a →
        Block.getByPosition (Block.setPosition b a
          ⟨(Block.getByPosition b a).column.map recursiveRemoveLowCardinalityColumn,
            recursiveRemoveLowCardinalityType (Block.getByPosition b a).type,
            (Block.getByPosition b a).name⟩) y = Block.getByPosition b y := by
      intro y hy
      rw [Block.setPosition, getByPosition_set_ne _ _ _ _ hy]
    have hih := ih (Block.setPosition b a
        ⟨(Block.getByPosition b a).column.map recursiveRemoveLowCardinalityColumn,
          recursiveRemoveLowCardinalityType (Block.getByPosition b a).type,
          (Block.getByPosition b a).name⟩) T
      (fun y hy => hwf y (by simp [hy]))
      (fun y hy => by
        by_cases hya : y = a
        · subst hya
          exact hstep.1
        · rw [hne y hya]
          exact hinv y (by simp [hy]))
    rw [hfold]
    refine ⟨?_, ?_, ?_⟩
    · intro hx
      by_cases hxr : x ∈ rest
      · exact (hih x).1 hxr
      · have hxa : x = a := by
          rcases List.mem_cons.mp hx with h1 | h1
          · exact h1
          · exact absurd h1 hxr
        subst hxa
        rw [(hih x).2.1 hxr]
        exact hstep.1
    · intro hx
      have hxa : x ≠ a := fun h => hx (by rw [h]; exact List.mem_cons_self a rest)
      have hxr : x ∉ rest := fun h => hx (List.mem_cons_of_mem a h)
      rw [(hih x).2.1 hxr, hne x hxa]
    · intro hx hcn
      by_cases hxr : x ∈ rest
      · refine (hih x).2.2 hxr ?_
        by_cases hxa : x = a
        · subst hxa
          exact hstep.2 hcn
        · rw [hne x hxa]
          exact hcn
      · have hxa : x = a := by
          rcases List.mem_cons.mp hx with h1 | h1
          · exact h1
          · exact absurd h1 hxr
        subst hxa
        rw [(hih x).2.1 hxr]
        exact hstep.2 hcn

theorem headLC_of_isNullable (t : DataType) (h : t.isNullable = true) : t.headLC = false := by
  cases t with
  | nullable u => rfl
  | ground g => cases h
  | nothing => cases h
  | array u => cases h
  | tuple us nm => cases h
  | lowCardinality u => cases h

theorem cTFID_id (c : Col) (h : c.isColumnLowCardinality = false) :
    c.convertToFullColumnIfWithDictionary = c := by
  cases c with
  | dict d di sh => cases h
  | plain g vs => rfl
  | nothing n => rfl
  | const d n => rfl
  | nullable v m => rfl
  | array offs data => rfl
  | tuple cs => rfl

theorem rewrite_step_const (b : Block) (a : Nat) (t0 : DataType) (nr : Nat) (d : Col) (n : Nat)
    (hcol : (Block.getByPosition b a).col = .const d n)
    (hinv : rewInv t0 (Block.getByPosition b a)) :
    rewInv t0 (Block.getByPosition
      (Block.setColumn b a ((Col.const d n).constRemoveLowCardinality.cloneResized nr)) a) := by
  by_cases hlen : a < b.length
  · rw [Block.setColumn, getByPosition_set_self _ _ _ hlen]
    refine ⟨hinv.1, ?_, ?_⟩
    · intro hN
      have hN2 : (Block.getByPosition b a).type.isNullable = true := hN
      rcases hinv.2.1 hN2 with ⟨hT, hW⟩
      rw [hcol] at hT hW
      have hTd : hasType d (Block.getByPosition b a).type = true := hT
      have hLC : (Block.getByPosition b a).type.headLC = false :=
        headLC_of_isNullable _ hN2
      have hnd : d.isColumnLowCardinality = false := notDict_of_notLC d _ hTd hLC
      have hid : d.convertToFullColumnIfWithDictionary = d := cTFID_id d hnd
      constructor
      · show hasType (Col.const d.convertToFullColumnIfWithDictionary nr)
          (Block.getByPosition b a).type = true
        rw [hid]
        exact hTd
      · show Col.colWf (Col.const d.convertToFullColumnIfWithDictionary nr) = true
        rw [hid]
        exact hW
    · intro hd2
      cases hd2
  · have hset : Block.setColumn b a ((Col.const d n).constRemoveLowCardinality.cloneResized nr)
        = b := by
      rw [Block.setColumn, List.set_eq_of_length_le (by omega)]
    rw [hset]
    exact hinv

theorem rewrite_step_dict (b : Block) (a : Nat) (t0 : DataType) (d : Col) (idx : List Nat)
    (sh : Bool) (u : DataType) (nc : Col)
    (hwf : typeWf t0 = true)
    (hcol : (Block.getByPosition b a).col = .dict d idx sh)
    (hty : (Block.getByPosition b a).type = .lowCardinality u)
    (hnc : nc = d ∨ nc = d.indexBy idx)
    (hinv : rewInv t0 (Block.getByPosition b a)) :
    rewInv t0 (Block.getByPosition
      (Block.setPosition b a ⟨some nc, u, (Block.getByPosition b a).name⟩) a) := by
  have hdLC : (Block.getByPosition b a).col.isColumnLowCardinality = true := by
    rw [hcol]
    rfl
  rcases hinv.2.2 hdLC with ⟨hT, hW⟩
  rw [hcol, hty] at hT
  have hTd : hasType d u = true := hT
  rw [hcol] at hW
  have hWd : (!d.isColumnConst && d.colWf) = true := hW
  rw [Bool.and_eq_true] at hWd
  have htrk : t0 = .lowCardinality u := by
    rcases hinv.1 with h1 | h1
    · rw [← h1]
      exact hty
    · rw [hty] at h1
      rw [h1] at hwf
      cases hwf
  have hulc : lcInnerWf u = true := by
    rw [htrk] at hwf
    exact hwf
  have huhead : u.headLC = false := lcInnerWf_headLC u hulc
  have hndict : d.isColumnLowCardinality = false := notDict_of_notLC d u hTd huhead
  by_cases hlen : a < b.length
  · rw [Block.setPosition, getByPosition_set_self _ _ _ hlen]
    refine ⟨Or.inr htrk, ?_, ?_⟩
    · intro hN
      have hgoal : hasType nc u = true ∧ Col.colWf nc = true := by
        rcases hnc with h2 | h2
        · rw [h2]
          exact ⟨hTd, hWd.2⟩
        · rw [h2]
          exact ⟨indexBy_hasType d u idx hTd, indexBy_colWf d idx hWd.2⟩
      exact hgoal
    · intro hd2
      have h3 : nc.isColumnLowCardinality = true := hd2
      have h4 : nc.isColumnLowCardinality = false := by
        rcases hnc with h2 | h2
        · rw [h2]
          exact hndict
        · rw [h2, (indexBy_shape d idx).2.2]
          exact hndict
      rw [h4] at h3
      cases h3
  · have hset : Block.setPosition b a ⟨some nc, u, (Block.getByPosition b a).name⟩ = b := by
      rw [Block.setPosition, List.set_eq_of_length_le (by omega)]
    rw [hset]
    exact hinv

theorem rewrite_inv (can : Bool) (nr : Nat) : ∀ (args : List Nat) (b : Block)
    (idx0 : Option (List Nat)) (b2 : Block) (idx1 : Option (List Nat)) (T : Nat → DataType),
    replaceLowCardinalityRewrite can nr b args idx0 = .ok (b2, idx1) →
    (∀ x ∈ args, typeWf (T x) = true) →
    (∀ x ∈ args, rewInv (T x) (Block.getByPosition b x)) →
    ∀ x, (x ∈ args → rewInv (T x) (Block.getByPosition b2 x))
      ∧ (x ∉ args → Block.getByPosition b2 x = Block.getByPosition b x) := by
  intro args
  induction args with
  | nil =>
    intro b idx0 b2 idx1 T h hwf hinv x
    rw [replaceLowCardinalityRewrite] at h
    injection h with h2
    rw [Prod.mk.injEq] at h2
    refine ⟨fun hx => absurd hx (List.not_mem_nil x), fun _ => ?_⟩
    rw [← h2.1]
  | cons a rest ih =>
    intro b idx0 b2 idx1 T h hwf hinv x
    simp only [replaceLowCardinalityRewrite] at h
    have hcont : ∀ (b'' : Block) (idx0' : Option (List Nat)),
        replaceLowCardinalityRewrite can nr b'' rest idx0' = .ok (b2, idx1) →
        (∀ y, y ≠ a → Block.getByPosition b'' y = Block.getByPosition b y) →
        rewInv (T a) (Block.getByPosition b'' a) →
        (x ∈ a :: rest → rewInv (T x) (Block.getByPosition b2 x))
          ∧ (x ∉ a :: rest → Block.getByPosition b2 x = Block.getByPosition b x) := by
      intro b'' idx0' h2 hfr hstepa
      have hih := ih b'' idx0' b2 idx1 T h2 (fun y hy => hwf y (by simp [hy]))
        (fun y hy => by
          by_cases hya : y = a
          · rw [hya]
            exact hstepa
          · rw [hfr y hya]
            exact hinv y (by simp [hy]))
      constructor
      · intro hx
        by_cases hxr : x ∈ rest
        · exact (hih x).1 hxr
        · have hxa : x = a := by
            rcases List.mem_cons.mp hx with h1 | h1
            · exact h1
            · exact absurd h1 hxr
          rw [hxa, (hih a).2 (by rw [← hxa]; exact hxr)]
          exact hstepa
      · intro hx
        have hxa : x ≠ a := fun hq => hx (by rw [hq]; exact List.mem_cons_self a rest)
        have hxr : x ∉ rest := fun hq => hx (List.mem_cons_of_mem a hq)
        rw [(hih x).2 hxr, hfr x hxa]
    cases hcol : (Block.getByPosition b a).col with
    | const d n =>
      rw [hcol] at h
      have h2 : replaceLowCardinalityRewrite can nr
          (Block.setColumn b a ((Col.const d n).constRemoveLowCardinality.cloneResized nr))
          rest idx0 = .ok (b2, idx1) := h
      refine hcont _ idx0 h2 (fun y hy => by
          rw [Block.setColumn, getByPosition_set_ne _ _ _ _ hy]) ?_
      exact rewrite_step_const b a (T a) nr d n hcol (hinv a (by simp))
    | dict d di2 sh =>
      rw [hcol] at h
      cases hty2 : (Block.getByPosition b a).type with
      | lowCardinality u =>
        rw [hty2] at h
        cases hcan : can with
        | true =>
          rw [hcan] at h
          have h2 : replaceLowCardinalityRewrite true nr
              (Block.setPosition b a ⟨some d, u, (Block.getByPosition b a).name⟩)
              rest idx0 = .ok (b2, idx1) := h
          rw [hcan] at hcont
          refine hcont _ idx0 h2 (fun y hy => by
              rw [Block.setPosition, getByPosition_set_ne _ _ _ _ hy]) ?_
          exact rewrite_step_dict b a (T a) d di2 sh u d (hwf a (by simp)) hcol hty2
            (Or.inl rfl) (hinv a (by simp))
        | false =>
          rw [hcan] at h
          have h2 : replaceLowCardinalityRewrite false nr
              (Block.setPosition b a ⟨some (d.indexBy di2), u, (Block.getByPosition b a).name⟩)
              rest (some (List.range di2.length)) = .ok (b2, idx1) := h
          rw [hcan] at hcont
          refine hcont _ (some (List.range di2.length)) h2 (fun y hy => by
              rw [Block.setPosition, getByPosition_set_ne _ _ _ _ hy]) ?_
          exact rewrite_step_dict b a (T a) d di2 sh u (d.indexBy di2) (hwf a (by simp)) hcol
            hty2 (Or.inr rfl) (hinv a (by simp))
      | ground g =>
        rw [hty2] at h
        cases h
      | nothing =>
        rw [hty2] at h
        cases h
      | nullable u =>
        rw [hty2] at h
        cases h
      | array u =>
        rw [hty2] at h
        cases h
      | tuple us nm =>
        rw [hty2] at h
        cases h
    | plain g vs =>
      rw [hcol] at h
      exact hcont b idx0 h (fun y hy => rfl) (hinv a (by simp))
    | nothing n =>
      rw [hcol] at h
      exact hcont b idx0 h (fun y hy => rfl) (hinv a (by simp))
    | nullable v m =>
      rw [hcol] at h
      exact hcont b idx0 h (fun y hy => rfl) (hinv a (by simp))
    | array offs data =>
      rw [hcol] at h
      exact hcont b idx0 h (fun y hy => rfl) (hinv a (by simp))
    | tuple cs =>
      rw [hcol] at h
      exact hcont b idx0 h (fun y hy => rfl) (hinv a (by simp))
theorem executeA_cases (fuel : Nat) (f : Func) (block : Block) (args : List Nat)
    (result irc : Nat) (dt : DataType) (calls : List KernelCall) (block2 : Block)
    (hflag : f.useDefaultImplementationForColumnsWithDictionary = true)
    (hty : (Block.getByPosition block result).type = .lowCardinality dt)
    (hexec : execute fuel f block args result irc = (calls, .ok block2)) :
    (∃ k cv Y Z, cacheGet f.lowCardinalityResultCache k = some cv
        ∧ block2 = Block.setColumn block result (.dict cv.function_result Y Z))
    ∨ (∃ bwd2 indexes tb Y Z,
        replaceColumnsWithDictionaryByNestedAndGetDictionaryIndexes
            (Block.setType ((List.range block.length).map (fun i =>
              let p := Block.getByPosition block i
              if args.contains i then p else ⟨none, p.type, p.name⟩)) result dt)
            args f.canBeExecutedOnDefaultArguments = .ok (bwd2, indexes)
        ∧ executeWithoutLowCardinality fuel f bwd2 args result (Block.rows bwd2)
            = (calls, .ok tb)
        ∧ (block2 = Block.setColumn block result
              (.dict ((Block.getByPosition tb result).col.convertToFullColumnIfConst.getD
                (Block.getByPosition tb result).col) Y Z)
          ∨ ∃ k cv, cacheGet f.lowCardinalityResultCache k = some cv
              ∧ block2 = Block.setColumn block result (.dict cv.function_result Y Z))) := by
  rw [execute] at hexec
  simp only [hflag, if_true] at hexec
  split at hexec
  · rename_i dictionary_type heq
    rw [hty] at heq
    injection heq with heq2
    rw [← heq2] at hexec
    split at hexec
    · rw [Prod.mk.injEq] at hexec
      cases hexec.2
    · rename_i low_cardinality_column heqf
      split at hexec
      · rename_i cached_values heqc
        rw [Prod.mk.injEq] at hexec
        have h3 := hexec.2
        injection h3 with h4
        split at heqc
        · exact Or.inl ⟨_, cached_values, _, _, heqc, h4.symm⟩
        · cases heqc
      · rename_i heqc
        split at hexec
        · rw [Prod.mk.injEq] at hexec
          cases hexec.2
        · rename_i bwd2 indexes heqr
          split at hexec
          · rw [Prod.mk.injEq] at hexec
            cases hexec.2
          · rename_i calls2 tb heqE
            split at hexec
            · rename_i idxl
              rw [Prod.mk.injEq] at hexec
              have hcalls := hexec.1
              have h3 := hexec.2
              injection h3 with h4
              rw [hcalls] at heqE
              split at h4
              · rw [cacheGetOrSet] at h4
                split at h4
                · rename_i cv hcg
                  exact Or.inr ⟨bwd2, some idxl, tb, _, _, heqr, heqE,
                    Or.inr ⟨_, cv, hcg, h4.symm⟩⟩
                · exact Or.inr ⟨bwd2, some idxl, tb, _, _, heqr, heqE, Or.inl h4.symm⟩
              · exact Or.inr ⟨bwd2, some idxl, tb, _, _, heqr, heqE, Or.inl h4.symm⟩
            · rw [Prod.mk.injEq] at hexec
              have hcalls := hexec.1
              have h3 := hexec.2
              injection h3 with h4
              rw [hcalls] at heqE
              exact Or.inr ⟨bwd2, none, tb, _, _, heqr, heqE, Or.inl h4.symm⟩
  · rename_i hne
    exact absurd hty (hne dt)
theorem executeB_cases (fuel : Nat) (f : Func) (block : Block) (args : List Nat)
    (result irc : Nat) (calls : List KernelCall) (block2 : Block)
    (hflag : f.useDefaultImplementationForColumnsWithDictionary = true)
    (hnotlc : ∀ u, (Block.getByPosition block result).type ≠ .lowCardinality u)
    (hexec : execute fuel f block args result irc = (calls, .ok block2)) :
    ∃ tb, executeWithoutLowCardinality fuel f
        (convertColumnsWithDictionaryToFull ((List.range block.length).map (fun i =>
          let p := Block.getByPosition block i
          if args.contains i then p else ⟨none, p.type, p.name⟩)) args)
        args result irc = (calls, .ok tb)
      ∧ block2 = Block.setColumn block result (Block.getByPosition tb result).col := by
  rw [execute_caseB fuel f block args result irc hflag hnotlc] at hexec
  split at hexec
  · rw [Prod.mk.injEq] at hexec
    cases hexec.2
  · rename_i calls2 tb heqE
    rw [Prod.mk.injEq] at hexec
    have h3 := hexec.2
    injection h3 with h4
    rw [hexec.1] at heqE
    exact ⟨tb, heqE, h4.symm⟩
theorem mirror_of_nullable (t : DataType) (h : t.isNullable = true) :
    recursiveRemoveLowCardinalityType (lcPeel t) = t := by
  cases t with
  | nullable u => rfl
  | ground g => cases h
  | nothing => cases h
  | array u => cases h
  | tuple us nm => cases h
  | lowCardinality u => cases h

theorem stripT_of_nullable (t : DataType) (h : t.isNullable = true) :
    recursiveRemoveLowCardinalityType t = t := by
  cases t with
  | nullable u => rfl
  | ground g => cases h
  | nothing => cases h
  | array u => cases h
  | tuple us nm => cases h
  | lowCardinality u => cases h

theorem mirror_hn_of_strip (t : DataType)
    (h : (recursiveRemoveLowCardinalityType t).isNullable = true) :
    (recursiveRemoveLowCardinalityType (lcPeel t)).isNullable = true := by
  cases t with
  | lowCardinality u =>
    have h2 : u.isNullable = true := h
    show (recursiveRemoveLowCardinalityType u).isNullable = true
    rw [stripT_of_nullable u h2]
    exact h2
  | ground g => exact h
  | nothing => exact h
  | nullable u => exact h
  | array u => exact h
  | tuple us nm => exact h

theorem bwd_pos_mem (block : Block) (args : List Nat) (x : Nat) (hx : x ∈ args) :
    Block.getByPosition ((List.range block.length).map (fun i =>
        let p := Block.getByPosition block i
        if args.contains i then p else ⟨none, p.type, p.name⟩)) x
      = Block.getByPosition block x := by
  by_cases hlt : x < block.length
  · rw [getByPosition_map_range _ _ _ hlt]
    simp only [List.elem_iff.mpr hx, if_true]
  · rw [getByPosition_oob _ _ (by simpa using hlt), getByPosition_oob block x (by omega)]

theorem bwd_pos_nomem (block : Block) (args : List Nat) (x : Nat) (hx : x ∉ args) :
    Block.getByPosition ((List.range block.length).map (fun i =>
        let p := Block.getByPosition block i
        if args.contains i then p else ⟨none, p.type, p.name⟩)) x
      = ⟨none, (Block.getByPosition block x).type, (Block.getByPosition block x).name⟩ := by
  by_cases hlt : x < block.length
  · rw [getByPosition_map_range _ _ _ hlt]
    have hc : args.contains x = false := by
      cases hq : args.contains x
      · rfl
      · exact absurd (List.elem_iff.mp hq) hx
    simp only [hc, Bool.false_eq_true, if_false]
  · rw [getByPosition_oob _ _ (by simpa using hlt), getByPosition_oob block x (by omega)]
    rfl

theorem setType_pos (b : Block) (i : Nat) (t : DataType) (hlt : i < b.length) :
    Block.getByPosition (Block.setType b i t) i
      = ⟨(Block.getByPosition b i).column, t, (Block.getByPosition b i).name⟩ := by
  rw [Block.setType, getByPosition_set_self _ _ _ hlt]

theorem setType_ne (b : Block) (i : Nat) (t : DataType) (j : Nat) (h : j ≠ i) :
    Block.getByPosition (Block.setType b i t) j = Block.getByPosition b j := by
  rw [Block.setType, getByPosition_set_ne _ _ _ _ h]

theorem result_lt_of_LC (block : Block) (result : Nat) (dt : DataType)
    (hty : (Block.getByPosition block result).type = .lowCardinality dt) :
    result < block.length := by
  by_cases h : result < block.length
  · exact h
  · rw [getByPosition_oob block result (by omega)] at hty
    cases hty
theorem caseA_typed (fuel : Nat) (f : Func) (block : Block) (args : List Nat)
    (result irc : Nat) (dt : DataType) (calls : List KernelCall) (block2 : Block)
    (hflag : f.useDefaultImplementationForColumnsWithDictionary = true)
    (hty : (Block.getByPosition block result).type = .lowCardinality dt)
    (hcontract : ∀ (b : Block) (as : List Nat) (r n : Nat) (c : Col),
        f.kernel b as r n = .ok c → hasType c (Block.getByPosition b r).type = true)
    (hargsT : ∀ x ∈ args, hasType (Block.getByPosition block x).col
      (Block.getByPosition block x).type = true)
    (hargsC : ∀ x ∈ args, Col.colWf (Block.getByPosition block x).col = true)
    (hargswf : ∀ x ∈ args, typeWf (Block.getByPosition block x).type = true)
    (hrescol : (Block.getByPosition block result).column = none)
    (hret : getReturnType f (Block.argDescr block args) = .ok (.lowCardinality dt))
    (hwfT : typeWf (DataType.lowCardinality dt) = true)
    (hcache : ∀ k cv, cacheGet f.lowCardinalityResultCache k = some cv →
        hasType cv.function_result dt = true)
    (hexec : execute fuel f block args result irc = (calls, .ok block2)) :
    hasType (Block.getByPosition block2 result).col (.lowCardinality dt) = true := by
  have hreslt := result_lt_of_LC block result dt hty
  have hnotin : result ∉ args := by
    intro hmem
    have hT := hargsT result hmem
    rw [ColumnWithTypeAndName.col, hrescol] at hT
    have hT2 : hasType (.nothing 0) (Block.getByPosition block result).type = true := hT
    rw [hty] at hT2
    have hbad := hasType_nothing_elim 0 _ hT2
    cases hbad
  have hdtwf : typeWf dt = true := by
    have hlcw : lcInnerWf dt = true := hwfT
    exact lcInnerWf_typeWf dt hlcw
  rcases executeA_cases fuel f block args result irc dt calls block2 hflag hty hexec with
    ⟨k, cv, Y, Z, hcg, hb2⟩ | ⟨bwd2, indexes, tb, Y, Z, hrepl, hEWD, hforms⟩
  · rw [hb2]
    have hct : hasType (Col.dict cv.function_result Y Z)
        (Block.getByPosition block result).type = true := by
      rw [hty]
      exact hcache k cv hcg
    have hfin := setCol_hasType block result _ hct
    rw [hty] at hfin
    exact hfin
  · rw [replaceColumnsWithDictionaryByNestedAndGetDictionaryIndexes] at hrepl
    split at hrepl
    · cases hrepl
    · rename_i idx0 nr heqscan
      have hbwdx : ∀ x ∈ args,
          Block.getByPosition (Block.setType ((List.range block.length).map (fun i =>
            let p := Block.getByPosition block i
            if args.contains i then p else ⟨none, p.type, p.name⟩)) result dt) x
          = Block.getByPosition block x := by
        intro x hx
        rw [setType_ne _ _ _ x (fun hq => hnotin (by rw [← hq]; exact hx)),
          bwd_pos_mem block args x hx]
      have hinv0 : ∀ x ∈ args, rewInv ((Block.getByPosition block x).type)
          (Block.getByPosition (Block.setType ((List.range block.length).map (fun i =>
            let p := Block.getByPosition block i
            if args.contains i then p else ⟨none, p.type, p.name⟩)) result dt) x) := by
        intro x hx
        rw [hbwdx x hx]
        exact ⟨Or.inl rfl, fun _ => ⟨hargsT x hx, hargsC x hx⟩,
          fun _ => ⟨hargsT x hx, hargsC x hx⟩⟩
      have hR := rewrite_inv f.canBeExecutedOnDefaultArguments nr args
        (Block.setType ((List.range block.length).map (fun i =>
          let p := Block.getByPosition block i
          if args.contains i then p else ⟨none, p.type, p.name⟩)) result dt)
        idx0 bwd2 indexes (fun x => (Block.getByPosition block x).type) hrepl
        (fun x hx => hargswf x hx) hinv0
      have hslotbwd : Block.getByPosition (Block.setType ((List.range block.length).map (fun i =>
          let p := Block.getByPosition block i
          if args.contains i then p else ⟨none, p.type, p.name⟩)) result dt) result
          = ⟨none, dt, (Block.getByPosition block result).name⟩ := by
        rw [setType_pos _ _ _ (by rw [bwd_length]; exact hreslt),
          bwd_pos_nomem block args result hnotin]
      have hslot2 : Block.getByPosition bwd2 result
          = ⟨none, dt, (Block.getByPosition block result).name⟩ := by
        rw [(hR result).2 hnotin, hslotbwd]
      have hargs2 : ∀ x ∈ args, argOk (Block.getByPosition bwd2 x) := by
        intro x hx hN
        rcases (hR x).1 hx with ⟨htrk, hnul, hdict⟩
        rcases hnul hN with ⟨hT, hW⟩
        refine ⟨hT, hW, ?_⟩
        rcases htrk with h1 | h1
        · have h1b : (Block.getByPosition bwd2 x).type = (Block.getByPosition block x).type := h1
          rw [h1b]
          exact hargswf x hx
        · have h1b : (Block.getByPosition block x).type
              = .lowCardinality ((Block.getByPosition bwd2 x).type) := h1
          have hq : typeWf ((Block.getByPosition block x).type) = true := hargswf x hx
          rw [h1b] at hq
          exact lcInnerWf_typeWf _ hq
      have hcn2 : (Block.getByPosition bwd2 result).column = none := by
        rw [hslot2]
      have hwf2 : typeWf (Block.getByPosition bwd2 result).type = true := by
        rw [hslot2]
        exact hdtwf
      have hinv22 : f.useDefaultImplementationForNulls = true →
          (getNullPresense bwd2 args).has_nullable = true →
          (getNullPresense bwd2 args).has_null_constant = false →
          DataType.isNullable (Block.getByPosition bwd2 result).type = true := by
        intro hudn hn hnc
        rw [hslot2]
        rw [getNullPresense, getNullPresense_foldl_hn, Bool.false_or] at hn
        rcases List.any_eq_true.mp hn with ⟨x, hx, hpx⟩
        rcases (hR x).1 hx with ⟨htrk, _, _⟩
        have hmirror : (recursiveRemoveLowCardinalityType
            (lcPeel ((Block.getByPosition block x).type))).isNullable = true := by
          rcases htrk with h1 | h1
          · have h1b : (Block.getByPosition bwd2 x).type
                = (Block.getByPosition block x).type := h1
            rw [h1b] at hpx
            rw [mirror_of_nullable _ hpx]
            exact hpx
          · have h1b : (Block.getByPosition block x).type
                = .lowCardinality ((Block.getByPosition bwd2 x).type) := h1
            rw [h1b]
            show (recursiveRemoveLowCardinalityType
              ((Block.getByPosition bwd2 x).type)).isNullable = true
            rw [stripT_of_nullable _ hpx]
            exact hpx
        have hmem2 : Block.getByPosition block x ∈ Block.argDescr block args := by
          rw [Block.argDescr]
          exact List.mem_map_of_mem _ hx
        have hmhn := argsWLC_hn_intro (Block.argDescr block args)
          (Block.getByPosition block x) hmem2 hmirror
        rcases ret_flagTrue_cases f (Block.argDescr block args) (.lowCardinality dt)
            hflag hret with ⟨t, hTt, hok⟩ | hok
        · injection hTt with ht2
          rw [← ht2] at hok
          exact retWLC_nullable f _ dt hok hudn hmhn
        · have hbad := retWLC_nullable f _ _ hok hudn hmhn
          cases hbad
      have hEWDty := EWD_type fuel f bwd2 args result (Block.rows bwd2) calls tb hcontract
        hargs2 hcn2 hwf2 hinv22 hEWD
      rw [hslot2] at hEWDty
      have hkeys0 : hasType (Block.getByPosition tb result).col dt = true := hEWDty
      have hkeys : hasType
          ((Block.getByPosition tb result).col.convertToFullColumnIfConst.getD
            (Block.getByPosition tb result).col) dt = true :=
        convertIfConst_hasType _ dt hkeys0
      rcases hforms with hb2 | ⟨k, cv, hcg, hb2⟩
      · rw [hb2]
        have hct : hasType (Col.dict
            ((Block.getByPosition tb result).col.convertToFullColumnIfConst.getD
              (Block.getByPosition tb result).col) Y Z)
            (Block.getByPosition block result).type = true := by
          rw [hty]
          exact hkeys
        have hfin := setCol_hasType block result _ hct
        rw [hty] at hfin
        exact hfin
      · rw [hb2]
        have hct : hasType (Col.dict cv.function_result Y Z)
            (Block.getByPosition block result).type = true := by
          rw [hty]
          exact hcache k cv hcg
        have hfin := setCol_hasType block result _ hct
        rw [hty] at hfin
        exact hfin
theorem caseB_typed (fuel : Nat) (f : Func) (block : Block) (args : List Nat)
    (result irc : Nat) (T : DataType) (calls : List KernelCall) (block2 : Block)
    (hflag : f.useDefaultImplementationForColumnsWithDictionary = true)
    (hnotlc : ∀ u, (Block.getByPosition block result).type ≠ .lowCardinality u)
    (hcontract : ∀ (b : Block) (as : List Nat) (r n : Nat) (c : Col),
        f.kernel b as r n = .ok c → hasType c (Block.getByPosition b r).type = true)
    (hargsT : ∀ x ∈ args, hasType (Block.getByPosition block x).col
      (Block.getByPosition block x).type = true)
    (hargsC : ∀ x ∈ args, Col.colWf (Block.getByPosition block x).col = true)
    (hargswf : ∀ x ∈ args, typeWf (Block.getByPosition block x).type = true)
    (hrescol : (Block.getByPosition block result).column = none)
    (hret : getReturnType f (Block.argDescr block args) = .ok T)
    (hslot : (Block.getByPosition block result).type = T)
    (hwfT : typeWf T = true)
    (hexec : execute fuel f block args result irc = (calls, .ok block2)) :
    hasType (Block.getByPosition block2 result).col T = true := by
  rcases executeB_cases fuel f block args result irc calls block2 hflag hnotlc hexec with
    ⟨tb, hEWD, hb2⟩
  have hinv0 : ∀ x ∈ args, convInv ((Block.getByPosition block x).type)
      (Block.getByPosition ((List.range block.length).map (fun i =>
        let p := Block.getByPosition block i
        if args.contains i then p else ⟨none, p.type, p.name⟩)) x) := by
    intro x hx
    rw [bwd_pos_mem block args x hx]
    exact ⟨Or.inl rfl, hargsT x hx, hargsC x hx, hargswf x hx⟩
  have hC := convertFull_props args ((List.range block.length).map (fun i =>
      let p := Block.getByPosition block i
      if args.contains i then p else ⟨none, p.type, p.name⟩))
    (fun x => (Block.getByPosition block x).type) (fun x hx => hargswf x hx) hinv0
  have hslot2 : (Block.getByPosition (convertColumnsWithDictionaryToFull
        ((List.range block.length).map (fun i =>
          let p := Block.getByPosition block i
          if args.contains i then p else ⟨none, p.type, p.name⟩)) args) result).type = T
      ∧ (Block.getByPosition (convertColumnsWithDictionaryToFull
        ((List.range block.length).map (fun i =>
          let p := Block.getByPosition block i
          if args.contains i then p else ⟨none, p.type, p.name⟩)) args) result).column
        = none := by
    by_cases hres : result ∈ args
    · have hTn : (Block.getByPosition block result).type = .nothing := by
        have hT := hargsT result hres
        rw [ColumnWithTypeAndName.col, hrescol] at hT
        have hT2 : hasType (.nothing 0) (Block.getByPosition block result).type = true := hT
        exact hasType_nothing_elim 0 _ hT2
      have hTeq : T = .nothing := by
        rw [← hslot]
        exact hTn
      rcases (hC result).1 hres with ⟨htrk, _, _, _⟩
      constructor
      · rw [hTeq]
        rcases htrk with h1 | h1
        · have h1b : (Block.getByPosition (convertColumnsWithDictionaryToFull
              ((List.range block.length).map (fun i =>
                let p := Block.getByPosition block i
                if args.contains i then p else ⟨none, p.type, p.name⟩)) args) result).type
              = (Block.getByPosition block result).type := h1
          rw [h1b, hTn]
        · have h1b : (Block.getByPosition (convertColumnsWithDictionaryToFull
              ((List.range block.length).map (fun i =>
                let p := Block.getByPosition block i
                if args.contains i then p else ⟨none, p.type, p.name⟩)) args) result).type
              = recursiveRemoveLowCardinalityType (Block.getByPosition block result).type := h1
          rw [h1b, hTn]
          rfl
      · refine (hC result).2.2 hres ?_
        rw [bwd_pos_mem block args result hres]
        exact hrescol
    · rw [(hC result).2.1 hres, bwd_pos_nomem block args result hres]
      exact ⟨hslot, rfl⟩
  have hargs2 : ∀ x ∈ args, argOk (Block.getByPosition (convertColumnsWithDictionaryToFull
      ((List.range block.length).map (fun i =>
        let p := Block.getByPosition block i
        if args.contains i then p else ⟨none, p.type, p.name⟩)) args) x) := by
    intro x hx hN
    rcases (hC x).1 hx with ⟨_, hT, hW, htW⟩
    exact ⟨hT, hW, htW⟩
  have hinv22 : f.useDefaultImplementationForNulls = true →
      (getNullPresense (convertColumnsWithDictionaryToFull
        ((List.range block.length).map (fun i =>
          let p := Block.getByPosition block i
          if args.contains i then p else ⟨none, p.type, p.name⟩)) args) args).has_nullable
        = true →
      (getNullPresense (convertColumnsWithDictionaryToFull
        ((List.range block.length).map (fun i =>
          let p := Block.getByPosition block i
          if args.contains i then p else ⟨none, p.type, p.name⟩)) args) args).has_null_constant
        = false →
      DataType.isNullable (Block.getByPosition (convertColumnsWithDictionaryToFull
        ((List.range block.length).map (fun i =>
          let p := Block.getByPosition block i
          if args.contains i then p else ⟨none, p.type, p.name⟩)) args) result).type
        = true := by
    intro hudn hn hnc
    rw [hslot2.1]
    rw [getNullPresense, getNullPresense_foldl_hn, Bool.false_or] at hn
    rcases List.any_eq_true.mp hn with ⟨x, hx, hpx⟩
    rcases (hC x).1 hx with ⟨htrk, _, _, _⟩
    have hmirror : (recursiveRemoveLowCardinalityType
        (lcPeel ((Block.getByPosition block x).type))).isNullable = true := by
      rcases htrk with h1 | h1
      · have h1b : (Block.getByPosition (convertColumnsWithDictionaryToFull
            ((List.range block.length).map (fun i =>
              let p := Block.getByPosition block i
              if args.contains i then p else ⟨none, p.type, p.name⟩)) args) x).type
            = (Block.getByPosition block x).type := h1
        rw [h1b] at hpx
        rw [mirror_of_nullable _ hpx]
        exact hpx
      · have h1b : (Block.getByPosition (convertColumnsWithDictionaryToFull
            ((List.range block.length).map (fun i =>
              let p := Block.getByPosition block i
              if args.contains i then p else ⟨none, p.type, p.name⟩)) args) x).type
            = recursiveRemoveLowCardinalityType (Block.getByPosition block x).type := h1
        rw [h1b] at hpx
        exact mirror_hn_of_strip _ hpx
    have hmem2 : Block.getByPosition block x ∈ Block.argDescr block args := by
      rw [Block.argDescr]
      exact List.mem_map_of_mem _ hx
    have hmhn := argsWLC_hn_intro (Block.argDescr block args)
      (Block.getByPosition block x) hmem2 hmirror
    rcases ret_flagTrue_cases f (Block.argDescr block args) T hflag hret with
      ⟨t, hTt, hok⟩ | hok
    · exact absurd (hslot.trans hTt) (hnotlc t)
    · exact retWLC_nullable f _ T hok hudn hmhn
  have hEWDty := EWD_type fuel f (convertColumnsWithDictionaryToFull
      ((List.range block.length).map (fun i =>
        let p := Block.getByPosition block i
        if args.contains i then p else ⟨none, p.type, p.name⟩)) args)
    args result irc calls tb hcontract hargs2 hslot2.2
    (by rw [hslot2.1]; exact hwfT) hinv22 hEWD
  rw [hslot2.1] at hEWDty
  rw [hb2]
  have hct : hasType (Block.getByPosition tb result).col
      (Block.getByPosition block result).type = true := by
    rw [hslot]
    exact hEWDty
  have hfin := setCol_hasType block result _ hct
  rw [hslot] at hfin
  exact hfin

/-- C1: type-value agreement.  For every function whose row-kernel
honours the result slot's declared type and whose dictionary result
cache holds only columns conforming to the slot's dictionary type, every
block whose argument columns conform to their well-formed declared
types, and an empty result slot whose type is the (well-formed) type
computed by `getReturnType` from the arguments alone, if `execute`
succeeds then the column it wrote into the result slot conforms to that
computed return type — through the dictionary dispatch (the result
cache, the LowCardinality dictionary rebuild and the converted-to-full
path) and the constants default, the NULL-constant short-circuit, the
Nullable re-wrapping and the plain kernel call alike. -/
theorem claim_type_value_agreement (fuel : Nat) (f : Func) (block : Block) (args : List Nat)
    (result irc : Nat) (T : DataType) (calls : List KernelCall) (block2 : Block)
    (hcontract : ∀ (b : Block) (as : List Nat) (r n : Nat) (c : Col),
        f.kernel b as r n = .ok c → hasType c (Block.getByPosition b r).type = true)
    (hargsT : ∀ x ∈ args, hasType (Block.getByPosition block x).col
      (Block.getByPosition block x).type = true)
    (hargsC : ∀ x ∈ args, Col.colWf (Block.getByPosition block x).col = true)
    (hargswf : ∀ x ∈ args, typeWf (Block.getByPosition block x).type = true)
    (hrescol : (Block.getByPosition block result).column = none)
    (hret : getReturnType f (Block.argDescr block args) = .ok T)
    (hslot : (Block.getByPosition block result).type = T)
    (hwfT : typeWf T = true)
    (hcache : ∀ k cv, cacheGet f.lowCardinalityResultCache k = some cv →
        ∀ dt, (Block.getByPosition block result).type = .lowCardinality dt →
        hasType cv.function_result dt = true)
    (hexec : execute fuel f block args result irc = (calls, .ok block2)) :
    hasType (Block.getByPosition block2 result).col T = true := by
  cases hflag : f.useDefaultImplementationForColumnsWithDictionary with
  | false =>
    rw [execute_no_dict_flag _ _ _ _ _ _ hflag] at hexec
    have hmain := EWD_type fuel f block args result irc calls block2 hcontract
      (fun x hx _ => ⟨hargsT x hx, hargsC x hx, hargswf x hx⟩)
      hrescol (by rw [hslot]; exact hwfT)
      (fun hudn hn hnc => by
        rw [hslot]
        exact hinv2_of_ret f block args T hflag hret hudn hn hnc)
      hexec
    rw [hslot] at hmain
    exact hmain
  | true =>
    cases hTshape : T with
    | lowCardinality dt =>
      have hty : (Block.getByPosition block result).type = .lowCardinality dt := by
        rw [hslot, hTshape]
      exact caseA_typed fuel f block args result irc dt calls block2 hflag hty hcontract
        hargsT hargsC hargswf hrescol (by rw [← hTshape]; exact hret)
        (by rw [← hTshape]; exact hwfT)
        (fun k cv h => hcache k cv h dt hty) hexec
    | ground g =>
      rw [← hTshape]
      refine caseB_typed fuel f block args result irc T calls block2 hflag ?_ hcontract
        hargsT hargsC hargswf hrescol hret hslot hwfT hexec
      intro u h
      rw [hslot, hTshape] at h
      cases h
    | nothing =>
      rw [← hTshape]
      refine caseB_typed fuel f block args result irc T calls block2 hflag ?_ hcontract
        hargsT hargsC hargswf hrescol hret hslot hwfT hexec
      intro u h
      rw [hslot, hTshape] at h
      cases h
    | nullable t2 =>
      rw [← hTshape]
      refine caseB_typed fuel f block args result irc T calls block2 hflag ?_ hcontract
        hargsT hargsC hargswf hrescol hret hslot hwfT hexec
      intro u h
      rw [hslot, hTshape] at h
      cases h
    | array t2 =>
      rw [← hTshape]
      refine caseB_typed fuel f block args result irc T calls block2 hflag ?_ hcontract
        hargsT hargsC hargswf hrescol hret hslot hwfT hexec
      intro u h
      rw [hslot, hTshape] at h
      cases h
    | tuple ts named =>
      rw [← hTshape]
      refine caseB_typed fuel f block args result irc T calls block2 hflag ?_ hcontract
        hargsT hargsC hargswf hrescol hret hslot hwfT hexec
      intro u h
      rw [hslot, hTshape] at h
      cases h

/-- Witness for the type-value agreement at a concrete function and
block: a default-column kernel under a Nullable(ground) return type
computed by the nulls default; the written column is
Nullable(Plain [0,0], [false,true]), conforming to Nullable(ground 0). -/
theorem claim_type_value_agreement_w :
    hasType
      (Block.getByPosition
        [⟨some (.nullable (.plain 0 [1, 2]) [false, true]), .nullable (.ground 0), "a"⟩,
          ⟨some (.nullable (.plain 0 [0, 0]) [false, true]), .nullable (.ground 0), "r"⟩]
        1).col
      (.nullable (.ground 0)) = true :=
  claim_type_value_agreement 2
    ⟨false, true, false, false, true, false, 1, [],
      fun b _ r n => .ok (DataType.defaultColumn (Block.getByPosition b r).type n),
      fun _ => .ok (.ground 0), none⟩
    [⟨some (.nullable (.plain 0 [1, 2]) [false, true]), .nullable (.ground 0), "a"⟩,
      ⟨none, .nullable (.ground 0), "r"⟩]
    [0] 1 2 (.nullable (.ground 0))
    [⟨[⟨some (.plain 0 [1, 2]), .ground 0, "a"⟩, ⟨none, .ground 0, "r"⟩], [0], 1, 2⟩]
    [⟨some (.nullable (.plain 0 [1, 2]) [false, true]), .nullable (.ground 0), "a"⟩,
      ⟨some (.nullable (.plain 0 [0, 0]) [false, true]), .nullable (.ground 0), "r"⟩]
    (fun b as r n c h => by
      injection h with h2
      rw [← h2]
      exact defaultColumn_hasType _ _)
    (by decide) (by decide) (by decide) rfl rfl rfl rfl
    (fun k cv h => nomatch h) rfl

end DB
